import Mathlib

/-!
# Kernel memory manager: frame ledger and page-table walker

A shallow embedding of `Kernel/Memory/MemoryManager.cpp`.  The manager's
mutable state is one record, every member function is a function from the old
state to an `Outcome` holding the new one.  `VERIFY`, `PANIC` and
`VERIFY_NOT_REACHED` become `Outcome.fatal`; spinning on a spinlock that the
same processor already holds becomes `Outcome.deadlock`; `ErrorOr<T>` becomes
`Except Errno T`.  Counters of type `PhysicalSize` / `size_t` are naturals
reduced modulo `2 ^ 64` wherever the C++ arithmetic can wrap.
-/

namespace Kernel.Memory

/-! ## Basic types -/

/-- The size of one page, in bytes. -/
def PAGE_SIZE : Nat := 4096

/-- The error codes that the memory manager returns. -/
inductive Errno where
  | ENOMEM
  | EINVAL
deriving DecidableEq

/-- The result of running a member function: it returns, it stops the kernel
(`VERIFY`, `PANIC`), or it spins forever on a lock it already holds. -/
inductive Outcome (α : Type) where
  | ok (value : α)
  | fatal
  | deadlock

/-- Sequencing of outcomes: the first failure ends the run. -/
def Outcome.bind {α β : Type} (x : Outcome α) (f : α → Outcome β) : Outcome β :=
  match x with
  | .ok a => f a
  | .fatal => .fatal
  | .deadlock => .deadlock

/-- Addition of two `size_t` values. -/
def wrapping_add (a b : Nat) : Nat := (a + b) % 2 ^ 64

/-- Subtraction of two `size_t` values: the difference modulo `2 ^ 64`. -/
def wrapping_sub (a b : Nat) : Nat :=
  if b % 2 ^ 64 ≤ a % 2 ^ 64 then a % 2 ^ 64 - b % 2 ^ 64
  else a % 2 ^ 64 + 2 ^ 64 - b % 2 ^ 64

/-- The four counters of `SystemMemoryInfo`. -/
structure SystemMemoryInfo where
  physical_pages : Nat
  physical_pages_used : Nat
  physical_pages_committed : Nat
  physical_pages_uncommitted : Nat
deriving DecidableEq

/-- The token returned by `commit_physical_pages`: `m_page_count`. -/
structure CommittedPhysicalPageSet where
  m_page_count : Nat
deriving DecidableEq

/-! ## Physical regions -/

/-- Modelled from the spec: `PhysicalRegion` (Kernel/Memory/PhysicalRegion.h
and .cpp are not among the sources).  The spec describes a region as "a
contiguous physical-address span plus an internal free-frame allocator", "a
bitmap/free-list allocator of frames within its bounds".  `lower` is the
physical address of the first frame, `frames` is the bitmap: entry `i` is
`true` when the frame at `lower + i * PAGE_SIZE` is free. -/
structure PhysicalRegion where
  lower : Nat
  frames : List Bool
deriving DecidableEq

/-- Modelled from the spec: `PhysicalRegion::size`, the number of frames. -/
def PhysicalRegion.size (r : PhysicalRegion) : Nat := r.frames.length

/-- The number of free frames of a region. -/
def PhysicalRegion.free_count (r : PhysicalRegion) : Nat := r.frames.count true

/-- Modelled from the spec: `PhysicalRegion::contains`, whether the address
lies within the bounds of the region. -/
def PhysicalRegion.contains (r : PhysicalRegion) (paddr : Nat) : Bool :=
  decide (r.lower ≤ paddr) && decide (paddr < r.lower + r.size * PAGE_SIZE)

/-- The bitmap search behind `take_free_page`: the index of the first free
frame, and the bitmap with that frame marked as taken. -/
def take_first_free : List Bool → Option (Nat × List Bool)
  | [] => none
  | true :: fs => some (0, false :: fs)
  | false :: fs =>
    match take_first_free fs with
    | some (i, fs') => some (i + 1, false :: fs')
    | none => none

/-- Modelled from the spec: `PhysicalRegion::take_free_page`
("`allocate_single()` returns one free frame ... or empty if all are
exhausted").  The result is the physical address of the frame. -/
def PhysicalRegion.take_free_page (r : PhysicalRegion) : Option (Nat × PhysicalRegion) :=
  match take_first_free r.frames with
  | some (i, fs) => some (r.lower + i * PAGE_SIZE, { r with frames := fs })
  | none => none

/-- Whether the first `n` frames of the bitmap exist and are all free. -/
def run_is_free : Nat → List Bool → Bool
  | 0, _ => true
  | _ + 1, [] => false
  | n + 1, f :: fs => f && run_is_free n fs

/-- The index of the first run of `n` free frames. -/
def find_free_run (n : Nat) : List Bool → Option Nat
  | [] => none
  | f :: fs =>
    if run_is_free n (f :: fs) then some 0
    else
      match find_free_run n fs with
      | some i => some (i + 1)
      | none => none

/-- Mark the `n` frames from index `i` on as taken. -/
def claim_run : Nat → Nat → List Bool → List Bool
  | _, _, [] => []
  | 0, 0, f :: fs => f :: fs
  | 0, n + 1, _ :: fs => false :: claim_run 0 n fs
  | i + 1, n, f :: fs => f :: claim_run i n fs

/-- Modelled from the spec: `PhysicalRegion::take_contiguous_free_pages`
("`allocate_contiguous(n)` returns n physically-contiguous frames from a
single region or empty").  `none` stands for the empty vector. -/
def PhysicalRegion.take_contiguous_free_pages (r : PhysicalRegion) (count : Nat) :
    Option (List Nat × PhysicalRegion) :=
  if count = 0 then none
  else
    match find_free_run count r.frames with
    | some i =>
      some ((List.range count).map (fun k => r.lower + (i + k) * PAGE_SIZE),
        { r with frames := claim_run i count r.frames })
    | none => none

/-- Mark the frame at index `i` as free; `none` when there is no such frame or
it is free already. -/
def release_frame : Nat → List Bool → Option (List Bool)
  | _, [] => none
  | 0, f :: fs => if f then none else some (true :: fs)
  | i + 1, f :: fs =>
    match release_frame i fs with
    | some fs' => some (f :: fs')
    | none => none

/-- Modelled from the spec: `PhysicalRegion::return_page` ("returns a frame to
its owning region's free structure").  A frame is either free or allocated;
handing back a frame that is not allocated is a programming error, `none`. -/
def PhysicalRegion.return_page (r : PhysicalRegion) (paddr : Nat) : Option PhysicalRegion :=
  match release_frame ((paddr - r.lower) / PAGE_SIZE) r.frames with
  | some fs => some { r with frames := fs }
  | none => none

/-- The number of frames of all regions. -/
def total_frames (rs : List PhysicalRegion) : Nat := (rs.map PhysicalRegion.size).sum

/-- The number of free frames of all regions. -/
def free_frames (rs : List PhysicalRegion) : Nat := (rs.map PhysicalRegion.free_count).sum

/-! ## Page-table entries -/

/-- Modelled from the spec: `PageTableEntry` and `PageDirectoryEntry`
(Kernel/Arch/PageDirectory.h is not among the sources): "present/absent,
physical target, permission bits (writable, user-accessible,
execute-disabled, global)".  `physical_page_base` is also the
`page_table_base` of a directory entry. -/
structure PageEntry where
  present : Bool
  writable : Bool
  user_allowed : Bool
  execute_disabled : Bool
  global : Bool
  physical_page_base : Nat
deriving DecidableEq

/-- The entry whose raw value is zero. -/
def PageEntry.null : PageEntry :=
  { present := false, writable := false, user_allowed := false,
    execute_disabled := false, global := false, physical_page_base := 0 }

/-- Modelled from the spec: `is_null`, the raw value is zero. -/
def PageEntry.is_null (e : PageEntry) : Bool := decide (e = PageEntry.null)

/-- Modelled from the spec: `clear`, the raw value becomes zero. -/
def PageEntry.clear (_e : PageEntry) : PageEntry := PageEntry.null

/-- The constants of Kernel/Sections.h that the quickmap functions use; the
header is not among the sources, so they are parameters. -/
structure KernelLayout where
  KERNEL_PT1024_BASE : Nat
  KERNEL_QUICKMAP_PT_PER_CPU_BASE : Nat
  KERNEL_QUICKMAP_PD_PER_CPU_BASE : Nat
  KERNEL_QUICKMAP_PER_CPU_BASE : Nat
deriving DecidableEq

/-- The processor that runs the code: `Processor::current_id()`, together
with the layout constants it computes its quickmap slots from. -/
structure Processor where
  layout : KernelLayout
  current_id : Nat
deriving DecidableEq

/-- A `PageDirectory` as the walker sees it: the physical addresses of its
directory pages (`m_directory_pages[i]->paddr()`), whether the current
processor holds its lock, and whether it is `m_kernel_page_directory`. -/
structure PageDirectory where
  directory_pages : Nat → Nat
  lock_held : Bool
  is_kernel : Bool

/-! ## The state of the memory manager -/

/-- The mutable state that the functions of `MemoryManager` read and write.

* `system_memory_info`, `physical_regions`: `GlobalData`.
* `physical_page_entries_count`, `ref_count`, `may_return_to_freelist`: the
  `PhysicalPageEntry` array, keyed by physical page index.  Modelled from the
  spec: `PhysicalPage` is "an explicit count stored alongside each table
  frame".
* `pd_pages`, `pt_pages`: the contents of the frames that hold page
  directories and page tables, keyed by the physical address of the frame and
  the index of the entry.  Frames that hold directories and frames that hold
  page tables are kept apart: no frame is both.
* `boot_pd_kernel_pt1023`: the page table that holds the quickmap slots.
* `interrupts_disabled`: whether the processor that runs the code has its
  interrupts disabled.
* `quickmap_in_use`: `MemoryManagerData::m_quickmap_in_use`, per processor. -/
structure MemoryManager where
  system_memory_info : SystemMemoryInfo
  physical_regions : List PhysicalRegion
  physical_page_entries_count : Nat
  ref_count : Nat → Nat
  may_return_to_freelist : Nat → Bool
  pd_pages : Nat → Nat → PageEntry
  pt_pages : Nat → Nat → PageEntry
  boot_pd_kernel_pt1023 : Nat → PageEntry
  interrupts_disabled : Bool
  quickmap_in_use : Nat → Bool

/-! ## The frame ledger -/

/-- Replace the counters. -/
def MemoryManager.set_info (s : MemoryManager) (i : SystemMemoryInfo) : MemoryManager :=
  { s with system_memory_info := i }

/-- `MemoryManager::commit_physical_pages`.  The listing of the processes
that follows a failure only prints. -/
def commit_physical_pages (page_count : Nat) (s : MemoryManager) :
    Outcome (Except Errno CommittedPhysicalPageSet × MemoryManager) :=
  if page_count = 0 then .fatal
  else if s.system_memory_info.physical_pages_uncommitted < page_count then
    .ok (.error .ENOMEM, s)
  else
    .ok (.ok { m_page_count := page_count },
      s.set_info { s.system_memory_info with
        physical_pages_uncommitted :=
          wrapping_sub s.system_memory_info.physical_pages_uncommitted page_count
        physical_pages_committed :=
          wrapping_add s.system_memory_info.physical_pages_committed page_count })

/-- `MemoryManager::uncommit_physical_pages`. -/
def uncommit_physical_pages (page_count : Nat) (s : MemoryManager) : Outcome MemoryManager :=
  if page_count = 0 then .fatal
  else if s.system_memory_info.physical_pages_committed < page_count then .fatal
  else
    .ok (s.set_info { s.system_memory_info with
      physical_pages_uncommitted :=
        wrapping_add s.system_memory_info.physical_pages_uncommitted page_count
      physical_pages_committed :=
        wrapping_sub s.system_memory_info.physical_pages_committed page_count })

/-- The loop of `deallocate_physical_page`: the first region that contains
the address takes the page back.  `none` is the `PANIC` after the loop, or the
programming error inside `return_page`. -/
def return_page_to_regions (paddr : Nat) : List PhysicalRegion → Option (List PhysicalRegion)
  | [] => none
  | r :: rs =>
    if r.contains paddr then
      match r.return_page paddr with
      | some r' => some (r' :: rs)
      | none => none
    else
      match return_page_to_regions paddr rs with
      | some rs' => some (r :: rs')
      | none => none

/-- `MemoryManager::deallocate_physical_page`. -/
def deallocate_physical_page (paddr : Nat) (s : MemoryManager) : Outcome MemoryManager :=
  match return_page_to_regions paddr s.physical_regions with
  | some rs =>
    .ok { s with
      physical_regions := rs
      system_memory_info := { s.system_memory_info with
        physical_pages_used := wrapping_sub s.system_memory_info.physical_pages_used 1
        physical_pages_uncommitted :=
          wrapping_add s.system_memory_info.physical_pages_uncommitted 1 } }
  | none => .fatal

/-- The loop of `find_free_physical_page`: the first region that has a free
page gives it. -/
def take_free_page_from_regions : List PhysicalRegion → Option (Nat × List PhysicalRegion)
  | [] => none
  | r :: rs =>
    match r.take_free_page with
    | some (p, r') => some (p, r' :: rs)
    | none =>
      match take_free_page_from_regions rs with
      | some (p, rs') => some (p, r :: rs')
      | none => none

/-- The second half of `find_free_physical_page`, after the counter of the
chosen pool was decremented: the search of the regions.  Modelled from the
spec: the region that gives the frame constructs its `PhysicalPage`, whose
"reference count transitions 0→1". -/
def search_physical_regions (s : MemoryManager) : Option Nat × MemoryManager :=
  match take_free_page_from_regions s.physical_regions with
  | some (p, rs) =>
    (some p, { s with
      physical_regions := rs
      ref_count := Function.update s.ref_count (p / PAGE_SIZE) 1
      may_return_to_freelist := Function.update s.may_return_to_freelist (p / PAGE_SIZE) true
      system_memory_info := { s.system_memory_info with
        physical_pages_used := wrapping_add s.system_memory_info.physical_pages_used 1 } })
  | none => (none, s)

/-- `MemoryManager::find_free_physical_page`.  The result is the physical
address of the page, `none` for a null `RefPtr`. -/
def find_free_physical_page (committed : Bool) (s : MemoryManager) :
    Outcome (Option Nat × MemoryManager) :=
  if committed then
    if s.system_memory_info.physical_pages_committed = 0 then .fatal
    else
      .ok (search_physical_regions (s.set_info { s.system_memory_info with
        physical_pages_committed :=
          wrapping_sub s.system_memory_info.physical_pages_committed 1 }))
  else
    if s.system_memory_info.physical_pages_uncommitted = 0 then .ok (none, s)
    else
      .ok (search_physical_regions (s.set_info { s.system_memory_info with
        physical_pages_uncommitted :=
          wrapping_sub s.system_memory_info.physical_pages_uncommitted 1 }))

/-! ## The quickmap windows -/

/-- The index in `boot_pd_kernel_pt1023` of the slot of the current processor
in the window that starts at `base`.  The layout constants and the processor
id are small: the address arithmetic does not wrap. -/
def quickmap_slot_index (cpu : Processor) (base : Nat) : Nat :=
  (base + cpu.current_id * PAGE_SIZE - cpu.layout.KERNEL_PT1024_BASE) / PAGE_SIZE

/-- What the three quickmap functions do to their slot: retarget it when it
does not point at the wanted frame. -/
def retarget_slot (pte : PageEntry) (paddr : Nat) : PageEntry :=
  if pte.physical_page_base ≠ paddr then
    { pte with physical_page_base := paddr, present := true, writable := true,
               user_allowed := false }
  else pte

/-- The index of the slot of the page-directory window of the processor. -/
def pd_slot (cpu : Processor) : Nat :=
  quickmap_slot_index cpu cpu.layout.KERNEL_QUICKMAP_PD_PER_CPU_BASE

/-- The index of the slot of the page-table window of the processor. -/
def pt_slot (cpu : Processor) : Nat :=
  quickmap_slot_index cpu cpu.layout.KERNEL_QUICKMAP_PT_PER_CPU_BASE

/-- The index of the slot of the general quickmap window of the processor, as
the `u32 pte_idx` of `quickmap_page` and `unquickmap_page`. -/
def quickmap_slot (cpu : Processor) : Nat :=
  quickmap_slot_index cpu cpu.layout.KERNEL_QUICKMAP_PER_CPU_BASE % 2 ^ 32

/-- The frame that the page-directory window of the processor shows. -/
def pd_window_target (cpu : Processor) (s : MemoryManager) : Nat :=
  (s.boot_pd_kernel_pt1023 (pd_slot cpu)).physical_page_base

/-- The frame that the page-table window of the processor shows. -/
def pt_window_target (cpu : Processor) (s : MemoryManager) : Nat :=
  (s.boot_pd_kernel_pt1023 (pt_slot cpu)).physical_page_base

/-- The frame that the general quickmap window of the processor shows. -/
def quickmap_window_target (cpu : Processor) (s : MemoryManager) : Nat :=
  (s.boot_pd_kernel_pt1023 (quickmap_slot cpu)).physical_page_base

/-- The slot with the given index of `boot_pd_kernel_pt1023`, retargeted at
the frame `paddr` the way the quickmap functions do it. -/
def retarget_window (slot : Nat) (paddr : Nat) (s : MemoryManager) : MemoryManager :=
  { s with
    boot_pd_kernel_pt1023 :=
      Function.update s.boot_pd_kernel_pt1023 slot
        (retarget_slot (s.boot_pd_kernel_pt1023 slot) paddr) }

/-- `MemoryManager::quickmap_pd`.  The result is the virtual address of the
window; what is read and written through it is the frame that the slot
targets at the time of the access. -/
def quickmap_pd (cpu : Processor) (directory : PageDirectory) (pdpt_index : Nat)
    (s : MemoryManager) : Outcome (Nat × MemoryManager) :=
  if !s.interrupts_disabled then .fatal
  else
    let vaddr := cpu.layout.KERNEL_QUICKMAP_PD_PER_CPU_BASE + cpu.current_id * PAGE_SIZE
    let pte_index := pd_slot cpu
    let pd_paddr := directory.directory_pages pdpt_index
    .ok (vaddr, retarget_window pte_index pd_paddr s)

/-- `MemoryManager::quickmap_pt`. -/
def quickmap_pt (cpu : Processor) (pt_paddr : Nat) (s : MemoryManager) :
    Outcome (Nat × MemoryManager) :=
  if !s.interrupts_disabled then .fatal
  else
    let vaddr := cpu.layout.KERNEL_QUICKMAP_PT_PER_CPU_BASE + cpu.current_id * PAGE_SIZE
    let pte_index := pt_slot cpu
    .ok (vaddr, retarget_window pte_index pt_paddr s)

/-- `MemoryManager::quickmap_page`.  `m_quickmap_in_use.lock()` spins when the
processor holds the lock already. -/
def quickmap_page (cpu : Processor) (physical_address : Nat) (s : MemoryManager) :
    Outcome (Nat × MemoryManager) :=
  if !s.interrupts_disabled then .fatal
  else if s.quickmap_in_use cpu.current_id then .deadlock
  else
    let vaddr := cpu.layout.KERNEL_QUICKMAP_PER_CPU_BASE + cpu.current_id * PAGE_SIZE
    let pte_idx := quickmap_slot cpu
    .ok (vaddr, { s with
      quickmap_in_use := Function.update s.quickmap_in_use cpu.current_id true
      boot_pd_kernel_pt1023 :=
        Function.update s.boot_pd_kernel_pt1023 pte_idx
          (retarget_slot (s.boot_pd_kernel_pt1023 pte_idx) physical_address) })

/-- `MemoryManager::unquickmap_page`. -/
def unquickmap_page (cpu : Processor) (s : MemoryManager) : Outcome MemoryManager :=
  if !s.interrupts_disabled then .fatal
  else if !s.quickmap_in_use cpu.current_id then .fatal
  else
    let pte_idx := quickmap_slot cpu
    .ok { s with
      boot_pd_kernel_pt1023 :=
        Function.update s.boot_pd_kernel_pt1023 pte_idx
          (s.boot_pd_kernel_pt1023 pte_idx).clear
      quickmap_in_use := Function.update s.quickmap_in_use cpu.current_id false }

/-- The `memset(ptr, 0, PAGE_SIZE)` through the general quickmap window: every
entry of the frame that the window shows becomes null, whether the frame is
read as a directory or as a page table. -/
def zero_quickmapped_page (cpu : Processor) (s : MemoryManager) : MemoryManager :=
  let frame := quickmap_window_target cpu s
  { s with
    pd_pages := Function.update s.pd_pages frame (fun _ => PageEntry.null)
    pt_pages := Function.update s.pt_pages frame (fun _ => PageEntry.null) }

/-- The three lines `quickmap_page(*page); memset(ptr, 0, PAGE_SIZE);
unquickmap_page();` that zero-fill a fresh page. -/
def zero_fill_page (cpu : Processor) (page : Nat) (s : MemoryManager) :
    Outcome MemoryManager :=
  (quickmap_page cpu page s).bind fun r => unquickmap_page cpu (zero_quickmapped_page cpu r.2)

/-! ## Physical pages and their reference counts -/

/-- `MemoryManager::get_physical_page_entry`: the index of the entry of the
frame, after the bounds check. -/
def get_physical_page_entry (physical_address : Nat) (s : MemoryManager) : Outcome Nat :=
  let physical_page_entry_index := physical_address / PAGE_SIZE
  if physical_page_entry_index < s.physical_page_entries_count then
    .ok physical_page_entry_index
  else .fatal

/-- `MemoryManager::get_physical_address`, for the physical page that lives in
the entry with the given index. -/
def get_physical_address (physical_page_entry_index : Nat) (s : MemoryManager) : Outcome Nat :=
  if physical_page_entry_index < s.physical_page_entries_count then
    .ok (physical_page_entry_index * PAGE_SIZE % 2 ^ 64)
  else .fatal

/-- Modelled from the spec: `PhysicalPage::unref` (Kernel/Memory/PhysicalPage.h
and .cpp are not among the sources): the count is "decremented and
checked-for-zero"; a page whose last reference goes away is handed to
`deallocate_physical_page` when it may return to the free list. -/
def unref_physical_page (index : Nat) (s : MemoryManager) : Outcome MemoryManager :=
  let old_count := s.ref_count index
  let s1 := { s with
    ref_count := Function.update s.ref_count index ((old_count + 2 ^ 32 - 1) % 2 ^ 32) }
  if old_count = 1 then
    (get_physical_address index s1).bind fun paddr =>
      if s1.may_return_to_freelist index then deallocate_physical_page paddr s1
      else .ok s1
  else .ok s1

/-! ## Allocation of single pages -/

/-- `MemoryManager::allocate_committed_physical_page`.  `InterruptDisabler`
disables the interrupts for the scope of the zero fill. -/
def allocate_committed_physical_page (cpu : Processor) (should_zero_fill : Bool)
    (s : MemoryManager) : Outcome (Nat × MemoryManager) :=
  (find_free_physical_page true s).bind fun r =>
    match r.1 with
    | none => .fatal
    | some page =>
      if should_zero_fill then
        (zero_fill_page cpu page { r.2 with interrupts_disabled := true }).bind fun s2 =>
          .ok (page, { s2 with interrupts_disabled := r.2.interrupts_disabled })
      else .ok (page, r.2)

/-- `CommittedPhysicalPageSet::take_one`. -/
def CommittedPhysicalPageSet.take_one (cpu : Processor) (set : CommittedPhysicalPageSet)
    (s : MemoryManager) : Outcome (Nat × CommittedPhysicalPageSet × MemoryManager) :=
  if set.m_page_count = 0 then .fatal
  else
    (allocate_committed_physical_page cpu true s).bind fun r =>
      .ok (r.1, { m_page_count := set.m_page_count - 1 }, r.2)

/-- `CommittedPhysicalPageSet::uncommit_one`. -/
def CommittedPhysicalPageSet.uncommit_one (set : CommittedPhysicalPageSet) (s : MemoryManager) :
    Outcome (CommittedPhysicalPageSet × MemoryManager) :=
  if set.m_page_count = 0 then .fatal
  else
    (uncommit_physical_pages 1 s).bind fun s1 =>
      .ok ({ m_page_count := set.m_page_count - 1 }, s1)

/-- `CommittedPhysicalPageSet::~CommittedPhysicalPageSet`. -/
def CommittedPhysicalPageSet.destroy (set : CommittedPhysicalPageSet) (s : MemoryManager) :
    Outcome MemoryManager :=
  if set.m_page_count ≠ 0 then uncommit_physical_pages set.m_page_count s
  else .ok s

/-- A `VMObject` as `allocate_physical_page` sees it.  The classes are not
among the sources: what `purge` and `try_release_clean_pages` do to the
state of the memory manager is a parameter. -/
structure VMObject where
  is_anonymous : Bool
  is_purgeable : Bool
  is_volatile : Bool
  is_inode : Bool
  purge : MemoryManager → Nat × MemoryManager
  try_release_clean_pages : Nat → MemoryManager → Nat × MemoryManager

/-- The first `for_each_vmobject` loop of `allocate_physical_page`: the page,
`purged_pages`, and the state. -/
def purge_pass : List VMObject → MemoryManager → Outcome (Option Nat × Bool × MemoryManager)
  | [], s => .ok (none, false, s)
  | vmobject :: rest, s =>
    if !vmobject.is_anonymous then purge_pass rest s
    else if !vmobject.is_purgeable || !vmobject.is_volatile then purge_pass rest s
    else
      let r := vmobject.purge s
      if r.1 ≠ 0 then
        (find_free_physical_page false r.2).bind fun f =>
          match f.1 with
          | some page => .ok (some page, true, f.2)
          | none => .fatal
      else purge_pass rest r.2

/-- The second `for_each_vmobject` loop of `allocate_physical_page`. -/
def release_pass : List VMObject → MemoryManager → Outcome (Option Nat × MemoryManager)
  | [], s => .ok (none, s)
  | vmobject :: rest, s =>
    if !vmobject.is_inode then release_pass rest s
    else
      let r := vmobject.try_release_clean_pages 1 s
      if r.1 ≠ 0 then
        (find_free_physical_page false r.2).bind fun f =>
          match f.1 with
          | some page => .ok (some page, f.2)
          | none => .fatal
      else release_pass rest r.2

/-- Modelled from the spec: `m_global_data.with(...)` takes the lock of the
global data ("they run with interrupts disabled or under a spinlock"): the
body runs with interrupts disabled, and the previous state of the interrupts
comes back with the unlock. -/
def with_global_data {α : Type} (body : MemoryManager → Outcome (α × MemoryManager))
    (s : MemoryManager) : Outcome (α × MemoryManager) :=
  (body { s with interrupts_disabled := true }).bind fun r =>
    .ok (r.1, { r.2 with interrupts_disabled := s.interrupts_disabled })

/-- `MemoryManager::allocate_physical_page`.  The result is the page and the
value that goes to `*did_purge`. -/
def allocate_physical_page (cpu : Processor) (vmobjects : List VMObject)
    (should_zero_fill : Bool) (s : MemoryManager) :
    Outcome (Except Errno (Nat × Bool) × MemoryManager) :=
  with_global_data (fun s0 =>
    (find_free_physical_page false s0).bind fun f =>
    (match f.1 with
      | some page => Outcome.ok (some page, false, f.2)
      | none => purge_pass vmobjects f.2).bind fun p =>
    (match p.1 with
      | some page => Outcome.ok (some page, p.2.2)
      | none => release_pass vmobjects p.2.2).bind fun q =>
    match q.1 with
    | none => .ok (.error .ENOMEM, q.2)
    | some page =>
      if should_zero_fill then
        (zero_fill_page cpu page q.2).bind fun s4 => .ok (.ok (page, p.2.1), s4)
      else .ok (.ok (page, p.2.1), q.2)) s

/-! ## Contiguous allocation -/

/-- `AK::ceil_div` on `size_t`. -/
def ceil_div (a b : Nat) : Nat := if a % b ≠ 0 then a / b + 1 else a / b

/-- The loop of `allocate_contiguous_physical_pages`: the first region that
has a run of `page_count` free frames gives it. -/
def take_contiguous_from_regions (page_count : Nat) :
    List PhysicalRegion → Option (List Nat × List PhysicalRegion)
  | [] => none
  | r :: rs =>
    match r.take_contiguous_free_pages page_count with
    | some (pages, r') => some (pages, r' :: rs)
    | none =>
      match take_contiguous_from_regions page_count rs with
      | some (pages, rs') => some (pages, r :: rs')
      | none => none

/-- Modelled from the spec: the `PhysicalPage` objects of a fresh vector of
pages are constructed with one reference each. -/
def adopt_pages (pages : List Nat) (s : MemoryManager) : MemoryManager :=
  pages.foldl (fun t p => { t with
    ref_count := Function.update t.ref_count (p / PAGE_SIZE) 1
    may_return_to_freelist := Function.update t.may_return_to_freelist (p / PAGE_SIZE) true }) s

/-- The destructor of a `Vector<NonnullRefPtr<PhysicalPage>>`: every page
loses the reference that the vector held. -/
def release_pages : List Nat → MemoryManager → Outcome MemoryManager
  | [], s => .ok s
  | p :: ps, s => (unref_physical_page (p / PAGE_SIZE) s).bind (release_pages ps)

/-- `MemoryManager::allocate_contiguous_physical_pages`.
Modelled from the spec: `allocate_kernel_region` and the classes it uses are
external; it returns "either a success value or a memory-exhaustion failure".
`cleanup_region_available` says which; the temporary region that zeroes the
pages is gone again when the function returns. -/
def allocate_contiguous_physical_pages (cleanup_region_available : Bool) (size : Nat)
    (s : MemoryManager) : Outcome (Except Errno (List Nat) × MemoryManager) :=
  if size % PAGE_SIZE ≠ 0 then .fatal
  else
    let page_count := ceil_div size PAGE_SIZE
    if s.system_memory_info.physical_pages_uncommitted < page_count then
      .ok (.error .ENOMEM, s)
    else
      match take_contiguous_from_regions page_count s.physical_regions with
      | none => .ok (.error .ENOMEM, s)
      | some (physical_pages, rs) =>
        let s1 := adopt_pages physical_pages { s with
          physical_regions := rs
          system_memory_info := { s.system_memory_info with
            physical_pages_uncommitted :=
              wrapping_sub s.system_memory_info.physical_pages_uncommitted page_count
            physical_pages_used :=
              wrapping_add s.system_memory_info.physical_pages_used page_count } }
        if cleanup_region_available then
          .ok (.ok physical_pages,
            { s1 with
              pd_pages := fun a => if a ∈ physical_pages then (fun _ => PageEntry.null) else s1.pd_pages a
              pt_pages := fun a => if a ∈ physical_pages then (fun _ => PageEntry.null) else s1.pt_pages a })
        else
          (release_pages physical_pages s1).bind fun s2 => .ok (.error .ENOMEM, s2)

/-! ## The page-table walker -/

/-- The second argument of `release_pte`. -/
inductive IsLastPTERelease where
  | Yes
  | No
deriving DecidableEq

/-- Read the entry with the given index through the page-directory window. -/
def read_pd_window (cpu : Processor) (index : Nat) (s : MemoryManager) : PageEntry :=
  s.pd_pages (pd_window_target cpu s) index

/-- Write the entry with the given index through the page-directory window. -/
def write_pd_window (cpu : Processor) (index : Nat) (e : PageEntry) (s : MemoryManager) :
    MemoryManager :=
  { s with
    pd_pages :=
      Function.update s.pd_pages (pd_window_target cpu s)
        (Function.update (s.pd_pages (pd_window_target cpu s)) index e) }

/-- Read the entry with the given index through the page-table window. -/
def read_pt_window (cpu : Processor) (index : Nat) (s : MemoryManager) : PageEntry :=
  s.pt_pages (pt_window_target cpu s) index

/-- Write the entry with the given index through the page-table window. -/
def write_pt_window (cpu : Processor) (index : Nat) (e : PageEntry) (s : MemoryManager) :
    MemoryManager :=
  { s with
    pt_pages :=
      Function.update s.pt_pages (pt_window_target cpu s)
        (Function.update (s.pt_pages (pt_window_target cpu s)) index e) }

/-- `MemoryManager::pte`.  The result is the index of the entry in the
page-table window (the pointer `&quickmap_pt(...)[page_table_index]`), `none`
for `nullptr`. -/
def pte (cpu : Processor) (page_directory : PageDirectory) (vaddr : Nat)
    (s : MemoryManager) : Outcome (Option Nat × MemoryManager) :=
  if !s.interrupts_disabled then .fatal
  else if !page_directory.lock_held then .fatal
  else
    let page_directory_table_index := (vaddr >>> 30) &&& 0x1ff
    let page_directory_index := (vaddr >>> 21) &&& 0x1ff
    let page_table_index := (vaddr >>> 12) &&& 0x1ff
    (quickmap_pd cpu page_directory page_directory_table_index s).bind fun pd =>
      let pde := read_pd_window cpu page_directory_index pd.2
      if !pde.present then .ok (none, pd.2)
      else
        (quickmap_pt cpu pde.physical_page_base pd.2).bind fun pt =>
          .ok (some page_table_index, pt.2)

/-- `MemoryManager::ensure_pte`. -/
def ensure_pte (cpu : Processor) (vmobjects : List VMObject)
    (page_directory : PageDirectory) (vaddr : Nat) (s : MemoryManager) :
    Outcome (Option Nat × MemoryManager) :=
  if !s.interrupts_disabled then .fatal
  else if !page_directory.lock_held then .fatal
  else
    let page_directory_table_index := (vaddr >>> 30) &&& 0x1ff
    let page_directory_index := (vaddr >>> 21) &&& 0x1ff
    let page_table_index := (vaddr >>> 12) &&& 0x1ff
    (quickmap_pd cpu page_directory page_directory_table_index s).bind fun pd =>
      let pde := read_pd_window cpu page_directory_index pd.2
      if pde.present then
        (quickmap_pt cpu pde.physical_page_base pd.2).bind fun pt =>
          .ok (some page_table_index, pt.2)
      else
        (allocate_physical_page cpu vmobjects true pd.2).bind fun a =>
          match a.1 with
          | .error _ => .ok (none, a.2)
          | .ok (page_table, did_purge) =>
            (if did_purge then
              (quickmap_pd cpu page_directory page_directory_table_index a.2).bind fun pd2 =>
                if (read_pd_window cpu page_directory_index pd2.2).present then .fatal
                else .ok pd2.2
             else Outcome.ok a.2).bind fun s3 =>
            let s4 := write_pd_window cpu page_directory_index
              { read_pd_window cpu page_directory_index s3 with
                physical_page_base := page_table
                user_allowed := true
                present := true
                writable := true
                global := page_directory.is_kernel } s3
            (quickmap_pt cpu (read_pd_window cpu page_directory_index s4).physical_page_base s4).bind
              fun pt => .ok (some page_table_index, pt.2)

/-- `MemoryManager::release_pte`. -/
def release_pte (cpu : Processor) (page_directory : PageDirectory) (vaddr : Nat)
    (is_last_pte_release : IsLastPTERelease) (s : MemoryManager) : Outcome MemoryManager :=
  if !s.interrupts_disabled then .fatal
  else if !page_directory.lock_held then .fatal
  else
    let page_directory_table_index := (vaddr >>> 30) &&& 0x1ff
    let page_directory_index := (vaddr >>> 21) &&& 0x1ff
    let page_table_index := (vaddr >>> 12) &&& 0x1ff
    (quickmap_pd cpu page_directory page_directory_table_index s).bind fun pd =>
      let pde := read_pd_window cpu page_directory_index pd.2
      if pde.present then
        (quickmap_pt cpu pde.physical_page_base pd.2).bind fun pt =>
          let s3 := write_pt_window cpu page_table_index
            (read_pt_window cpu page_table_index pt.2).clear pt.2
          if is_last_pte_release = IsLastPTERelease.Yes ∨ page_table_index = 0x1ff then
            if (List.range 512).all (fun i => (read_pt_window cpu i s3).is_null) then
              (get_physical_page_entry (read_pd_window cpu page_directory_index s3).physical_page_base
                  s3).bind fun entry =>
                (unref_physical_page entry s3).bind fun s4 =>
                  .ok (write_pd_window cpu page_directory_index
                    (read_pd_window cpu page_directory_index s4).clear s4)
            else .ok s3
          else .ok s3
      else .ok pd.2

/-! ## Invariants and runs of ledger operations -/

/-- The ledger equation: `physical_pages == physical_pages_used +
physical_pages_committed + physical_pages_uncommitted`. -/
def ledger_balanced (s : MemoryManager) : Prop :=
  s.system_memory_info.physical_pages =
    s.system_memory_info.physical_pages_used + s.system_memory_info.physical_pages_committed
      + s.system_memory_info.physical_pages_uncommitted

instance (s : MemoryManager) : Decidable (ledger_balanced s) := by
  unfold ledger_balanced; infer_instance

/-- A state of the ledger: the counters fit `PhysicalSize` and satisfy the
ledger equation. -/
def ledger_state (s : MemoryManager) : Prop :=
  s.system_memory_info.physical_pages < 2 ^ 64 ∧ ledger_balanced s

instance (s : MemoryManager) : Decidable (ledger_state s) := by
  unfold ledger_state; infer_instance

/-- The frames of the regions are the pages that the ledger counts: every
frame is counted in `physical_pages`, and the free frames are the committed
and the uncommitted pages. -/
def frames_accounted (s : MemoryManager) : Prop :=
  total_frames s.physical_regions = s.system_memory_info.physical_pages ∧
  free_frames s.physical_regions =
    s.system_memory_info.physical_pages_committed
      + s.system_memory_info.physical_pages_uncommitted

instance (s : MemoryManager) : Decidable (frames_accounted s) := by
  unfold frames_accounted; infer_instance

/-- The state that `parse_memory_map` leaves: `physical_pages` is the sum of
the sizes of the regions, no frame of a region is taken, nothing is used or
committed, and `physical_pages_uncommitted = physical_pages`. -/
def post_boot (s : MemoryManager) : Prop :=
  s.system_memory_info.physical_pages < 2 ^ 64 ∧
  total_frames s.physical_regions = s.system_memory_info.physical_pages ∧
  free_frames s.physical_regions = total_frames s.physical_regions ∧
  s.system_memory_info.physical_pages_used = 0 ∧
  s.system_memory_info.physical_pages_committed = 0 ∧
  s.system_memory_info.physical_pages_uncommitted = s.system_memory_info.physical_pages

instance (s : MemoryManager) : Decidable (post_boot s) := by
  unfold post_boot; infer_instance

/-- The operations on the ledger. -/
inductive LedgerOp where
  | commit (page_count : Nat)
  | uncommit (page_count : Nat)
  | find_free (committed : Bool)
  | allocate_contiguous (cleanup_region_available : Bool) (size : Nat)
  | deallocate (paddr : Nat)

/-- One operation on the ledger; the results other than the state are dropped. -/
def LedgerOp.step (s : MemoryManager) : LedgerOp → Outcome MemoryManager
  | .commit n => (commit_physical_pages n s).bind fun r => .ok r.2
  | .uncommit n => uncommit_physical_pages n s
  | .find_free committed => (find_free_physical_page committed s).bind fun r => .ok r.2
  | .allocate_contiguous available size =>
    (allocate_contiguous_physical_pages available size s).bind fun r => .ok r.2
  | .deallocate paddr => deallocate_physical_page paddr s

/-- A sequence of operations; a fatal operation ends the run. -/
def run_ledger_ops (s : MemoryManager) : List LedgerOp → Outcome MemoryManager
  | [] => .ok s
  | op :: ops => (op.step s).bind fun s1 => run_ledger_ops s1 ops

/-- The invariant that every ledger operation keeps: the counters form a
ledger state, and the frames of the regions are the pages they count. -/
def manager_invariant (s : MemoryManager) : Prop :=
  ledger_state s ∧ frames_accounted s

instance (s : MemoryManager) : Decidable (manager_invariant s) := by
  unfold manager_invariant; infer_instance

/-! ## Runs of `take_one`, and small machines to run the code on -/

/-- The next `count` calls of `take_one` on a set: the pages, the set and the
state after the last call. -/
def take_pages (cpu : Processor) :
    Nat → CommittedPhysicalPageSet → MemoryManager →
      Outcome (List Nat × CommittedPhysicalPageSet × MemoryManager)
  | 0, set, s => .ok ([], set, s)
  | count + 1, set, s =>
    (set.take_one cpu s).bind fun r =>
      (take_pages cpu count r.2.1 r.2.2).bind fun q => .ok (r.1 :: q.1, q.2)

/-- A processor: processor 0, with the page-table window in slot 0, the
page-directory window in slot 1 and the general window in slot 2. -/
def example_cpu : Processor :=
  { layout :=
      { KERNEL_PT1024_BASE := 0, KERNEL_QUICKMAP_PT_PER_CPU_BASE := 0,
        KERNEL_QUICKMAP_PD_PER_CPU_BASE := 4096, KERNEL_QUICKMAP_PER_CPU_BASE := 8192 },
    current_id := 0 }

/-- A machine after boot: one region of four free frames at 1 MiB, no page
tables, interrupts disabled. -/
def boot_state : MemoryManager :=
  { system_memory_info :=
      { physical_pages := 4, physical_pages_used := 0, physical_pages_committed := 0,
        physical_pages_uncommitted := 4 },
    physical_regions := [{ lower := 0x100000, frames := [true, true, true, true] }],
    physical_page_entries_count := 1024,
    ref_count := fun _ => 0,
    may_return_to_freelist := fun _ => false,
    pd_pages := fun _ _ => PageEntry.null,
    pt_pages := fun _ _ => PageEntry.null,
    boot_pd_kernel_pt1023 := fun _ => PageEntry.null,
    interrupts_disabled := true,
    quickmap_in_use := fun _ => false }

/-- The machine `boot_state` with one page in use and three uncommitted. -/
def three_uncommitted_state : MemoryManager :=
  { boot_state with
    system_memory_info :=
      { physical_pages := 4, physical_pages_used := 1, physical_pages_committed := 0,
        physical_pages_uncommitted := 3 },
    physical_regions := [{ lower := 0x100000, frames := [false, true, true, true] }] }

/-- A run of ledger operations on `boot_state`. -/
def example_ops : List LedgerOp :=
  [.commit 2, .find_free true, .find_free false, .allocate_contiguous true 8192,
   .deallocate 0x100000, .uncommit 1, .allocate_contiguous false 4096, .commit 9]

/-- The state after `example_ops`. -/
def example_ops_result : MemoryManager :=
  match run_ledger_ops boot_state example_ops with
  | .ok s => s
  | _ => boot_state

/-- A state whose counters say that one page is uncommitted while the only
frame of the only region is taken. -/
def exhausted_regions_state : MemoryManager :=
  { boot_state with
    system_memory_info :=
      { physical_pages := 2, physical_pages_used := 1, physical_pages_committed := 0,
        physical_pages_uncommitted := 1 },
    physical_regions := [{ lower := 0x100000, frames := [false] }] }

/-- The machine `boot_state` with two of its four pages committed. -/
def two_committed_state : MemoryManager :=
  { boot_state with
    system_memory_info :=
      { physical_pages := 4, physical_pages_used := 0, physical_pages_committed := 2,
        physical_pages_uncommitted := 2 } }

/-! ## The page-table walker: vocabulary of the claims -/

/-- The index of the directory page of a virtual address. -/
def page_directory_table_index (vaddr : Nat) : Nat := (vaddr >>> 30) &&& 0x1ff

/-- The index of the directory entry of a virtual address in its directory page. -/
def page_directory_index (vaddr : Nat) : Nat := (vaddr >>> 21) &&& 0x1ff

/-- The index of the leaf entry of a virtual address in its page table. -/
def page_table_index (vaddr : Nat) : Nat := (vaddr >>> 12) &&& 0x1ff

/-- The page-directory entry of a virtual address in a page directory. -/
def directory_entry (page_directory : PageDirectory) (vaddr : Nat) (s : MemoryManager) :
    PageEntry :=
  s.pd_pages (page_directory.directory_pages (page_directory_table_index vaddr))
    (page_directory_index vaddr)

/-- The three quickmap windows of the processor use three different slots of
`boot_pd_kernel_pt1023`. -/
def windows_apart (cpu : Processor) : Prop :=
  pd_slot cpu ≠ pt_slot cpu ∧ pd_slot cpu ≠ quickmap_slot cpu ∧
    pt_slot cpu ≠ quickmap_slot cpu

instance (cpu : Processor) : Decidable (windows_apart cpu) := by
  unfold windows_apart; infer_instance

/-- The directory page that the page-directory window of the processor shows
when `ensure_pte` writes the directory entry, given what
`allocate_physical_page` returned: after a reported purge the window was
mapped again (`if (did_purge) pd = quickmap_pd(...)`) and shows the directory
page of `vaddr`; without one the entry `pde` is written through the window as
the allocation left it. -/
def installed_directory_page (cpu : Processor) (page_directory : PageDirectory) (vaddr : Nat)
    (did_purge : Bool) (s : MemoryManager) : Nat :=
  if did_purge then page_directory.directory_pages (page_directory_table_index vaddr)
  else pd_window_target cpu s

/-- A reclaim callback that releases nothing changes no directory entry. -/
def idle_reclaim_keeps_directories (vmobjects : List VMObject) : Prop :=
  ∀ o ∈ vmobjects,
    (∀ s, (o.purge s).1 = 0 → (o.purge s).2.pd_pages = s.pd_pages) ∧
    (∀ n s, (o.try_release_clean_pages n s).1 = 0 →
      (o.try_release_clean_pages n s).2.pd_pages = s.pd_pages)

/-- A page directory whose directory pages are the frames from `0x5000` on,
locked by the current processor; it is the kernel page directory. -/
def example_directory : PageDirectory :=
  { directory_pages := fun i => 0x5000 + i * PAGE_SIZE, lock_held := true, is_kernel := true }

/-- The part of `ensure_pte` that follows `allocate_physical_page`, as a
function of what the allocation returned. -/
def ensure_pte_install (cpu : Processor) (page_directory : PageDirectory) (vaddr : Nat)
    (a : Except Errno (Nat × Bool) × MemoryManager) : Outcome (Option Nat × MemoryManager) :=
  match a.1 with
  | .error _ => .ok (none, a.2)
  | .ok (page_table, did_purge) =>
    (if did_purge then
      (quickmap_pd cpu page_directory (page_directory_table_index vaddr) a.2).bind fun pd2 =>
        if (read_pd_window cpu (page_directory_index vaddr) pd2.2).present then .fatal
        else .ok pd2.2
     else Outcome.ok a.2).bind fun s3 =>
    let s4 := write_pd_window cpu (page_directory_index vaddr)
      { read_pd_window cpu (page_directory_index vaddr) s3 with
        physical_page_base := page_table
        user_allowed := true
        present := true
        writable := true
        global := page_directory.is_kernel } s3
    (quickmap_pt cpu (read_pd_window cpu (page_directory_index vaddr) s4).physical_page_base
        s4).bind
      fun pt => .ok (some (page_table_index vaddr), pt.2)

/-- A machine without a free page: the four frames of `boot_state` are in
use. -/
def no_memory_state : MemoryManager :=
  { boot_state with
    system_memory_info :=
      { physical_pages := 4, physical_pages_used := 4, physical_pages_committed := 0,
        physical_pages_uncommitted := 0 },
    physical_regions := [{ lower := 0x100000, frames := [false, false, false, false] }] }

/-- The state in which `release_pte` scans the page table `table`: both
windows retargeted, the leaf entry with the given index cleared. -/
def leaf_cleared (cpu : Processor) (page_directory : PageDirectory) (vaddr : Nat)
    (table : Nat) (s : MemoryManager) : MemoryManager :=
  write_pt_window cpu (page_table_index vaddr) PageEntry.null
    (retarget_window (pt_slot cpu) table
      (retarget_window (pd_slot cpu)
        (page_directory.directory_pages (page_directory_table_index vaddr)) s))

/-- Whether all 512 entries of the page table in the frame `table` are null. -/
def table_all_null (s : MemoryManager) (table : Nat) : Bool :=
  (List.range 512).all fun i => (s.pt_pages table i).is_null

/-- The machine `boot_state` after `ensure_pte` on the address `0x200000` of
`example_directory`: a page table was created for it. -/
def mapped_example : MemoryManager :=
  match ensure_pte example_cpu [] example_directory 0x200000 boot_state with
  | .ok r => r.2
  | _ => boot_state

/-- A present leaf entry that targets the frame at `0x9000`. -/
def example_entry : PageEntry :=
  { present := true, writable := true, user_allowed := false, execute_disabled := false,
    global := false, physical_page_base := 0x9000 }

/-- The machine `mapped_example` after the caller has written `example_entry`
through the pointer that `ensure_pte` returned. -/
def written_example : MemoryManager :=
  write_pt_window example_cpu 0 example_entry mapped_example

/-- The machine `written_example` after a lookup of the address `0x200000`. -/
def looked_up_example : MemoryManager :=
  match pte example_cpu example_directory 0x200000 written_example with
  | .ok r => r.2
  | _ => boot_state

/-- The presence invariant of a page directory, as the data model states it:
a directory entry is present exactly when the page table it points to has a
present leaf entry. -/
def presence_invariant (page_directory : PageDirectory) (s : MemoryManager) : Prop :=
  ∀ vaddr, (directory_entry page_directory vaddr s).present = true ↔
    ∃ i, i < 512 ∧
      (s.pt_pages (directory_entry page_directory vaddr s).physical_page_base i).present = true

/-- The machine `written_example` after the release of the address `0x200000`
in the middle of a batch (`IsLastPTERelease::No`). -/
def released_early_example : MemoryManager :=
  match release_pte example_cpu example_directory 0x200000 IsLastPTERelease.No
      written_example with
  | .ok s => s
  | _ => boot_state

/-! ## Page faults -/

/-- A `PageFault`, as far as `handle_page_fault` reads it. -/
structure PageFault where
  vaddr : Nat
  code : Nat
deriving DecidableEq

/-- `PageFaultResponse`.  `MemoryManager.cpp` names `ShouldCrash` only; the
other enumerators, which only a region handler returns, are kept as their
numeric value. -/
inductive PageFaultResponse where
  | ShouldCrash
  | Other (value : Nat)
deriving DecidableEq

/-- A `Region*` that is not null: the identity of the region. -/
structure Region where
  id : Nat
deriving DecidableEq

/-- A process as `find_region_from_vaddr` uses it: the lookup
`find_region_containing` of its address space, by base address and size of
the range. -/
structure Process where
  find_region_containing : Nat → Nat → Option Region

/-- What `handle_page_fault` depends on besides the fault.  The bounds of the
three protected sections are linker symbols; `current_in_irq` is the value of
`Processor::current_in_irq()`; `is_user_address`, the lookup of the kernel
region tree, `PageDirectory::find_current()` (`none` for a null pointer, with
the process of the directory, `none` for a null pointer again) and
`Region::handle_fault` are code outside `MemoryManager.cpp` and are arbitrary
here. -/
structure FaultEnvironment where
  start_of_ro_after_init : Nat
  end_of_ro_after_init : Nat
  start_of_unmap_after_init : Nat
  end_of_unmap_after_init : Nat
  start_of_kernel_ksyms : Nat
  end_of_kernel_ksyms : Nat
  current_in_irq : Nat
  is_user_address : Nat → Bool
  region_tree_find_region_containing : Nat → Option Region
  find_current : Option (Option Process)
  handle_fault : Region → PageFault → Outcome PageFaultResponse

/-- What the fault path does to its collaborators, in order: the lookups in
the kernel region tree and in an address space, and the calls of a region
handler. -/
inductive FaultEvent where
  | kernel_tree_lookup (vaddr : Nat)
  | address_space_lookup (vaddr : Nat)
  | handler_call (region : Region) (fault : PageFault)
deriving DecidableEq

/-- `MemoryManager::kernel_region_from_vaddr`, with the lookups it makes. -/
def kernel_region_from_vaddr (env : FaultEnvironment) (address : Nat) :
    List FaultEvent × Option Region :=
  if env.is_user_address address then ([], none)
  else ([.kernel_tree_lookup address], env.region_tree_find_region_containing address)

/-- `MemoryManager::find_user_region_from_vaddr`. -/
def find_user_region_from_vaddr (space : Process) (vaddr : Nat) :
    List FaultEvent × Option Region :=
  ([.address_space_lookup vaddr], space.find_region_containing vaddr 1)

/-- `MemoryManager::find_region_from_vaddr`. -/
def find_region_from_vaddr (env : FaultEnvironment) (vaddr : Nat) :
    List FaultEvent × Outcome (Option Region) :=
  match kernel_region_from_vaddr env vaddr with
  | (events, some region) => (events, .ok (some region))
  | (events, none) =>
    match env.find_current with
    | none => (events, .ok none)
    | some none => (events, .fatal)
    | some (some process) =>
      (events ++ (find_user_region_from_vaddr process vaddr).1,
        .ok (find_user_region_from_vaddr process vaddr).2)

/-- The lambda `faulted_in_range` of `handle_page_fault`. -/
def faulted_in_range (fault : PageFault) (start finish : Nat) : Bool :=
  decide (fault.vaddr ≥ start) && decide (fault.vaddr < finish)

/-- `MemoryManager::handle_page_fault`, with the lookups and handler calls it
makes.  A `PANIC` is `fatal`. -/
def handle_page_fault (env : FaultEnvironment) (fault : PageFault) :
    List FaultEvent × Outcome PageFaultResponse :=
  if faulted_in_range fault env.start_of_ro_after_init env.end_of_ro_after_init then
    ([], .fatal)
  else if faulted_in_range fault env.start_of_unmap_after_init env.end_of_unmap_after_init then
    ([], .fatal)
  else if faulted_in_range fault env.start_of_kernel_ksyms env.end_of_kernel_ksyms then
    ([], .fatal)
  else if env.current_in_irq ≠ 0 then ([], .ok .ShouldCrash)
  else
    match find_region_from_vaddr env fault.vaddr with
    | (events, .ok none) => (events, .ok .ShouldCrash)
    | (events, .ok (some region)) =>
      (events ++ [.handler_call region fault], env.handle_fault region fault)
    | (events, .fatal) => (events, .fatal)
    | (events, .deadlock) => (events, .deadlock)

/-- Whether the address lies in one of the three protected sections. -/
def in_protected_section (env : FaultEnvironment) (a : Nat) : Prop :=
  (env.start_of_ro_after_init ≤ a ∧ a < env.end_of_ro_after_init) ∨
  (env.start_of_unmap_after_init ≤ a ∧ a < env.end_of_unmap_after_init) ∨
  (env.start_of_kernel_ksyms ≤ a ∧ a < env.end_of_kernel_ksyms)

instance (env : FaultEnvironment) (a : Nat) : Decidable (in_protected_section env a) := by
  unfold in_protected_section; infer_instance

/-- An environment: the three sections at `0x1000`, `0x2000` and `0x3000`, one
page each; addresses below `0x10000` are user addresses; the kernel region
tree holds region 1 at `[0x20000, 0x30000)`; the current process has region 2
at `[0x5000, 0x6000)`; the handler of region 1 answers with the response 3,
the other handlers with `ShouldCrash`.  `irq` is the interrupt level. -/
def example_environment (irq : Nat) : FaultEnvironment :=
  { start_of_ro_after_init := 0x1000, end_of_ro_after_init := 0x2000,
    start_of_unmap_after_init := 0x2000, end_of_unmap_after_init := 0x3000,
    start_of_kernel_ksyms := 0x3000, end_of_kernel_ksyms := 0x4000,
    current_in_irq := irq,
    is_user_address := fun a => decide (a < 0x10000),
    region_tree_find_region_containing := fun a =>
      if 0x20000 ≤ a ∧ a < 0x30000 then some { id := 1 } else none,
    find_current :=
      some (some { find_region_containing := fun a _ =>
        if 0x5000 ≤ a ∧ a < 0x6000 then some { id := 2 } else none }),
    handle_fault := fun r _ => .ok (if r.id = 1 then .Other 3 else .ShouldCrash) }

/-! ## Boot: the memory map and the array of physical page entries -/

/-- An entry of `multiboot_memory_map`. -/
structure MultibootMemoryMapEntry where
  addr : Nat
  len : Nat
  type : Nat
deriving DecidableEq

/-- The value of `MULTIBOOT_MEMORY_AVAILABLE` in the Multiboot header. -/
def MULTIBOOT_MEMORY_AVAILABLE : Nat := 1

/-- The value of `MULTIBOOT_MEMORY_RESERVED` in the Multiboot header. -/
def MULTIBOOT_MEMORY_RESERVED : Nat := 2

/-- The value of `MULTIBOOT_MEMORY_ACPI_RECLAIMABLE` in the Multiboot header. -/
def MULTIBOOT_MEMORY_ACPI_RECLAIMABLE : Nat := 3

/-- The value of `MULTIBOOT_MEMORY_NVS` in the Multiboot header. -/
def MULTIBOOT_MEMORY_NVS : Nat := 4

/-- The value of `MULTIBOOT_MEMORY_BADRAM` in the Multiboot header. -/
def MULTIBOOT_MEMORY_BADRAM : Nat := 5

/-- `UsedMemoryRangeType`. -/
inductive UsedMemoryRangeType where
  | LowMemory
  | Kernel
  | BootModule
  | PhysicalPages
deriving DecidableEq

/-- `UsedMemoryRange`; `range_end` is the member `end`. -/
structure UsedMemoryRange where
  type : UsedMemoryRangeType
  start : Nat
  range_end : Nat
deriving DecidableEq

/-- `PhysicalMemoryRangeType`. -/
inductive PhysicalMemoryRangeType where
  | Usable
  | Reserved
  | ACPI_Reclaimable
  | ACPI_NVS
  | BadMemory
  | Unknown
deriving DecidableEq

/-- `PhysicalMemoryRange`. -/
structure PhysicalMemoryRange where
  type : PhysicalMemoryRangeType
  start : Nat
  length : Nat
deriving DecidableEq

/-- `ContiguousReservedMemoryRange`. -/
structure ContiguousReservedMemoryRange where
  start : Nat
  length : Nat
deriving DecidableEq

/-- The local `ContiguousPhysicalVirtualRange` of `parse_memory_map`: the
addresses of the first and of the last page of a run. -/
structure ContiguousPhysicalVirtualRange where
  lower : Nat
  upper : Nat
deriving DecidableEq

/-- What the boot code reads from the boot loader and the linker: the memory
map, the flags and the boot modules of Multiboot (start and end of each), and
the physical addresses `virtual_to_low_physical(start_of_kernel_image)` and
`virtual_to_low_physical(end_of_kernel_image)`.  `sizeof_PhysicalPageEntry` is
`sizeof(PhysicalPageEntry)`.  `page_array_mapping_succeeds` tells whether the
second half of `initialize_physical_pages`, which maps the array and writes
neither a counter nor a region, passes its `MUST` and `VERIFY` checks. -/
structure BootInfo where
  multiboot_memory_map : List MultibootMemoryMapEntry
  multiboot_flags : Nat
  multiboot_copy_boot_modules_array : List (Nat × Nat)
  kernel_image_start : Nat
  kernel_image_end : Nat
  sizeof_PhysicalPageEntry : Nat
  page_array_mapping_succeeds : Bool

/-- The members of `GlobalData` that the boot code fills, together with
`m_physical_page_entries_count`. -/
structure GlobalData where
  system_memory_info : SystemMemoryInfo
  physical_regions : List PhysicalRegion
  physical_pages_region : Option PhysicalRegion
  used_memory_ranges : List UsedMemoryRange
  physical_memory_ranges : List PhysicalMemoryRange
  reserved_memory_ranges : List ContiguousReservedMemoryRange
  m_physical_page_entries_count : Nat

/-- `page_round_up`. -/
def page_round_up (x : Nat) : Except Errno Nat :=
  if x > 0xfffffffffffff000 then .error .EINVAL
  else .ok ((x + PAGE_SIZE - 1) &&& 0xfffffffffffff000)

/-- Modelled from the spec: `PhysicalRegion::try_create(lower, upper)`, "a
contiguous physical-address span" of free frames.  The span ends before
`upper`: `parse_memory_map` prints `upper().offset(-1)` as its last byte and
`PAGE_SIZE * size()` as its length. -/
def PhysicalRegion.try_create (lower upper : Nat) : PhysicalRegion :=
  { lower := lower, frames := List.replicate ((upper - lower) / PAGE_SIZE) true }

/-- Modelled from the spec: `PhysicalRegion::try_take_pages_from_beginning`,
the "take N pages from beginning" splitting: the region of the first
`page_count` frames, and what is left of the region. -/
def PhysicalRegion.try_take_pages_from_beginning (r : PhysicalRegion) (page_count : Nat) :
    PhysicalRegion × PhysicalRegion :=
  ({ lower := r.lower, frames := r.frames.take page_count },
   { lower := r.lower + page_count * PAGE_SIZE, frames := r.frames.drop page_count })

/-- Modelled from the spec: `PhysicalRegion::upper`, the end of the span. -/
def PhysicalRegion.upper (r : PhysicalRegion) : Nat := r.lower + r.size * PAGE_SIZE

/-- The used memory ranges that `parse_memory_map` registers first (x86_64):
the low memory, the kernel image, and the boot modules if bit 2 of the
Multiboot flags is set. -/
def initial_used_memory_ranges (boot : BootInfo) : Outcome (List UsedMemoryRange) :=
  match page_round_up boot.kernel_image_end with
  | .error _ => .fatal
  | .ok kernel_end =>
    .ok ([{ type := .LowMemory, start := 0x00000000, range_end := 0x100000 },
          { type := .Kernel, start := boot.kernel_image_start, range_end := kernel_end }]
        ++ (if boot.multiboot_flags &&& 0x4 ≠ 0 then
              boot.multiboot_copy_boot_modules_array.map fun bootmod =>
                { type := .BootModule, start := bootmod.1, range_end := bootmod.2 }
            else []))

/-- The `switch` of `parse_memory_map`: the typed range that an entry of the
memory map adds to `physical_memory_ranges`, if any. -/
def typed_memory_range (mmap : MultibootMemoryMapEntry) : Option PhysicalMemoryRange :=
  if mmap.type = MULTIBOOT_MEMORY_AVAILABLE then
    some { type := .Usable, start := mmap.addr, length := mmap.len }
  else if mmap.type = MULTIBOOT_MEMORY_RESERVED then
    if mmap.addr ≠ 0x000000fd00000000 ∨
        mmap.len ≠ (0x000000ffffffffff - 0x000000fd00000000) + 1 then
      some { type := .Reserved, start := mmap.addr, length := mmap.len }
    else none
  else if mmap.type = MULTIBOOT_MEMORY_ACPI_RECLAIMABLE then
    some { type := .ACPI_Reclaimable, start := mmap.addr, length := mmap.len }
  else if mmap.type = MULTIBOOT_MEMORY_NVS then
    some { type := .ACPI_NVS, start := mmap.addr, length := mmap.len }
  else if mmap.type = MULTIBOOT_MEMORY_BADRAM then
    some { type := .BadMemory, start := mmap.addr, length := mmap.len }
  else some { type := .Unknown, start := mmap.addr, length := mmap.len }

/-- The fix-up of an unaligned available range: the address is rounded up to
a page, the length down. -/
def fix_up_unaligned (address length : Nat) : Nat × Nat :=
  let diff := address % PAGE_SIZE
  let address' := if diff ≠ 0 then wrapping_add address (PAGE_SIZE - diff) else address
  let length' := if diff ≠ 0 then wrapping_sub length (PAGE_SIZE - diff) else length
  (address', if length' % PAGE_SIZE ≠ 0 then length' - length' % PAGE_SIZE else length')

/-- The next `count` values of a loop variable that starts at `page_base` and
advances by `PAGE_SIZE`. -/
def page_run (page_base : Nat) : Nat → List Nat
  | 0 => []
  | count + 1 => page_base :: page_run (page_base + PAGE_SIZE) count

/-- The values of `page_base` in the loop `for (page_base = address;
page_base <= (address + length); page_base += PAGE_SIZE)`.  The loop does not
end when `page_base` wraps around before it exceeds the bound. -/
def page_bases (address length : Nat) : Outcome (List Nat) :=
  let bound := wrapping_add address length
  if bound < address then .ok []
  else
    let count := (bound - address) / PAGE_SIZE + 1
    if address + count * PAGE_SIZE ≥ 2 ^ 64 then .deadlock
    else .ok (page_run address count)

/-- The body of the page loop: a page in a used memory range is skipped; any
other page extends the last contiguous range or starts a new one. -/
def add_page (used : List UsedMemoryRange) (ranges : List ContiguousPhysicalVirtualRange)
    (addr : Nat) : List ContiguousPhysicalVirtualRange :=
  if used.any fun used_range =>
      decide (addr ≥ used_range.start) && decide (addr ≤ used_range.range_end) then ranges
  else
    match ranges.getLast? with
    | none => ranges ++ [{ lower := addr, upper := addr }]
    | some last =>
      if wrapping_add last.upper PAGE_SIZE ≠ addr then
        ranges ++ [{ lower := addr, upper := addr }]
      else ranges.dropLast ++ [{ last with upper := addr }]

/-- One round of the loop of `parse_memory_map` over the memory map. -/
def parse_memory_map_entry (used : List UsedMemoryRange)
    (acc : List PhysicalMemoryRange × List ContiguousPhysicalVirtualRange)
    (mmap : MultibootMemoryMapEntry) :
    Outcome (List PhysicalMemoryRange × List ContiguousPhysicalVirtualRange) :=
  let physical_memory_ranges :=
    match typed_memory_range mmap with
    | some range => acc.1 ++ [range]
    | none => acc.1
  if mmap.type ≠ MULTIBOOT_MEMORY_AVAILABLE then .ok (physical_memory_ranges, acc.2)
  else
    let fixed := fix_up_unaligned mmap.addr mmap.len
    if fixed.2 < PAGE_SIZE then .ok (physical_memory_ranges, acc.2)
    else
      (page_bases fixed.1 fixed.2).bind fun pages =>
        .ok (physical_memory_ranges, pages.foldl (add_page used) acc.2)

/-- The loop of `parse_memory_map` over the memory map. -/
def parse_memory_map_entries (used : List UsedMemoryRange) :
    List MultibootMemoryMapEntry →
    List PhysicalMemoryRange × List ContiguousPhysicalVirtualRange →
    Outcome (List PhysicalMemoryRange × List ContiguousPhysicalVirtualRange)
  | [], acc => .ok acc
  | mmap :: rest, acc =>
    (parse_memory_map_entry used acc mmap).bind fun acc' =>
      parse_memory_map_entries used rest acc'

/-- The loop of `register_reserved_ranges`: `start` is `range.start`, null
when it is 0. -/
def reserved_ranges_loop :
    List PhysicalMemoryRange → Nat → List ContiguousReservedMemoryRange →
    Nat × List ContiguousReservedMemoryRange
  | [], start, reserved => (start, reserved)
  | current_range :: rest, start, reserved =>
    if current_range.type ≠ .Reserved then
      if start = 0 then reserved_ranges_loop rest start reserved
      else
        reserved_ranges_loop rest 0
          (reserved ++ [{ start := start, length := wrapping_sub current_range.start start }])
    else if start ≠ 0 then reserved_ranges_loop rest start reserved
    else reserved_ranges_loop rest current_range.start reserved

/-- `MemoryManager::register_reserved_ranges`, as a function of
`physical_memory_ranges`: the reserved ranges it appends. -/
def register_reserved_ranges (physical_memory_ranges : List PhysicalMemoryRange) :
    Outcome (List ContiguousReservedMemoryRange) :=
  match physical_memory_ranges.getLast? with
  | none => .fatal
  | some last =>
    let r := reserved_ranges_loop physical_memory_ranges 0 []
    if last.type ≠ .Reserved then .ok r.2
    else if r.1 = 0 then .ok r.2
    else
      .ok (r.2 ++ [{ start := r.1,
                     length := wrapping_sub (wrapping_add last.start last.length) r.1 }])

/-- The index of the first region that has at least `page_count` frames. -/
def find_region_index (page_count : Nat) : List PhysicalRegion → Option Nat
  | [] => none
  | region :: rest =>
    if region.size ≥ page_count then some 0
    else (find_region_index page_count rest).map fun i => i + 1

/-- The highest physical address of the used memory ranges and of the
physical memory ranges. -/
def highest_physical_address (g : GlobalData) : Nat :=
  g.physical_memory_ranges.foldl
    (fun highest region =>
      if wrapping_add region.start region.length > highest then
        wrapping_add region.start region.length
      else highest)
    (g.used_memory_ranges.foldl
      (fun highest range => if range.range_end > highest then range.range_end else highest) 0)

/-- `MemoryManager::initialize_physical_pages`, as far as it sizes the array
of physical page entries and takes the pages for it from a region.  The index
of a physical page is its address divided by `PAGE_SIZE`. -/
def initialize_physical_pages (boot : BootInfo) (g : GlobalData) : Outcome GlobalData :=
  let m_physical_page_entries_count := wrapping_add (highest_physical_address g / PAGE_SIZE) 1
  if m_physical_page_entries_count = 0 then .fatal
  else if m_physical_page_entries_count * boot.sizeof_PhysicalPageEntry ≥ 2 ^ 64 then .fatal
  else
    let physical_page_array_size := m_physical_page_entries_count * boot.sizeof_PhysicalPageEntry
    match page_round_up physical_page_array_size with
    | .error _ => .fatal
    | .ok rounded =>
      let physical_page_array_pages := rounded / PAGE_SIZE
      if physical_page_array_pages * PAGE_SIZE < physical_page_array_size then .fatal
      else
        let needed_page_table_count := (physical_page_array_pages + 512 - 1) / 512
        let physical_page_array_pages_and_page_tables_count :=
          physical_page_array_pages + needed_page_table_count
        match find_region_index physical_page_array_pages_and_page_tables_count
            g.physical_regions with
        | none => .fatal
        | some found_region_index =>
          match g.physical_regions.get? found_region_index with
          | none => .fatal
          | some found_region =>
            if g.system_memory_info.physical_pages
                < physical_page_array_pages_and_page_tables_count then .fatal
            else
              let taken :=
                if found_region.size = physical_page_array_pages_and_page_tables_count then
                  (found_region, g.physical_regions.eraseIdx found_region_index)
                else
                  ((found_region.try_take_pages_from_beginning
                      physical_page_array_pages_and_page_tables_count).1,
                   g.physical_regions.set found_region_index
                    (found_region.try_take_pages_from_beginning
                      physical_page_array_pages_and_page_tables_count).2)
              if !boot.page_array_mapping_succeeds then .fatal
              else
                .ok { g with
                  system_memory_info := { g.system_memory_info with
                    physical_pages :=
                      wrapping_sub g.system_memory_info.physical_pages
                        physical_page_array_pages_and_page_tables_count }
                  physical_regions := taken.2
                  physical_pages_region := some taken.1
                  used_memory_ranges := g.used_memory_ranges ++
                    [{ type := .PhysicalPages, start := taken.1.lower,
                       range_end := taken.1.upper }]
                  m_physical_page_entries_count := m_physical_page_entries_count }

/-- `MemoryManager::parse_memory_map`.  The counters start at 0. -/
def parse_memory_map (boot : BootInfo) : Outcome GlobalData :=
  (initial_used_memory_ranges boot).bind fun used_memory_ranges =>
    (parse_memory_map_entries used_memory_ranges boot.multiboot_memory_map ([], [])).bind
      fun parsed =>
        let physical_regions :=
          parsed.2.map fun range => PhysicalRegion.try_create range.lower range.upper
        let physical_pages :=
          physical_regions.foldl (fun pages region => wrapping_add pages region.size) 0
        (register_reserved_ranges parsed.1).bind fun reserved_memory_ranges =>
          (initialize_physical_pages boot
            { system_memory_info :=
                { physical_pages := physical_pages, physical_pages_used := 0,
                  physical_pages_committed := 0, physical_pages_uncommitted := 0 },
              physical_regions := physical_regions,
              physical_pages_region := none,
              used_memory_ranges := used_memory_ranges,
              physical_memory_ranges := parsed.1,
              reserved_memory_ranges := reserved_memory_ranges,
              m_physical_page_entries_count := 0 }).bind fun g =>
            if g.system_memory_info.physical_pages = 0 then .fatal
            else
              .ok { g with
                system_memory_info := { g.system_memory_info with
                  physical_pages_uncommitted := g.system_memory_info.physical_pages } }

/-- The boot of the scenario: one usable range `[0, 16 MiB)`, the kernel image
at `[1 MiB, 3 MiB)`, no boot modules, physical page entries of 8 bytes. -/
def example_boot : BootInfo :=
  { multiboot_memory_map := [{ addr := 0, len := 0x1000000, type := 1 }],
    multiboot_flags := 0,
    multiboot_copy_boot_modules_array := [],
    kernel_image_start := 0x100000,
    kernel_image_end := 0x300000,
    sizeof_PhysicalPageEntry := 8,
    page_array_mapping_succeeds := true }

/-- What `parse_memory_map` leaves on `example_boot`: the 769 pages up to the
end of the kernel image are in no region; of the 3327 pages from `0x301000`
to 16 MiB, the first 10 hold the page table and the array of the 4097
physical page entries. -/
def example_boot_result : GlobalData :=
  { system_memory_info :=
      { physical_pages := 3317, physical_pages_used := 0, physical_pages_committed := 0,
        physical_pages_uncommitted := 3317 },
    physical_regions := [{ lower := 0x30b000, frames := List.replicate 3317 true }],
    physical_pages_region := some { lower := 0x301000, frames := List.replicate 10 true },
    used_memory_ranges :=
      [{ type := .LowMemory, start := 0, range_end := 0x100000 },
       { type := .Kernel, start := 0x100000, range_end := 0x300000 },
       { type := .PhysicalPages, start := 0x301000, range_end := 0x30b000 }],
    physical_memory_ranges := [{ type := .Usable, start := 0, length := 0x1000000 }],
    reserved_memory_ranges := [],
    m_physical_page_entries_count := 4097 }

/-- The state in which `parse_memory_map` calls `initialize_physical_pages` on
`example_boot`: one region of 3327 pages from `0x301000` to 16 MiB. -/
def example_boot_parsed : GlobalData :=
  { system_memory_info :=
      { physical_pages := 3327, physical_pages_used := 0, physical_pages_committed := 0,
        physical_pages_uncommitted := 0 },
    physical_regions := [{ lower := 0x301000, frames := List.replicate 3327 true }],
    physical_pages_region := none,
    used_memory_ranges :=
      [{ type := .LowMemory, start := 0, range_end := 0x100000 },
       { type := .Kernel, start := 0x100000, range_end := 0x300000 }],
    physical_memory_ranges := [{ type := .Usable, start := 0, length := 0x1000000 }],
    reserved_memory_ranges := [],
    m_physical_page_entries_count := 0 }

/-! ## Bulk teardown -/

/-- The body of the loop of `unmap_prekernel`, for the values of `i` in the
list: `release_pte(kernel_page_directory(), VirtualAddress(i), i == end ?
IsLastPTERelease::Yes : IsLastPTERelease::No)`. -/
def unmap_prekernel_loop (cpu : Processor) (dir : PageDirectory) (finish : Nat) :
    List Nat → MemoryManager → Outcome MemoryManager
  | [], s => .ok s
  | i :: rest, s =>
    (release_pte cpu dir i (if i = finish then IsLastPTERelease.Yes else IsLastPTERelease.No)
      s).bind (unmap_prekernel_loop cpu dir finish rest)

/-- The loop `for (auto i = start; i <= end; i += PAGE_SIZE)` of
`unmap_prekernel`, run by a caller that holds the lock of the directory.  The
loop does not end when `i` wraps around before it exceeds `end`. -/
def unmap_prekernel_pages (cpu : Processor) (dir : PageDirectory) (start finish : Nat)
    (s : MemoryManager) : Outcome MemoryManager :=
  if finish < start then .ok s
  else if start + ((finish - start) / PAGE_SIZE + 1) * PAGE_SIZE ≥ 2 ^ 64 then .deadlock
  else unmap_prekernel_loop cpu dir finish (page_run start ((finish - start) / PAGE_SIZE + 1)) s

/-- The pattern of that loop: `release_pte` on the `count + 1` consecutive
pages from `vaddr` on, in ascending order, with `IsLastPTERelease::Yes` on the
last one only. -/
def release_run (cpu : Processor) (dir : PageDirectory) :
    Nat → Nat → MemoryManager → Outcome MemoryManager
  | vaddr, 0, s => release_pte cpu dir vaddr IsLastPTERelease.Yes s
  | vaddr, count + 1, s =>
    (release_pte cpu dir vaddr IsLastPTERelease.No s).bind
      (release_run cpu dir (vaddr + PAGE_SIZE) count)

/-- Whether two virtual addresses have the same page-directory entry in the
page directory. -/
def same_slot (dir : PageDirectory) (u w : Nat) : Prop :=
  dir.directory_pages (page_directory_table_index u)
    = dir.directory_pages (page_directory_table_index w) ∧
  page_directory_index u = page_directory_index w

instance (dir : PageDirectory) (u w : Nat) : Decidable (same_slot dir u w) := by
  unfold same_slot; infer_instance

/-- The number of pages of the array of physical page entries as the data
model states it: `ceil(entries_count * sizeof(PhysicalPageEntry) /
PAGE_SIZE)`. -/
def frame_array_pages (entries_count sizeof_entry : Nat) : Nat :=
  ceil_div (entries_count * sizeof_entry) PAGE_SIZE

/-- The number of pages that the boot code takes for the array of physical
page entries and for the page tables that map it, as the data model states
it, from the highest physical address `highest`. -/
def frame_array_pages_and_page_tables (highest sizeof_entry : Nat) : Nat :=
  frame_array_pages (highest / PAGE_SIZE + 1) sizeof_entry
    + (frame_array_pages (highest / PAGE_SIZE + 1) sizeof_entry + 512 - 1) / 512

/-! ## Validation of a syscall -/

/-- What `validate_syscall_preconditions` reads: the stack pointer and the
instruction pointer of the register state, `is_user_address`, the address
space of the process (its lookup `find_region_containing` and
`enforces_syscall_regions()`), and the attributes of a region.  All of it is
code outside `MemoryManager.cpp` and is arbitrary here. -/
structure SyscallEnvironment where
  userspace_sp : Nat
  ip : Nat
  is_user_address : Nat → Bool
  space : Process
  enforces_syscall_regions : Bool
  is_user : Region → Bool
  is_stack : Region → Bool
  is_writable : Region → Bool
  is_syscall_region : Region → Bool

/-- The signal number `SIGSEGV`. -/
def SIGSEGV : Nat := 11

/-- `MemoryManager::validate_user_stack`. -/
def validate_user_stack (env : SyscallEnvironment) (vaddr : Nat) : Bool :=
  if !env.is_user_address vaddr then false
  else
    match (find_user_region_from_vaddr env.space vaddr).2 with
    | none => false
    | some region => env.is_user region && env.is_stack region

/-- `MemoryManager::validate_syscall_preconditions`.  The result is the
description and the signal that `handle_crash` is called with, `none` when it
is not called. -/
def validate_syscall_preconditions (env : SyscallEnvironment) : Option (String × Nat) :=
  if !validate_user_stack env env.userspace_sp then
    some ("Bad stack on syscall entry", SIGSEGV)
  else
    match (find_user_region_from_vaddr env.space env.ip).2 with
    | none => some ("Syscall from unknown region", SIGSEGV)
    | some calling_region =>
      if env.is_writable calling_region then some ("Syscall from writable memory", SIGSEGV)
      else if env.enforces_syscall_regions && !env.is_syscall_region calling_region then
        some ("Syscall from non-syscall region", SIGSEGV)
      else none

/-- Whether the stack pointer is a user address inside a user stack region. -/
def stack_pointer_valid (env : SyscallEnvironment) : Prop :=
  env.is_user_address env.userspace_sp = true ∧
  ∃ region, env.space.find_region_containing env.userspace_sp 1 = some region ∧
    env.is_user region = true ∧ env.is_stack region = true

/-! ## Reads of physical memory by userspace -/

/-- The loop of `is_allowed_to_read_physical_memory_for_userspace` over the
contiguous reserved ranges. -/
def read_allowed_by_ranges (start_address end_address : Nat) :
    List ContiguousReservedMemoryRange → Bool
  | [] => false
  | current_range :: rest =>
    if current_range.start > start_address then
      read_allowed_by_ranges start_address end_address rest
    else if wrapping_add current_range.start current_range.length < end_address then
      read_allowed_by_ranges start_address end_address rest
    else true

/-- `MemoryManager::is_allowed_to_read_physical_memory_for_userspace`, as a
function of `reserved_memory_ranges`.  `offset_addition_would_overflow` tells
whether the sum leaves the 64 bits of a physical address. -/
def is_allowed_to_read_physical_memory_for_userspace
    (reserved_memory_ranges : List ContiguousReservedMemoryRange)
    (start_address read_length : Nat) : Bool :=
  if start_address + read_length ≥ 2 ^ 64 then false
  else
    read_allowed_by_ranges start_address (wrapping_add start_address read_length)
      reserved_memory_ranges

/-! ## The page tables that map the array of physical page entries -/

/-- The inner loop of the second half of `initialize_physical_pages`: the
next `count` entries of a page table, after the `memset`, the first of them
targeting `physical_page_array_current_page`, each of the following ones the
next page. -/
def hand_built_entries (physical_page_array_current_page : Nat) : Nat → List PageEntry
  | 0 => []
  | count + 1 =>
    { present := true, writable := true, user_allowed := false, execute_disabled := false,
      global := true, physical_page_base := physical_page_array_current_page }
      :: hand_built_entries (physical_page_array_current_page + PAGE_SIZE) count

/-- The outer loop: the next `count` page tables, each with its physical
address `pt_paddr` and its `PAGE_SIZE / sizeof(PageTableEntry) = 512`
entries. -/
def hand_built_page_tables (pt_paddr physical_page_array_current_page : Nat) :
    Nat → List (Nat × List PageEntry)
  | 0 => []
  | count + 1 =>
    (pt_paddr, hand_built_entries physical_page_array_current_page 512)
      :: hand_built_page_tables (pt_paddr + PAGE_SIZE)
          (physical_page_array_current_page + 512 * PAGE_SIZE) count

/-- The page tables that `initialize_physical_pages` builds by hand at the
beginning of `physical_pages_region`, followed by the array: `page_tables_base`
is the lower end of the region, `physical_page_array_base` lies
`needed_page_table_count` pages above it. -/
def physical_page_array_page_tables (boot : BootInfo) (g : GlobalData) :
    List (Nat × List PageEntry) :=
  match g.physical_pages_region,
      page_round_up (g.m_physical_page_entries_count * boot.sizeof_PhysicalPageEntry) with
  | some region, .ok rounded =>
    let physical_page_array_pages := rounded / PAGE_SIZE
    let needed_page_table_count := (physical_page_array_pages + 512 - 1) / 512
    hand_built_page_tables region.lower (region.lower + needed_page_table_count * PAGE_SIZE)
      needed_page_table_count
  | _, _ => []

/-! ## The pages of the contiguous physical ranges -/

/-- Whether the address lies in one of the used memory ranges, with inclusive
bounds, as the page loop of `parse_memory_map` tests it. -/
def in_used_memory_range (used : List UsedMemoryRange) (addr : Nat) : Bool :=
  used.any fun used_range =>
    decide (addr ≥ used_range.start) && decide (addr ≤ used_range.range_end)

/-- Whether the page address lies in an available record of the memory map:
`addr <= page < addr + len` for a record of type
`MULTIBOOT_MEMORY_AVAILABLE`. -/
def in_usable_record (mmaps : List MultibootMemoryMapEntry) (page : Nat) : Bool :=
  mmaps.any fun mmap =>
    decide (mmap.type = MULTIBOOT_MEMORY_AVAILABLE) && decide (mmap.addr ≤ page) &&
      decide (page < mmap.addr + mmap.len)

/-- A boot whose memory map has a record of bad memory of one page between two
usable records: usable `[0x400000, 0x410000)`, bad `[0x410000, 0x411000)`,
usable `[0x411000, 0x421000)`; the kernel image at `[1 MiB, 3 MiB)`, no boot
modules, physical page entries of 8 bytes. -/
def bad_memory_boot : BootInfo :=
  { multiboot_memory_map :=
      [{ addr := 0x400000, len := 0x10000, type := 1 },
       { addr := 0x410000, len := 0x1000, type := 5 },
       { addr := 0x411000, len := 0x10000, type := 1 }],
    multiboot_flags := 0,
    multiboot_copy_boot_modules_array := [],
    kernel_image_start := 0x100000,
    kernel_image_end := 0x300000,
    sizeof_PhysicalPageEntry := 8,
    page_array_mapping_succeeds := true }

/-- What `parse_memory_map` leaves on `bad_memory_boot`. -/
def bad_memory_boot_result : GlobalData :=
  match parse_memory_map bad_memory_boot with
  | .ok g => g
  | _ =>
    { system_memory_info :=
        { physical_pages := 0, physical_pages_used := 0, physical_pages_committed := 0,
          physical_pages_uncommitted := 0 },
      physical_regions := [], physical_pages_region := none, used_memory_ranges := [],
      physical_memory_ranges := [], reserved_memory_ranges := [],
      m_physical_page_entries_count := 0 }

/-- Every contiguous range is a whole number of pages long, and every page of
it has the property `good`. -/
def ranges_good (good : Nat → Prop) (ranges : List ContiguousPhysicalVirtualRange) : Prop :=
  ∀ r ∈ ranges, (∃ k, r.upper = r.lower + k * PAGE_SIZE) ∧
    ∀ i, r.lower + i * PAGE_SIZE ≤ r.upper → good (r.lower + i * PAGE_SIZE)

/-! ## A reclaim that moves the page-directory window -/

/-- A page directory of a user process: its directory pages are the frames
from `0x7000` on, locked by the current processor. -/
def other_directory : PageDirectory :=
  { directory_pages := fun i => 0x7000 + i * PAGE_SIZE, lock_held := true, is_kernel := false }

/-- What a reclaim callback does to the memory manager when it gives back the
frame at `0x100000` and looks up the address 0 in `other_directory`, as an
object does that unmaps the page from the address spaces that mapped it:
`deallocate_physical_page`, then `pte`.  The first component is the number of
pages given back. -/
def release_frame_and_remap (s : MemoryManager) : Nat × MemoryManager :=
  match (deallocate_physical_page 0x100000 s).bind (pte example_cpu other_directory 0) with
  | .ok r => (1, r.2)
  | _ => (0, s)

/-- An inode-backed object with a clean page in the frame at `0x100000`. -/
def inode_object : VMObject :=
  { is_anonymous := false, is_purgeable := false, is_volatile := false, is_inode := true,
    purge := fun s => (0, s),
    try_release_clean_pages := fun _ s => release_frame_and_remap s }

/-- A purgeable anonymous object in the volatile state with a page in the
frame at `0x100000`. -/
def volatile_object : VMObject :=
  { is_anonymous := true, is_purgeable := true, is_volatile := true, is_inode := false,
    purge := release_frame_and_remap,
    try_release_clean_pages := fun _ s => (0, s) }

/-- The machine `no_memory_state` after `ensure_pte` on the address `0x200000`
of `example_directory`, the frame of the page table coming from the release
of a clean page of `inode_object`. -/
def inode_reclaim_example : MemoryManager :=
  match ensure_pte example_cpu [inode_object] example_directory 0x200000 no_memory_state with
  | .ok r => r.2
  | _ => no_memory_state

/-- The machine `no_memory_state` after `ensure_pte` on the address `0x200000`
of `example_directory`, the frame of the page table coming from a purge of
`volatile_object`. -/
def purge_reclaim_example : MemoryManager :=
  match ensure_pte example_cpu [volatile_object] example_directory 0x200000
      no_memory_state with
  | .ok r => r.2
  | _ => no_memory_state

/-! ## Lemmas: arithmetic and bitmaps -/

theorem wrapping_add_eq {a b : Nat} (h : a + b < 2 ^ 64) : wrapping_add a b = a + b := by
  unfold wrapping_add; exact Nat.mod_eq_of_lt h

theorem wrapping_sub_eq {a b : Nat} (hb : b ≤ a) (ha : a < 2 ^ 64) :
    wrapping_sub a b = a - b := by
  unfold wrapping_sub
  have hb2 : b % 2 ^ 64 = b := Nat.mod_eq_of_lt (by omega)
  have ha2 : a % 2 ^ 64 = a := Nat.mod_eq_of_lt ha
  rw [hb2, ha2, if_pos hb]

theorem take_first_free_some {fs fs' : List Bool} {i : Nat}
    (h : take_first_free fs = some (i, fs')) :
    fs'.length = fs.length ∧ fs.count true = fs'.count true + 1 := by
  induction fs generalizing i fs' with
  | nil => simp [take_first_free] at h
  | cons f t ih =>
    cases f with
    | true =>
      simp only [take_first_free, Option.some.injEq, Prod.mk.injEq] at h
      obtain ⟨-, rfl⟩ := h
      simp
    | false =>
      simp only [take_first_free] at h
      cases hrec : take_first_free t with
      | none => simp [hrec] at h
      | some r =>
        obtain ⟨j, t'⟩ := r
        simp only [hrec, Option.some.injEq, Prod.mk.injEq] at h
        obtain ⟨-, rfl⟩ := h
        have := ih hrec
        simp [this.1, this.2]

theorem take_first_free_none {fs : List Bool} (h : take_first_free fs = none) :
    fs.count true = 0 := by
  induction fs with
  | nil => rfl
  | cons f t ih =>
    cases f with
    | true => simp [take_first_free] at h
    | false =>
      simp only [take_first_free] at h
      cases hrec : take_first_free t with
      | none => simpa using ih hrec
      | some r => obtain ⟨j, t'⟩ := r; simp [hrec] at h

theorem release_frame_some {i : Nat} {fs fs' : List Bool} (h : release_frame i fs = some fs') :
    fs'.length = fs.length ∧ fs'.count true = fs.count true + 1 ∧
      fs.count true < fs.length := by
  induction fs generalizing i fs' with
  | nil => simp [release_frame] at h
  | cons f t ih =>
    cases i with
    | zero =>
      cases f with
      | true => simp [release_frame] at h
      | false =>
        simp only [release_frame, Bool.false_eq_true, if_false, Option.some.injEq] at h
        subst h
        have := List.count_le_length (a := true) (l := t)
        simp; omega
    | succ j =>
      simp only [release_frame] at h
      cases hrec : release_frame j t with
      | none => simp [hrec] at h
      | some t' =>
        simp only [hrec, Option.some.injEq] at h
        subst h
        have := ih hrec
        cases f <;> simp <;> omega

theorem claim_run_zero_count {n : Nat} {fs : List Bool} (h : run_is_free n fs = true) :
    (claim_run 0 n fs).length = fs.length ∧ (claim_run 0 n fs).count true + n = fs.count true := by
  induction n generalizing fs with
  | zero => cases fs <;> simp [claim_run]
  | succ m ih =>
    cases fs with
    | nil => simp [run_is_free] at h
    | cons f t =>
      simp only [run_is_free, Bool.and_eq_true] at h
      obtain ⟨rfl, ht⟩ := h
      have := ih ht
      simp [claim_run]; omega

theorem find_free_run_some {n i : Nat} {fs : List Bool} (h : find_free_run n fs = some i) :
    (claim_run i n fs).length = fs.length ∧ (claim_run i n fs).count true + n = fs.count true := by
  induction fs generalizing i with
  | nil => simp [find_free_run] at h
  | cons f t ih =>
    simp only [find_free_run] at h
    by_cases hr : run_is_free n (f :: t) = true
    · simp only [hr, if_true, Option.some.injEq] at h
      subst h
      exact claim_run_zero_count hr
    · simp only [hr, Bool.false_eq_true, if_false] at h
      cases hrec : find_free_run n t with
      | none => simp [hrec] at h
      | some j =>
        simp only [hrec, Option.some.injEq] at h
        subst h
        have := ih hrec
        cases f <;> simp [claim_run] <;> omega

/-! ## Lemmas: the loops over the regions -/

theorem free_frames_le_total (rs : List PhysicalRegion) : free_frames rs ≤ total_frames rs := by
  induction rs with
  | nil => simp [free_frames, total_frames]
  | cons r t ih =>
    have := List.count_le_length (a := true) (l := r.frames)
    simp only [free_frames, total_frames, List.map_cons, List.sum_cons,
      PhysicalRegion.free_count, PhysicalRegion.size] at *
    omega

theorem take_free_page_some {r r' : PhysicalRegion} {p : Nat}
    (h : r.take_free_page = some (p, r')) :
    r'.size = r.size ∧ r.free_count = r'.free_count + 1 ∧ r'.lower = r.lower := by
  unfold PhysicalRegion.take_free_page at h
  cases hrec : take_first_free r.frames with
  | none => simp [hrec] at h
  | some x =>
    obtain ⟨i, fs⟩ := x
    simp only [hrec, Option.some.injEq, Prod.mk.injEq] at h
    obtain ⟨-, rfl⟩ := h
    have := take_first_free_some hrec
    simp [PhysicalRegion.size, PhysicalRegion.free_count, this.1, this.2]

theorem take_free_page_none {r : PhysicalRegion} (h : r.take_free_page = none) :
    r.free_count = 0 := by
  unfold PhysicalRegion.take_free_page at h
  cases hrec : take_first_free r.frames with
  | none => exact take_first_free_none hrec
  | some x => obtain ⟨i, fs⟩ := x; simp [hrec] at h

theorem take_free_page_from_regions_some {rs rs' : List PhysicalRegion} {p : Nat}
    (h : take_free_page_from_regions rs = some (p, rs')) :
    total_frames rs' = total_frames rs ∧ free_frames rs = free_frames rs' + 1 := by
  induction rs generalizing rs' with
  | nil => simp [take_free_page_from_regions] at h
  | cons r t ih =>
    simp only [take_free_page_from_regions] at h
    cases hr : r.take_free_page with
    | some x =>
      obtain ⟨q, r'⟩ := x
      simp only [hr, Option.some.injEq, Prod.mk.injEq] at h
      obtain ⟨-, rfl⟩ := h
      have := take_free_page_some hr
      simp only [total_frames, free_frames, List.map_cons, List.sum_cons]
      omega
    | none =>
      simp only [hr] at h
      cases ht : take_free_page_from_regions t with
      | none => simp [ht] at h
      | some x =>
        obtain ⟨q, t'⟩ := x
        simp only [ht, Option.some.injEq, Prod.mk.injEq] at h
        obtain ⟨rfl, rfl⟩ := h
        have := ih ht
        simp only [total_frames, free_frames, List.map_cons, List.sum_cons] at *
        omega

theorem take_free_page_from_regions_none {rs : List PhysicalRegion}
    (h : take_free_page_from_regions rs = none) : free_frames rs = 0 := by
  induction rs with
  | nil => rfl
  | cons r t ih =>
    simp only [take_free_page_from_regions] at h
    cases hr : r.take_free_page with
    | some x => obtain ⟨q, r'⟩ := x; simp [hr] at h
    | none =>
      simp only [hr] at h
      cases ht : take_free_page_from_regions t with
      | some x => obtain ⟨q, t'⟩ := x; simp [ht] at h
      | none =>
        have h1 := take_free_page_none hr
        have h2 := ih ht
        simp only [free_frames, List.map_cons, List.sum_cons] at *
        omega

theorem return_page_some {r r' : PhysicalRegion} {p : Nat} (h : r.return_page p = some r') :
    r'.size = r.size ∧ r'.free_count = r.free_count + 1 ∧ r.free_count < r.size := by
  unfold PhysicalRegion.return_page at h
  cases hrec : release_frame ((p - r.lower) / PAGE_SIZE) r.frames with
  | none => simp [hrec] at h
  | some fs =>
    simp only [hrec, Option.some.injEq] at h
    subst h
    have := release_frame_some hrec
    simpa [PhysicalRegion.size, PhysicalRegion.free_count] using this

theorem return_page_to_regions_some {rs rs' : List PhysicalRegion} {p : Nat}
    (h : return_page_to_regions p rs = some rs') :
    total_frames rs' = total_frames rs ∧ free_frames rs' = free_frames rs + 1 ∧
      free_frames rs < total_frames rs := by
  induction rs generalizing rs' with
  | nil => simp [return_page_to_regions] at h
  | cons r t ih =>
    simp only [return_page_to_regions] at h
    by_cases hc : r.contains p = true
    · simp only [hc, if_true] at h
      cases hr : r.return_page p with
      | none => simp [hr] at h
      | some r' =>
        simp only [hr, Option.some.injEq] at h
        subst h
        have := return_page_some hr
        have hle := free_frames_le_total t
        simp only [total_frames, free_frames, List.map_cons, List.sum_cons] at *
        omega
    · simp only [hc, Bool.false_eq_true, if_false] at h
      cases ht : return_page_to_regions p t with
      | none => simp [ht] at h
      | some t' =>
        simp only [ht, Option.some.injEq] at h
        subst h
        have := ih ht
        have hle := List.count_le_length (a := true) (l := r.frames)
        simp only [total_frames, free_frames, List.map_cons, List.sum_cons,
          PhysicalRegion.free_count, PhysicalRegion.size] at *
        omega

theorem take_contiguous_free_pages_some {r r' : PhysicalRegion} {n : Nat} {pages : List Nat}
    (h : r.take_contiguous_free_pages n = some (pages, r')) :
    r'.size = r.size ∧ r.free_count = r'.free_count + n ∧ n ≠ 0 ∧
      ∃ i, pages = (List.range n).map (fun k => r.lower + (i + k) * PAGE_SIZE) := by
  unfold PhysicalRegion.take_contiguous_free_pages at h
  by_cases hn : n = 0
  · simp [hn] at h
  · simp only [hn, if_false] at h
    cases hrec : find_free_run n r.frames with
    | none => simp [hrec] at h
    | some i =>
      simp only [hrec, Option.some.injEq, Prod.mk.injEq] at h
      obtain ⟨rfl, rfl⟩ := h
      have := find_free_run_some hrec
      refine ⟨?_, ?_, hn, i, rfl⟩
      · simpa [PhysicalRegion.size] using this.1
      · simp only [PhysicalRegion.free_count]; omega

theorem take_contiguous_from_regions_some {rs rs' : List PhysicalRegion} {n : Nat}
    {pages : List Nat} (h : take_contiguous_from_regions n rs = some (pages, rs')) :
    total_frames rs' = total_frames rs ∧ free_frames rs = free_frames rs' + n ∧ n ≠ 0 ∧
      ∃ base, pages = (List.range n).map (fun k => base + k * PAGE_SIZE) := by
  induction rs generalizing rs' with
  | nil => simp [take_contiguous_from_regions] at h
  | cons r t ih =>
    simp only [take_contiguous_from_regions] at h
    cases hr : r.take_contiguous_free_pages n with
    | some x =>
      obtain ⟨q, r'⟩ := x
      simp only [hr, Option.some.injEq, Prod.mk.injEq] at h
      obtain ⟨rfl, rfl⟩ := h
      obtain ⟨h1, h2, h3, i, h4⟩ := take_contiguous_free_pages_some hr
      refine ⟨?_, ?_, h3, r.lower + i * PAGE_SIZE, ?_⟩
      · simp only [total_frames, List.map_cons, List.sum_cons]; omega
      · simp only [free_frames, List.map_cons, List.sum_cons]; omega
      · rw [h4]
        apply List.map_congr_left
        intro k _
        ring
    | none =>
      simp only [hr] at h
      cases ht : take_contiguous_from_regions n t with
      | none => simp [ht] at h
      | some x =>
        obtain ⟨q, t'⟩ := x
        simp only [ht, Option.some.injEq, Prod.mk.injEq] at h
        obtain ⟨rfl, rfl⟩ := h
        obtain ⟨h1, h2, h3, h4⟩ := ih ht
        refine ⟨?_, ?_, h3, h4⟩
        · simp only [total_frames, List.map_cons, List.sum_cons] at *; omega
        · simp only [free_frames, List.map_cons, List.sum_cons] at *; omega

/-! ## Lemmas: the invariant of the manager -/

theorem post_boot_invariant {s : MemoryManager} (h : post_boot s) : manager_invariant s := by
  obtain ⟨h1, h2, h3, h4, h5, h6⟩ := h
  refine ⟨⟨h1, ?_⟩, h2, ?_⟩
  · unfold ledger_balanced; omega
  · omega

theorem commit_physical_pages_invariant {n : Nat} {s s' : MemoryManager}
    {r : Except Errno CommittedPhysicalPageSet}
    (hi : manager_invariant s) (h : commit_physical_pages n s = .ok (r, s')) :
    manager_invariant s' := by
  obtain ⟨⟨hb, hs⟩, ht, hf⟩ := hi
  unfold ledger_balanced at hs
  unfold commit_physical_pages at h
  split at h
  · cases h
  · split at h
    · cases h; exact ⟨⟨hb, hs⟩, ht, hf⟩
    · cases h
      have e1 := wrapping_sub_eq (a := s.system_memory_info.physical_pages_uncommitted)
        (b := n) (by omega) (by omega)
      have e2 := wrapping_add_eq (a := s.system_memory_info.physical_pages_committed)
        (b := n) (by omega)
      refine ⟨⟨hb, ?_⟩, ht, ?_⟩
      · simp only [ledger_balanced, MemoryManager.set_info, e1, e2]; omega
      · simp only [MemoryManager.set_info, e1, e2]; omega

theorem uncommit_physical_pages_invariant {n : Nat} {s s' : MemoryManager}
    (hi : manager_invariant s) (h : uncommit_physical_pages n s = .ok s') :
    manager_invariant s' := by
  obtain ⟨⟨hb, hs⟩, ht, hf⟩ := hi
  unfold ledger_balanced at hs
  unfold uncommit_physical_pages at h
  split at h
  · cases h
  · split at h
    · cases h
    · cases h
      have e1 := wrapping_sub_eq (a := s.system_memory_info.physical_pages_committed)
        (b := n) (by omega) (by omega)
      have e2 := wrapping_add_eq (a := s.system_memory_info.physical_pages_uncommitted)
        (b := n) (by omega)
      refine ⟨⟨hb, ?_⟩, ht, ?_⟩
      · simp only [ledger_balanced, MemoryManager.set_info, e1, e2]; omega
      · simp only [MemoryManager.set_info, e1, e2]; omega

theorem deallocate_physical_page_invariant {p : Nat} {s s' : MemoryManager}
    (hi : manager_invariant s) (h : deallocate_physical_page p s = .ok s') :
    manager_invariant s' := by
  obtain ⟨⟨hb, hs⟩, ht, hf⟩ := hi
  unfold ledger_balanced at hs
  unfold deallocate_physical_page at h
  cases hr : return_page_to_regions p s.physical_regions with
  | none => simp [hr] at h
  | some rs =>
    simp only [hr, Outcome.ok.injEq] at h
    subst h
    obtain ⟨h1, h2, h3⟩ := return_page_to_regions_some hr
    have e1 := wrapping_sub_eq (a := s.system_memory_info.physical_pages_used)
      (b := 1) (by omega) (by omega)
    have e2 := wrapping_add_eq (a := s.system_memory_info.physical_pages_uncommitted)
      (b := 1) (by omega)
    refine ⟨⟨hb, ?_⟩, ?_, ?_⟩
    · simp only [ledger_balanced, e1, e2]; omega
    · simp only [h1]; exact ht
    · simp only [h2, e2]; omega

/-- The search of the regions hands out a frame exactly when one is free; it
moves one page from the free frames to the used pages. -/
theorem search_physical_regions_spec (s : MemoryManager)
    (hu : s.system_memory_info.physical_pages_used + 1 < 2 ^ 64) :
    (free_frames s.physical_regions = 0 ∧ search_physical_regions s = (none, s)) ∨
    (∃ p, (search_physical_regions s).1 = some p ∧
      total_frames (search_physical_regions s).2.physical_regions
        = total_frames s.physical_regions ∧
      free_frames s.physical_regions
        = free_frames (search_physical_regions s).2.physical_regions + 1 ∧
      (search_physical_regions s).2.system_memory_info =
        { s.system_memory_info with
          physical_pages_used := s.system_memory_info.physical_pages_used + 1 }) := by
  unfold search_physical_regions
  cases hr : take_free_page_from_regions s.physical_regions with
  | none => exact Or.inl ⟨take_free_page_from_regions_none hr, rfl⟩
  | some x =>
    obtain ⟨p, rs⟩ := x
    obtain ⟨h1, h2⟩ := take_free_page_from_regions_some hr
    refine Or.inr ⟨p, rfl, h1, h2, ?_⟩
    simp only [wrapping_add_eq hu]

theorem find_free_physical_page_invariant {c : Bool} {s s' : MemoryManager} {r : Option Nat}
    (hi : manager_invariant s) (h : find_free_physical_page c s = .ok (r, s')) :
    manager_invariant s' := by
  obtain ⟨⟨hb, hs⟩, ht, hf⟩ := hi
  unfold ledger_balanced at hs
  unfold find_free_physical_page at h
  cases c with
  | true =>
    simp only [if_true] at h
    split at h
    · cases h
    · rename_i hc
      have e1 := wrapping_sub_eq (a := s.system_memory_info.physical_pages_committed)
        (b := 1) (by omega) (by omega)
      rw [e1] at h
      simp only [Outcome.ok.injEq] at h
      rcases search_physical_regions_spec (s.set_info { s.system_memory_info with
        physical_pages_committed := s.system_memory_info.physical_pages_committed - 1 })
        (by simp only [MemoryManager.set_info]; omega) with ⟨h0, -⟩ | ⟨p, -, h1, h2, h3⟩
      · simp only [MemoryManager.set_info] at h0; omega
      · rw [h] at h1 h2 h3
        simp only [MemoryManager.set_info] at h1 h2 h3
        refine ⟨⟨?_, ?_⟩, ?_, ?_⟩
        · rw [h3]; exact hb
        · simp only [ledger_balanced, h3]; omega
        · rw [h1, h3]; exact ht
        · rw [h3]; simp only; omega
  | false =>
    simp only [Bool.false_eq_true, if_false] at h
    split at h
    · cases h; exact ⟨⟨hb, hs⟩, ht, hf⟩
    · rename_i hc
      have e1 := wrapping_sub_eq (a := s.system_memory_info.physical_pages_uncommitted)
        (b := 1) (by omega) (by omega)
      rw [e1] at h
      simp only [Outcome.ok.injEq] at h
      rcases search_physical_regions_spec (s.set_info { s.system_memory_info with
        physical_pages_uncommitted := s.system_memory_info.physical_pages_uncommitted - 1 })
        (by simp only [MemoryManager.set_info]; omega) with ⟨h0, -⟩ | ⟨p, -, h1, h2, h3⟩
      · simp only [MemoryManager.set_info] at h0; omega
      · rw [h] at h1 h2 h3
        simp only [MemoryManager.set_info] at h1 h2 h3
        refine ⟨⟨?_, ?_⟩, ?_, ?_⟩
        · rw [h3]; exact hb
        · simp only [ledger_balanced, h3]; omega
        · rw [h1, h3]; exact ht
        · rw [h3]; simp only; omega

theorem manager_invariant_congr {s t : MemoryManager}
    (h1 : t.system_memory_info = s.system_memory_info)
    (h2 : t.physical_regions = s.physical_regions) (hi : manager_invariant s) :
    manager_invariant t := by
  unfold manager_invariant ledger_state ledger_balanced frames_accounted at *
  rw [h1, h2]
  exact hi

theorem adopt_pages_info (pages : List Nat) (s : MemoryManager) :
    (adopt_pages pages s).system_memory_info = s.system_memory_info ∧
      (adopt_pages pages s).physical_regions = s.physical_regions := by
  unfold adopt_pages
  induction pages generalizing s with
  | nil => exact ⟨rfl, rfl⟩
  | cons p t ih =>
    simp only [List.foldl_cons]
    obtain ⟨h1, h2⟩ := ih { s with
      ref_count := Function.update s.ref_count (p / PAGE_SIZE) 1
      may_return_to_freelist := Function.update s.may_return_to_freelist (p / PAGE_SIZE) true }
    exact ⟨h1, h2⟩

theorem unref_physical_page_invariant {index : Nat} {s s' : MemoryManager}
    (hi : manager_invariant s) (h : unref_physical_page index s = .ok s') :
    manager_invariant s' := by
  unfold unref_physical_page at h
  simp only at h
  split at h
  · unfold get_physical_address at h
    split at h
    · simp only [Outcome.bind] at h
      split at h
      · refine deallocate_physical_page_invariant ?_ h
        exact manager_invariant_congr (s := s) rfl rfl hi
      · cases h
        exact manager_invariant_congr (s := s) rfl rfl hi
    · simp [Outcome.bind] at h
  · cases h
    exact manager_invariant_congr (s := s) rfl rfl hi

theorem release_pages_invariant {pages : List Nat} {s s' : MemoryManager}
    (hi : manager_invariant s) (h : release_pages pages s = .ok s') :
    manager_invariant s' := by
  induction pages generalizing s with
  | nil =>
    simp only [release_pages, Outcome.ok.injEq] at h
    subst h
    exact hi
  | cons p t ih =>
    simp only [release_pages] at h
    cases hu : unref_physical_page (p / PAGE_SIZE) s with
    | ok s1 =>
      rw [hu] at h
      exact ih (unref_physical_page_invariant hi hu) h
    | fatal => rw [hu] at h; cases h
    | deadlock => rw [hu] at h; cases h

theorem ceil_div_of_dvd {size : Nat} (h : size % PAGE_SIZE = 0) :
    ceil_div size PAGE_SIZE = size / PAGE_SIZE := by
  unfold ceil_div
  simp [h]

theorem allocate_contiguous_physical_pages_invariant {available : Bool} {size : Nat}
    {s s' : MemoryManager} {r : Except Errno (List Nat)}
    (hi : manager_invariant s)
    (h : allocate_contiguous_physical_pages available size s = .ok (r, s')) :
    manager_invariant s' := by
  have hi0 := hi
  obtain ⟨⟨hb, hs⟩, ht, hf⟩ := hi
  unfold ledger_balanced at hs
  unfold allocate_contiguous_physical_pages at h
  split at h
  · cases h
  · simp only at h
    split at h
    · cases h; exact hi0
    · rename_i hlt
      split at h
      · cases h; exact hi0
      · rename_i pages rs htake
        obtain ⟨h1, h2, -, -⟩ := take_contiguous_from_regions_some htake
        have e1 := wrapping_sub_eq
          (a := s.system_memory_info.physical_pages_uncommitted)
          (b := ceil_div size PAGE_SIZE) (by omega) (by omega)
        have e2 := wrapping_add_eq (a := s.system_memory_info.physical_pages_used)
          (b := ceil_div size PAGE_SIZE) (by omega)
        rw [e1, e2] at h
        have hmid : manager_invariant (adopt_pages pages { s with
            physical_regions := rs
            system_memory_info := { s.system_memory_info with
              physical_pages_uncommitted :=
                s.system_memory_info.physical_pages_uncommitted - ceil_div size PAGE_SIZE
              physical_pages_used :=
                s.system_memory_info.physical_pages_used + ceil_div size PAGE_SIZE } }) := by
          obtain ⟨a1, a2⟩ := adopt_pages_info pages { s with
            physical_regions := rs
            system_memory_info := { s.system_memory_info with
              physical_pages_uncommitted :=
                s.system_memory_info.physical_pages_uncommitted - ceil_div size PAGE_SIZE
              physical_pages_used :=
                s.system_memory_info.physical_pages_used + ceil_div size PAGE_SIZE } }
          unfold manager_invariant ledger_state ledger_balanced frames_accounted
          rw [a1, a2]
          simp only
          omega
        split at h
        · cases h
          exact manager_invariant_congr (s := _) rfl rfl hmid
        · cases hrel : release_pages pages (adopt_pages pages { s with
            physical_regions := rs
            system_memory_info := { s.system_memory_info with
              physical_pages_uncommitted :=
                s.system_memory_info.physical_pages_uncommitted - ceil_div size PAGE_SIZE
              physical_pages_used :=
                s.system_memory_info.physical_pages_used + ceil_div size PAGE_SIZE } }) with
          | ok s2 =>
            rw [hrel] at h
            simp only [Outcome.bind, Outcome.ok.injEq, Prod.mk.injEq] at h
            obtain ⟨-, rfl⟩ := h
            exact release_pages_invariant hmid hrel
          | fatal => rw [hrel] at h; cases h
          | deadlock => rw [hrel] at h; cases h

theorem ledger_step_invariant {op : LedgerOp} {s s' : MemoryManager}
    (hi : manager_invariant s) (h : op.step s = .ok s') : manager_invariant s' := by
  cases op with
  | commit n =>
    simp only [LedgerOp.step] at h
    cases hc : commit_physical_pages n s with
    | ok r =>
      rw [hc] at h
      simp only [Outcome.bind, Outcome.ok.injEq] at h
      subst h
      exact commit_physical_pages_invariant (r := r.1) hi hc
    | fatal => rw [hc] at h; cases h
    | deadlock => rw [hc] at h; cases h
  | uncommit n => exact uncommit_physical_pages_invariant hi h
  | find_free c =>
    simp only [LedgerOp.step] at h
    cases hc : find_free_physical_page c s with
    | ok r =>
      rw [hc] at h
      simp only [Outcome.bind, Outcome.ok.injEq] at h
      subst h
      exact find_free_physical_page_invariant (r := r.1) hi hc
    | fatal => rw [hc] at h; cases h
    | deadlock => rw [hc] at h; cases h
  | allocate_contiguous a size =>
    simp only [LedgerOp.step] at h
    cases hc : allocate_contiguous_physical_pages a size s with
    | ok r =>
      rw [hc] at h
      simp only [Outcome.bind, Outcome.ok.injEq] at h
      subst h
      exact allocate_contiguous_physical_pages_invariant (r := r.1) hi hc
    | fatal => rw [hc] at h; cases h
    | deadlock => rw [hc] at h; cases h
  | deallocate p => exact deallocate_physical_page_invariant hi h

theorem run_ledger_ops_invariant {ops : List LedgerOp} {s s' : MemoryManager}
    (hi : manager_invariant s) (h : run_ledger_ops s ops = .ok s') : manager_invariant s' := by
  induction ops generalizing s with
  | nil =>
    simp only [run_ledger_ops, Outcome.ok.injEq] at h
    subst h
    exact hi
  | cons op t ih =>
    simp only [run_ledger_ops] at h
    cases hc : op.step s with
    | ok s1 =>
      rw [hc] at h
      exact ih (ledger_step_invariant hi hc) h
    | fatal => rw [hc] at h; cases h
    | deadlock => rw [hc] at h; cases h

/-! ## The frame ledger: claims -/

/-- C1: in every state that a sequence of `commit_physical_pages`,
`uncommit_physical_pages`, `find_free_physical_page`,
`allocate_contiguous_physical_pages` and `deallocate_physical_page` reaches
from a post-boot state, `physical_pages == physical_pages_used +
physical_pages_committed + physical_pages_uncommitted`.  The sequence is
arbitrary, so the equation holds after each of its operations. -/
theorem ledger_balanced_after_ops (s0 : MemoryManager) (h0 : post_boot s0)
    (ops : List LedgerOp) (s : MemoryManager) (h : run_ledger_ops s0 ops = .ok s) :
    ledger_balanced s :=
  (run_ledger_ops_invariant (post_boot_invariant h0) h).1.2

theorem ledger_balanced_after_ops_witness :
    post_boot boot_state ∧ run_ledger_ops boot_state example_ops = .ok example_ops_result ∧
      ledger_balanced example_ops_result :=
  ⟨by decide, rfl,
    ledger_balanced_after_ops boot_state (by decide) example_ops example_ops_result rfl⟩

/-- C2: for `n > 0` and a state of the ledger, `commit_physical_pages(n)`
fails (and then with `ENOMEM`, leaving the state as it was) exactly when
`physical_pages_uncommitted < n`; otherwise it returns a set whose count is
`n`, takes `n` from the uncommitted pages, adds `n` to the committed pages,
and leaves the used pages, the total and everything else as they were. -/
theorem commit_physical_pages_contract (n : Nat) (s : MemoryManager) (hn : 0 < n)
    (hs : ledger_state s) :
    ((∃ e s', commit_physical_pages n s = .ok (.error e, s')) ↔
        s.system_memory_info.physical_pages_uncommitted < n) ∧
    (s.system_memory_info.physical_pages_uncommitted < n →
        commit_physical_pages n s = .ok (.error .ENOMEM, s)) ∧
    (n ≤ s.system_memory_info.physical_pages_uncommitted →
        commit_physical_pages n s =
          .ok (.ok { m_page_count := n },
            s.set_info
              { physical_pages := s.system_memory_info.physical_pages
                physical_pages_used := s.system_memory_info.physical_pages_used
                physical_pages_committed := s.system_memory_info.physical_pages_committed + n
                physical_pages_uncommitted :=
                  s.system_memory_info.physical_pages_uncommitted - n })) := by
  obtain ⟨hb, hbal⟩ := hs
  unfold ledger_balanced at hbal
  have hn0 : ¬ n = 0 := by omega
  have hfail : s.system_memory_info.physical_pages_uncommitted < n →
      commit_physical_pages n s = .ok (.error .ENOMEM, s) := by
    intro hlt
    unfold commit_physical_pages
    rw [if_neg hn0, if_pos hlt]
  have hok : n ≤ s.system_memory_info.physical_pages_uncommitted →
      commit_physical_pages n s =
        .ok (.ok { m_page_count := n },
          s.set_info
            { physical_pages := s.system_memory_info.physical_pages
              physical_pages_used := s.system_memory_info.physical_pages_used
              physical_pages_committed := s.system_memory_info.physical_pages_committed + n
              physical_pages_uncommitted :=
                s.system_memory_info.physical_pages_uncommitted - n }) := by
    intro hle
    unfold commit_physical_pages
    rw [if_neg hn0, if_neg (by omega)]
    rw [wrapping_sub_eq hle (by omega), wrapping_add_eq (by omega)]
  refine ⟨⟨?_, ?_⟩, hfail, hok⟩
  · rintro ⟨e, s', he⟩
    by_contra hge
    rw [hok (by omega)] at he
    cases he
  · intro hlt
    exact ⟨.ENOMEM, s, hfail hlt⟩

theorem commit_physical_pages_contract_witness :
    0 < 2 ∧ ledger_state boot_state ∧
    (((∃ e s', commit_physical_pages 2 boot_state = .ok (.error e, s')) ↔
        boot_state.system_memory_info.physical_pages_uncommitted < 2) ∧
    (boot_state.system_memory_info.physical_pages_uncommitted < 2 →
        commit_physical_pages 2 boot_state = .ok (.error .ENOMEM, boot_state)) ∧
    (2 ≤ boot_state.system_memory_info.physical_pages_uncommitted →
        commit_physical_pages 2 boot_state =
          .ok (.ok { m_page_count := 2 },
            boot_state.set_info
              { physical_pages := boot_state.system_memory_info.physical_pages
                physical_pages_used := boot_state.system_memory_info.physical_pages_used
                physical_pages_committed :=
                  boot_state.system_memory_info.physical_pages_committed + 2
                physical_pages_uncommitted :=
                  boot_state.system_memory_info.physical_pages_uncommitted - 2 }))) :=
  ⟨by decide, by decide, commit_physical_pages_contract 2 boot_state (by decide) (by decide)⟩

/-- C3: a failed commit is atomic.  When `physical_pages_uncommitted < n`,
`commit_physical_pages(n)` returns `ENOMEM` and the state it leaves is the
state it found: all four counters are as they were. -/
theorem commit_physical_pages_failure_atomic (n : Nat) (s : MemoryManager)
    (h : s.system_memory_info.physical_pages_uncommitted < n) :
    commit_physical_pages n s = .ok (.error .ENOMEM, s) := by
  unfold commit_physical_pages
  rw [if_neg (by omega), if_pos h]

theorem commit_physical_pages_failure_atomic_witness :
    three_uncommitted_state.system_memory_info.physical_pages_uncommitted = 3 ∧
      commit_physical_pages 5 three_uncommitted_state
        = .ok (.error .ENOMEM, three_uncommitted_state) :=
  ⟨by decide, commit_physical_pages_failure_atomic 5 three_uncommitted_state (by decide)⟩

/-! ## Lemmas: zero fill and committed allocation -/

theorem retarget_slot_base (e : PageEntry) (p : Nat) :
    (retarget_slot e p).physical_page_base = p := by
  unfold retarget_slot
  split
  · rfl
  · rename_i h
    simpa using h

/-- The zero fill of a page, on a processor whose interrupts are disabled and
whose quickmap window is free, returns; it zeroes the frame, leaves the slot
of the window cleared and the window free, and touches nothing else. -/
theorem zero_fill_page_spec (cpu : Processor) (p : Nat) (s : MemoryManager)
    (hi : s.interrupts_disabled = true) (hq : s.quickmap_in_use cpu.current_id = false) :
    ∃ s', zero_fill_page cpu p s = .ok s' ∧
      s'.system_memory_info = s.system_memory_info ∧
      s'.physical_regions = s.physical_regions ∧
      s'.physical_page_entries_count = s.physical_page_entries_count ∧
      s'.ref_count = s.ref_count ∧
      s'.may_return_to_freelist = s.may_return_to_freelist ∧
      s'.pd_pages = Function.update s.pd_pages p (fun _ => PageEntry.null) ∧
      s'.pt_pages = Function.update s.pt_pages p (fun _ => PageEntry.null) ∧
      s'.boot_pd_kernel_pt1023 =
        Function.update s.boot_pd_kernel_pt1023 (quickmap_slot cpu) PageEntry.null ∧
      s'.interrupts_disabled = true ∧
      s'.quickmap_in_use = s.quickmap_in_use := by
  unfold zero_fill_page quickmap_page
  simp only [hi, hq, Bool.not_true, Bool.false_eq_true, if_false, Outcome.bind]
  unfold unquickmap_page zero_quickmapped_page quickmap_window_target
  simp only [hi, Function.update_same, Bool.not_true, Bool.false_eq_true, if_false,
    retarget_slot_base, PageEntry.clear, Function.update_idem]
  refine ⟨_, rfl, rfl, rfl, rfl, rfl, rfl, rfl, rfl, rfl, rfl, ?_⟩
  funext i
  by_cases h : i = cpu.current_id
  · subst h; simp [hq]
  · simp [Function.update_noteq h]

theorem search_physical_regions_frame (s : MemoryManager) :
    (search_physical_regions s).2.pd_pages = s.pd_pages ∧
    (search_physical_regions s).2.pt_pages = s.pt_pages ∧
    (search_physical_regions s).2.boot_pd_kernel_pt1023 = s.boot_pd_kernel_pt1023 ∧
    (search_physical_regions s).2.interrupts_disabled = s.interrupts_disabled ∧
    (search_physical_regions s).2.quickmap_in_use = s.quickmap_in_use ∧
    (search_physical_regions s).2.physical_page_entries_count
      = s.physical_page_entries_count := by
  unfold search_physical_regions
  split <;> exact ⟨rfl, rfl, rfl, rfl, rfl, rfl⟩

/-- The outcomes of `find_free_physical_page` in a state that satisfies the
invariant of the manager: with a positive counter in the chosen pool it hands
out a frame, takes one from that counter and adds one to the used pages. -/
theorem find_free_physical_page_spec (committed : Bool) (s : MemoryManager)
    (hi : manager_invariant s)
    (hpos : 0 < (if committed then s.system_memory_info.physical_pages_committed
      else s.system_memory_info.physical_pages_uncommitted)) :
    ∃ p s', find_free_physical_page committed s = .ok (some p, s') ∧
      manager_invariant s' ∧
      s'.system_memory_info =
        { physical_pages := s.system_memory_info.physical_pages
          physical_pages_used := s.system_memory_info.physical_pages_used + 1
          physical_pages_committed :=
            if committed then s.system_memory_info.physical_pages_committed - 1
            else s.system_memory_info.physical_pages_committed
          physical_pages_uncommitted :=
            if committed then s.system_memory_info.physical_pages_uncommitted
            else s.system_memory_info.physical_pages_uncommitted - 1 } ∧
      s'.pd_pages = s.pd_pages ∧ s'.pt_pages = s.pt_pages ∧
      s'.boot_pd_kernel_pt1023 = s.boot_pd_kernel_pt1023 ∧
      s'.interrupts_disabled = s.interrupts_disabled ∧
      s'.quickmap_in_use = s.quickmap_in_use ∧
      s'.physical_page_entries_count = s.physical_page_entries_count := by
  have hi0 := hi
  obtain ⟨⟨hb, hs⟩, ht, hf⟩ := hi
  unfold ledger_balanced at hs
  cases committed with
  | true =>
    simp only [if_true] at hpos
    have e1 := wrapping_sub_eq (a := s.system_memory_info.physical_pages_committed)
      (b := 1) (by omega) (by omega)
    have hff : find_free_physical_page true s = .ok (search_physical_regions
        (s.set_info { s.system_memory_info with
          physical_pages_committed := s.system_memory_info.physical_pages_committed - 1 })) := by
      unfold find_free_physical_page
      rw [if_pos rfl, if_neg (by omega), e1]
    have hfr := search_physical_regions_frame (s.set_info { s.system_memory_info with
        physical_pages_committed := s.system_memory_info.physical_pages_committed - 1 })
    rcases search_physical_regions_spec (s.set_info { s.system_memory_info with
        physical_pages_committed := s.system_memory_info.physical_pages_committed - 1 })
        (by simp only [MemoryManager.set_info]; omega) with ⟨h0, -⟩ | ⟨p, hp, h1, h2, h3⟩
    · simp only [MemoryManager.set_info] at h0; omega
    · refine ⟨p, _, ?_, find_free_physical_page_invariant (c := true) (r := some p) hi0 ?_, ?_, hfr⟩
      · rw [hff, ← hp]
      · rw [hff, ← hp]
      · rw [h3]; simp [MemoryManager.set_info]
  | false =>
    simp only [Bool.false_eq_true, if_false] at hpos
    have e1 := wrapping_sub_eq (a := s.system_memory_info.physical_pages_uncommitted)
      (b := 1) (by omega) (by omega)
    have hff : find_free_physical_page false s = .ok (search_physical_regions
        (s.set_info { s.system_memory_info with
          physical_pages_uncommitted :=
            s.system_memory_info.physical_pages_uncommitted - 1 })) := by
      unfold find_free_physical_page
      rw [if_neg (by simp), if_neg (by omega), e1]
    have hfr := search_physical_regions_frame (s.set_info { s.system_memory_info with
        physical_pages_uncommitted := s.system_memory_info.physical_pages_uncommitted - 1 })
    rcases search_physical_regions_spec (s.set_info { s.system_memory_info with
        physical_pages_uncommitted := s.system_memory_info.physical_pages_uncommitted - 1 })
        (by simp only [MemoryManager.set_info]; omega) with ⟨h0, -⟩ | ⟨p, hp, h1, h2, h3⟩
    · simp only [MemoryManager.set_info] at h0; omega
    · refine ⟨p, _, ?_, find_free_physical_page_invariant (c := false) (r := some p) hi0 ?_, ?_, hfr⟩
      · rw [hff, ← hp]
      · rw [hff, ← hp]
      · rw [h3]; simp [MemoryManager.set_info]

/-- The allocation of a committed page, in a state that satisfies the
invariant and has a committed page left, on a processor whose quickmap window
is free, returns a page. -/
theorem allocate_committed_physical_page_spec (cpu : Processor) (s : MemoryManager)
    (hi : manager_invariant s) (hc : 0 < s.system_memory_info.physical_pages_committed)
    (hq : s.quickmap_in_use cpu.current_id = false) :
    ∃ p s', allocate_committed_physical_page cpu true s = .ok (p, s') ∧
      manager_invariant s' ∧
      s'.system_memory_info.physical_pages_committed
        = s.system_memory_info.physical_pages_committed - 1 ∧
      s'.quickmap_in_use cpu.current_id = false := by
  obtain ⟨p, s1, h1, hi1, hinfo, -, -, -, hint, hqu, -⟩ :=
    find_free_physical_page_spec true s hi (by simpa using hc)
  obtain ⟨s2, h2, z1, z2, -, -, -, -, -, -, -, zq⟩ :=
    zero_fill_page_spec cpu p { s1 with interrupts_disabled := true } rfl
      (by show s1.quickmap_in_use cpu.current_id = false; rw [hqu]; exact hq)
  refine ⟨p, { s2 with interrupts_disabled := s1.interrupts_disabled }, ?_, ?_, ?_, ?_⟩
  · unfold allocate_committed_physical_page
    rw [h1]
    simp only [Outcome.bind, if_true]
    rw [h2]
  · refine manager_invariant_congr (s := s1) ?_ ?_ hi1
    · exact z1
    · exact z2
  · show s2.system_memory_info.physical_pages_committed = _
    rw [z1]
    show s1.system_memory_info.physical_pages_committed = _
    rw [hinfo]
    simp
  · show s2.quickmap_in_use cpu.current_id = false
    rw [zq]
    show s1.quickmap_in_use cpu.current_id = false
    rw [hqu]; exact hq

theorem take_pages_spec (cpu : Processor) (k : Nat) (set : CommittedPhysicalPageSet)
    (s : MemoryManager) (hi : manager_invariant s) (hk : set.m_page_count = k)
    (hc : k ≤ s.system_memory_info.physical_pages_committed)
    (hq : s.quickmap_in_use cpu.current_id = false) :
    ∃ pages s', take_pages cpu k set s = .ok (pages, { m_page_count := 0 }, s') ∧
      pages.length = k := by
  induction k generalizing set s with
  | zero =>
    refine ⟨[], s, ?_, rfl⟩
    cases set
    simp only at hk
    subst hk
    rfl
  | succ n ih =>
    obtain ⟨p, s1, h1, hi1, hc1, hq1⟩ :=
      allocate_committed_physical_page_spec cpu s hi (by omega) hq
    obtain ⟨pages, s2, h2, hl⟩ := ih { m_page_count := set.m_page_count - 1 } s1 hi1
      (by simp only; omega) (by omega) hq1
    refine ⟨p :: pages, s2, ?_, by simp [hl]⟩
    simp only [take_pages, CommittedPhysicalPageSet.take_one]
    rw [if_neg (by omega), h1]
    simp only [Outcome.bind]
    rw [h2]

/-- C4: in a state that satisfies the invariant of the manager (as every state
reached from boot does), on a processor whose quickmap window is free, and
for `1 ≤ n ≤ physical_pages_uncommitted`: `commit_physical_pages(n)` returns a
set, each of the next `n` calls of `take_one()` on it returns a page (no
`VERIFY` fires: the count of the set is positive, a committed page is left, a
free frame is found), and the count of the set is 0 after the last call. -/
theorem commit_then_take_all (cpu : Processor) (n : Nat) (s : MemoryManager)
    (hi : manager_invariant s) (hq : s.quickmap_in_use cpu.current_id = false)
    (h1 : 1 ≤ n) (h2 : n ≤ s.system_memory_info.physical_pages_uncommitted) :
    ∃ s1, commit_physical_pages n s = .ok (.ok { m_page_count := n }, s1) ∧
      ∃ pages s2,
        take_pages cpu n { m_page_count := n } s1 = .ok (pages, { m_page_count := 0 }, s2) ∧
          pages.length = n := by
  have hc := (commit_physical_pages_contract n s (by omega) hi.1).2.2 h2
  refine ⟨_, hc, ?_⟩
  refine take_pages_spec cpu n _ _ (commit_physical_pages_invariant hi hc) rfl ?_ hq
  simp only [MemoryManager.set_info]
  omega

theorem commit_then_take_all_witness :
    manager_invariant boot_state ∧ boot_state.quickmap_in_use example_cpu.current_id = false ∧
    ∃ s1, commit_physical_pages 3 boot_state = .ok (.ok { m_page_count := 3 }, s1) ∧
      ∃ pages s2,
        take_pages example_cpu 3 { m_page_count := 3 } s1
            = .ok (pages, { m_page_count := 0 }, s2) ∧
          pages.length = 3 :=
  ⟨by decide, by decide,
    commit_then_take_all example_cpu 3 boot_state (by decide) (by decide) (by decide)
      (by decide)⟩

theorem destroy_spec (set : CommittedPhysicalPageSet) (s : MemoryManager)
    (hs : ledger_state s)
    (hk : set.m_page_count ≤ s.system_memory_info.physical_pages_committed) :
    set.destroy s =
        .ok (s.set_info
          { physical_pages := s.system_memory_info.physical_pages
            physical_pages_used := s.system_memory_info.physical_pages_used
            physical_pages_committed :=
              s.system_memory_info.physical_pages_committed - set.m_page_count
            physical_pages_uncommitted :=
              s.system_memory_info.physical_pages_uncommitted + set.m_page_count }) := by
  obtain ⟨hb, hbal⟩ := hs
  unfold ledger_balanced at hbal
  unfold CommittedPhysicalPageSet.destroy
  by_cases h0 : set.m_page_count = 0
  · rw [if_neg (by simpa using h0), h0]
    rfl
  · rw [if_pos h0]
    unfold uncommit_physical_pages
    rw [if_neg h0, if_neg (by omega), wrapping_add_eq (by omega),
      wrapping_sub_eq hk (by omega)]

/-- C5: destroying a `CommittedPhysicalPageSet` whose count is `k` (in a state
of the ledger that holds these `k` commitments) adds `k` to the uncommitted
pages, takes `k` from the committed pages, and leaves the used pages, the
total and everything else as they were; for `k = 0` the state is untouched.
A `commit_physical_pages(n)` followed at once by the destruction of its set
restores all four counters. -/
theorem destroy_committed_set (set : CommittedPhysicalPageSet) (s : MemoryManager)
    (hs : ledger_state s)
    (hk : set.m_page_count ≤ s.system_memory_info.physical_pages_committed) :
    set.destroy s =
        .ok (s.set_info
          { physical_pages := s.system_memory_info.physical_pages
            physical_pages_used := s.system_memory_info.physical_pages_used
            physical_pages_committed :=
              s.system_memory_info.physical_pages_committed - set.m_page_count
            physical_pages_uncommitted :=
              s.system_memory_info.physical_pages_uncommitted + set.m_page_count }) ∧
    (set.m_page_count = 0 → set.destroy s = .ok s) ∧
    (∀ n, 0 < n → n ≤ s.system_memory_info.physical_pages_uncommitted →
      ∃ set1 s1 s2, commit_physical_pages n s = .ok (.ok set1, s1) ∧
        set1.destroy s1 = .ok s2 ∧ s2.system_memory_info = s.system_memory_info) := by
  refine ⟨destroy_spec set s hs hk, ?_, ?_⟩
  · intro h0
    unfold CommittedPhysicalPageSet.destroy
    rw [if_neg (by simpa using h0)]
  · intro n hn hle
    have hc := (commit_physical_pages_contract n s hn hs).2.2 hle
    have hi1 : ledger_state (s.set_info
          { physical_pages := s.system_memory_info.physical_pages
            physical_pages_used := s.system_memory_info.physical_pages_used
            physical_pages_committed := s.system_memory_info.physical_pages_committed + n
            physical_pages_uncommitted :=
              s.system_memory_info.physical_pages_uncommitted - n }) := by
      obtain ⟨hb, hbal⟩ := hs
      unfold ledger_balanced at hbal
      refine ⟨hb, ?_⟩
      simp only [ledger_balanced, MemoryManager.set_info]
      omega
    have hd := destroy_spec { m_page_count := n } _ hi1
      (by simp only [MemoryManager.set_info]; omega)
    refine ⟨_, _, _, hc, hd, ?_⟩
    simp only [MemoryManager.set_info]
    cases hinfo : s.system_memory_info
    simp only [hinfo] at hle
    simp only [SystemMemoryInfo.mk.injEq, true_and]
    omega

theorem destroy_committed_set_witness :
    ledger_state two_committed_state ∧
    (2 : Nat) ≤ two_committed_state.system_memory_info.physical_pages_committed ∧
    (CommittedPhysicalPageSet.destroy { m_page_count := 2 } two_committed_state
      = .ok (two_committed_state.set_info
          { physical_pages := 4, physical_pages_used := 0, physical_pages_committed := 0,
            physical_pages_uncommitted := 4 })) :=
  ⟨by decide, by decide,
    (destroy_committed_set { m_page_count := 2 } two_committed_state (by decide)
      (by decide)).1⟩

/-- Outside the invariant of the manager: in a state whose counters say that
one page is uncommitted while no region has a free frame, the counter of the
uncommitted pages is decremented before the regions are searched and is not
restored when the search finds nothing.  Such a state does not satisfy
`manager_invariant`. -/
theorem find_free_physical_page_outside_invariant :
    ¬ manager_invariant exhausted_regions_state ∧
    exhausted_regions_state.system_memory_info.physical_pages_uncommitted = 1 ∧
    ∃ s', find_free_physical_page false exhausted_regions_state = .ok (none, s') ∧
      s'.system_memory_info =
        { physical_pages := 2, physical_pages_used := 1, physical_pages_committed := 0,
          physical_pages_uncommitted := 0 } := by
  refine ⟨by decide, by decide, _, rfl, rfl⟩

/-- C6: in a state that satisfies the invariant of the manager (the counters
balance and the free frames of the regions are the committed and the
uncommitted pages), `find_free_physical_page(committed)` has exactly two
outcomes when it returns: a frame, the counter that the flag selects
decremented by one (`physical_pages_committed` if `committed`,
`physical_pages_uncommitted` if not), `physical_pages_used` incremented by
one, the other counter and `physical_pages` unchanged; or no frame, the state
as it was.  With `committed = false` and `physical_pages_uncommitted == 0` it
returns no frame; with `committed = true` and `physical_pages_committed == 0`
it stops the kernel; with a positive counter in the selected pool it returns
a frame. -/
theorem find_free_physical_page_contract (committed : Bool) (s : MemoryManager)
    (hi : manager_invariant s) :
    (committed = true → s.system_memory_info.physical_pages_committed = 0 →
      find_free_physical_page committed s = .fatal) ∧
    (committed = false → s.system_memory_info.physical_pages_uncommitted = 0 →
      find_free_physical_page committed s = .ok (none, s)) ∧
    (0 < (if committed then s.system_memory_info.physical_pages_committed
        else s.system_memory_info.physical_pages_uncommitted) →
      ∃ p s', find_free_physical_page committed s = .ok (some p, s')) ∧
    (∀ r s', find_free_physical_page committed s = .ok (r, s') →
      (∃ p, r = some p ∧
        s'.system_memory_info =
          { physical_pages := s.system_memory_info.physical_pages
            physical_pages_used := s.system_memory_info.physical_pages_used + 1
            physical_pages_committed :=
              if committed then s.system_memory_info.physical_pages_committed - 1
              else s.system_memory_info.physical_pages_committed
            physical_pages_uncommitted :=
              if committed then s.system_memory_info.physical_pages_uncommitted
              else s.system_memory_info.physical_pages_uncommitted - 1 } ∧
        0 < (if committed then s.system_memory_info.physical_pages_committed
          else s.system_memory_info.physical_pages_uncommitted)) ∨
      (r = none ∧ s' = s)) := by
  have hzero_c : committed = true → s.system_memory_info.physical_pages_committed = 0 →
      find_free_physical_page committed s = .fatal := by
    intro hc h0
    subst hc
    unfold find_free_physical_page
    rw [if_pos rfl, if_pos h0]
  have hzero_u : committed = false → s.system_memory_info.physical_pages_uncommitted = 0 →
      find_free_physical_page committed s = .ok (none, s) := by
    intro hc h0
    subst hc
    unfold find_free_physical_page
    rw [if_neg (by simp), if_pos h0]
  refine ⟨hzero_c, hzero_u, ?_, ?_⟩
  · intro hpos
    obtain ⟨p, s', h, -⟩ := find_free_physical_page_spec committed s hi hpos
    exact ⟨p, s', h⟩
  · intro r s' h
    by_cases hpos : 0 < (if committed then s.system_memory_info.physical_pages_committed
        else s.system_memory_info.physical_pages_uncommitted)
    · obtain ⟨p, s'', h', -, hinfo, -⟩ := find_free_physical_page_spec committed s hi hpos
      rw [h] at h'
      simp only [Outcome.ok.injEq, Prod.mk.injEq] at h'
      obtain ⟨rfl, rfl⟩ := h'
      exact Or.inl ⟨p, rfl, hinfo, hpos⟩
    · cases committed with
      | true =>
        simp only [if_true] at hpos
        rw [hzero_c rfl (by omega)] at h
        cases h
      | false =>
        simp only [Bool.false_eq_true, if_false] at hpos
        rw [hzero_u rfl (by omega)] at h
        simp only [Outcome.ok.injEq, Prod.mk.injEq] at h
        exact Or.inr ⟨h.1.symm, h.2.symm⟩

theorem find_free_physical_page_contract_witness :
    manager_invariant two_committed_state ∧
    (∃ p s', find_free_physical_page true two_committed_state = .ok (some p, s')) ∧
    (∃ p s', find_free_physical_page false two_committed_state = .ok (some p, s')) ∧
    manager_invariant no_memory_state ∧
    find_free_physical_page true no_memory_state = .fatal ∧
    find_free_physical_page false no_memory_state = .ok (none, no_memory_state) :=
  ⟨by decide,
    (find_free_physical_page_contract true two_committed_state (by decide)).2.2.1 (by decide),
    (find_free_physical_page_contract false two_committed_state (by decide)).2.2.1 (by decide),
    by decide,
    (find_free_physical_page_contract true no_memory_state (by decide)).1 rfl rfl,
    (find_free_physical_page_contract false no_memory_state (by decide)).2.1 rfl rfl⟩

/-- C7: for a `size` that is a positive multiple of `PAGE_SIZE`, with
`n = size / PAGE_SIZE`: whatever `allocate_contiguous_physical_pages(size)`
returns is `ENOMEM` or a vector of exactly `n` pages at `p`, `p + PAGE_SIZE`,
..., `p + (n-1) * PAGE_SIZE`, in this order; when
`physical_pages_uncommitted < n` it returns `ENOMEM` and leaves the state as
it was, no region touched; and when the temporary kernel region that zeroes
the pages is available the call returns, it does not stop the kernel. -/
theorem allocate_contiguous_physical_pages_contract (available : Bool) (size : Nat)
    (s : MemoryManager) (_hpos : 0 < size) (hdiv : size % PAGE_SIZE = 0) :
    (∀ r s', allocate_contiguous_physical_pages available size s = .ok (r, s') →
      r = .error .ENOMEM ∨
      ∃ p, r = .ok ((List.range (size / PAGE_SIZE)).map (fun k => p + k * PAGE_SIZE))) ∧
    (s.system_memory_info.physical_pages_uncommitted < size / PAGE_SIZE →
      allocate_contiguous_physical_pages available size s = .ok (.error .ENOMEM, s)) ∧
    (∃ r s', allocate_contiguous_physical_pages true size s = .ok (r, s')) := by
  have hcd := ceil_div_of_dvd hdiv
  refine ⟨?_, ?_, ?_⟩
  · intro r s' h
    unfold allocate_contiguous_physical_pages at h
    rw [if_neg (by simpa using hdiv)] at h
    simp only [hcd] at h
    split at h
    · cases h; exact Or.inl rfl
    · split at h
      · cases h; exact Or.inl rfl
      · rename_i pages rs htake
        obtain ⟨-, -, -, base, hpages⟩ := take_contiguous_from_regions_some htake
        split at h
        · cases h
          exact Or.inr ⟨base, by rw [hpages]⟩
        · cases hrel : release_pages pages (adopt_pages pages { s with
              physical_regions := rs
              system_memory_info := { s.system_memory_info with
                physical_pages_uncommitted :=
                  wrapping_sub s.system_memory_info.physical_pages_uncommitted
                    (size / PAGE_SIZE)
                physical_pages_used :=
                  wrapping_add s.system_memory_info.physical_pages_used
                    (size / PAGE_SIZE) } }) with
          | ok s2 =>
            rw [hrel] at h
            simp only [Outcome.bind, Outcome.ok.injEq, Prod.mk.injEq] at h
            exact Or.inl h.1.symm
          | fatal => rw [hrel] at h; cases h
          | deadlock => rw [hrel] at h; cases h
  · intro hlt
    unfold allocate_contiguous_physical_pages
    rw [if_neg (by simpa using hdiv)]
    simp only [hcd]
    rw [if_pos hlt]
  · unfold allocate_contiguous_physical_pages
    rw [if_neg (by simpa using hdiv)]
    simp only [hcd]
    split
    · exact ⟨_, _, rfl⟩
    · split
      · exact ⟨_, _, rfl⟩
      · exact ⟨_, _, rfl⟩

theorem allocate_contiguous_physical_pages_contract_witness :
    0 < 8192 ∧ 8192 % PAGE_SIZE = 0 ∧
    allocate_contiguous_physical_pages true 8192 three_uncommitted_state
      = .ok (.ok [0x101000, 0x102000],
          (match allocate_contiguous_physical_pages true 8192 three_uncommitted_state with
            | .ok r => r.2
            | _ => three_uncommitted_state)) ∧
    (∀ r s', allocate_contiguous_physical_pages true 8192 three_uncommitted_state
        = .ok (r, s') →
      r = .error .ENOMEM ∨
      ∃ p, r = .ok ((List.range (8192 / PAGE_SIZE)).map (fun k => p + k * PAGE_SIZE))) :=
  ⟨by decide, by decide, rfl,
    (allocate_contiguous_physical_pages_contract true 8192 three_uncommitted_state
      (by decide) (by decide)).1⟩

/-! ## Single-page allocation with reclaim: claims -/

/-- C14: `allocate_physical_page` returns an error, and then `ENOMEM`, exactly
when the three stages, run in this order, all end without a frame: the
search of the uncommitted pool, the purge pass, the release pass over the
inode-backed objects.  A frame from the first search ends the call without
any object being consulted; a frame from the purge pass ends it without the
release pass being run.  Committed pages are never drawn: with
`physical_pages_uncommitted == 0` and no object to reclaim from, the call
fails and leaves the state as it was, whatever `physical_pages_committed`
is. -/
theorem allocate_physical_page_enomem (cpu : Processor) (vmobjects : List VMObject)
    (zero_fill : Bool) (s : MemoryManager) :
    (∀ e s', allocate_physical_page cpu vmobjects zero_fill s = .ok (.error e, s') →
      e = .ENOMEM ∧ ∃ s1 purged s2 s3,
        find_free_physical_page false { s with interrupts_disabled := true }
          = .ok (none, s1) ∧
        purge_pass vmobjects s1 = .ok (none, purged, s2) ∧
        release_pass vmobjects s2 = .ok (none, s3) ∧
        s' = { s3 with interrupts_disabled := s.interrupts_disabled }) ∧
    (∀ s1 purged s2 s3,
        find_free_physical_page false { s with interrupts_disabled := true }
          = .ok (none, s1) →
        purge_pass vmobjects s1 = .ok (none, purged, s2) →
        release_pass vmobjects s2 = .ok (none, s3) →
        allocate_physical_page cpu vmobjects zero_fill s
          = .ok (.error .ENOMEM, { s3 with interrupts_disabled := s.interrupts_disabled })) ∧
    (∀ page s1,
        find_free_physical_page false { s with interrupts_disabled := true }
          = .ok (some page, s1) →
        allocate_physical_page cpu vmobjects zero_fill s
          = allocate_physical_page cpu [] zero_fill s) ∧
    (∀ s1 page purged s2,
        find_free_physical_page false { s with interrupts_disabled := true }
          = .ok (none, s1) →
        purge_pass vmobjects s1 = .ok (some page, purged, s2) →
        allocate_physical_page cpu vmobjects zero_fill s
          = (if zero_fill then
              (zero_fill_page cpu page s2).bind fun s4 =>
                .ok (.ok (page, purged),
                  { s4 with interrupts_disabled := s.interrupts_disabled })
            else
              .ok (.ok (page, purged),
                { s2 with interrupts_disabled := s.interrupts_disabled }))) ∧
    (s.system_memory_info.physical_pages_uncommitted = 0 →
        allocate_physical_page cpu [] zero_fill s = .ok (.error .ENOMEM, s)) := by
  refine ⟨?_, ?_, ?_, ?_, ?_⟩
  · intro e s' h
    unfold allocate_physical_page with_global_data at h
    cases hf : find_free_physical_page false { s with interrupts_disabled := true } with
    | fatal => simp [hf, Outcome.bind] at h
    | deadlock => simp [hf, Outcome.bind] at h
    | ok f =>
      obtain ⟨f1, s1⟩ := f
      cases f1 with
      | some page =>
        simp only [hf, Outcome.bind] at h
        cases zero_fill with
        | false => simp at h
        | true =>
          simp only [if_true] at h
          cases hz : zero_fill_page cpu page s1 <;> simp [hz] at h
      | none =>
        simp only [hf, Outcome.bind] at h
        cases hp : purge_pass vmobjects s1 with
        | fatal => simp [hp] at h
        | deadlock => simp [hp] at h
        | ok pr =>
          obtain ⟨p1, purged, s2⟩ := pr
          cases p1 with
          | some page =>
            simp only [hp] at h
            cases zero_fill with
            | false => simp at h
            | true =>
              simp only [if_true] at h
              cases hz : zero_fill_page cpu page s2 <;> simp [hz] at h
          | none =>
            simp only [hp] at h
            cases hr : release_pass vmobjects s2 with
            | fatal => simp [hr] at h
            | deadlock => simp [hr] at h
            | ok q =>
              obtain ⟨q1, s3⟩ := q
              cases q1 with
              | some page =>
                simp only [hr] at h
                cases zero_fill with
                | false => simp at h
                | true =>
                  simp only [if_true] at h
                  cases hz : zero_fill_page cpu page s3 <;> simp [hz] at h
              | none =>
                simp only [hr, Outcome.ok.injEq, Prod.mk.injEq, Except.error.injEq] at h
                exact ⟨h.1.symm, s1, purged, s2, s3, rfl, hp, hr, h.2.symm⟩
  · intro s1 purged s2 s3 hf hp hr
    unfold allocate_physical_page with_global_data
    simp only [hf, Outcome.bind, hp, hr]
  · intro page s1 hf
    unfold allocate_physical_page with_global_data
    simp only [hf, Outcome.bind]
  · intro s1 page purged s2 hf hp
    unfold allocate_physical_page with_global_data
    simp only [hf, Outcome.bind, hp]
    cases zero_fill with
    | false => simp
    | true =>
      simp only [if_true]
      cases hz : zero_fill_page cpu page s2 <;> simp
  · intro hu
    unfold allocate_physical_page with_global_data
    have hf : find_free_physical_page false { s with interrupts_disabled := true }
        = .ok (none, { s with interrupts_disabled := true }) := by
      unfold find_free_physical_page
      simp [hu]
    simp only [hf, Outcome.bind, purge_pass, release_pass]

theorem allocate_physical_page_enomem_witness :
    two_committed_state.system_memory_info.physical_pages_committed = 2 ∧
    two_committed_state.system_memory_info.physical_pages_uncommitted = 2 ∧
    (allocate_physical_page example_cpu [] true
        (two_committed_state.set_info
          { physical_pages := 4, physical_pages_used := 2, physical_pages_committed := 2,
            physical_pages_uncommitted := 0 })
      = .ok (.error .ENOMEM,
        (two_committed_state.set_info
          { physical_pages := 4, physical_pages_used := 2, physical_pages_committed := 2,
            physical_pages_uncommitted := 0 }))) :=
  ⟨by decide, by decide,
    (allocate_physical_page_enomem example_cpu [] true
      (two_committed_state.set_info
        { physical_pages := 4, physical_pages_used := 2, physical_pages_committed := 2,
          physical_pages_uncommitted := 0 })).2.2.2.2 rfl⟩

theorem return_page_to_regions_first {paddr : Nat} {pre post : List PhysicalRegion}
    {r r' : PhysicalRegion} (hpre : ∀ q ∈ pre, q.contains paddr = false)
    (hr : r.contains paddr = true) (hret : r.return_page paddr = some r') :
    return_page_to_regions paddr (pre ++ r :: post) = some (pre ++ r' :: post) := by
  induction pre with
  | nil => simp [return_page_to_regions, hr, hret]
  | cons q t ih =>
    have hq : q.contains paddr = false := hpre q (by simp)
    have ht := ih (fun x hx => hpre x (by simp [hx]))
    simp [return_page_to_regions, hq, ht]

theorem return_page_to_regions_none {paddr : Nat} {rs : List PhysicalRegion}
    (h : ∀ q ∈ rs, q.contains paddr = false) : return_page_to_regions paddr rs = none := by
  induction rs with
  | nil => rfl
  | cons q t ih =>
    have hq : q.contains paddr = false := h q (by simp)
    have ht := ih (fun x hx => h x (by simp [hx]))
    simp [return_page_to_regions, hq, ht]

/-- C17: in a state that satisfies the invariant of the manager,
`deallocate_physical_page(paddr)` hands the page to the first region that
contains `paddr` (the page being one that this region had handed out), takes
one from the used pages, adds one to the uncommitted pages (the committed
pages and the total stay), and leaves every other region and everything else
as it was.  When no region contains `paddr` it stops the kernel: there is no
state in which a counter could have changed. -/
theorem deallocate_physical_page_contract (paddr : Nat) (s : MemoryManager)
    (hi : manager_invariant s) :
    (∀ pre r post r', s.physical_regions = pre ++ r :: post →
      (∀ q ∈ pre, q.contains paddr = false) → r.contains paddr = true →
      r.return_page paddr = some r' →
      0 < s.system_memory_info.physical_pages_used ∧
      deallocate_physical_page paddr s =
        .ok { s with
          physical_regions := pre ++ r' :: post
          system_memory_info :=
            { physical_pages := s.system_memory_info.physical_pages
              physical_pages_used := s.system_memory_info.physical_pages_used - 1
              physical_pages_committed := s.system_memory_info.physical_pages_committed
              physical_pages_uncommitted :=
                s.system_memory_info.physical_pages_uncommitted + 1 } }) ∧
    ((∀ q ∈ s.physical_regions, q.contains paddr = false) →
      deallocate_physical_page paddr s = .fatal) := by
  obtain ⟨⟨hb, hs⟩, ht, hf⟩ := hi
  unfold ledger_balanced at hs
  refine ⟨?_, ?_⟩
  · intro pre r post r' hreg hpre hr hret
    have h1 := @return_page_to_regions_first paddr pre post r r' hpre hr hret
    rw [← hreg] at h1
    obtain ⟨-, -, h3⟩ := return_page_to_regions_some h1
    have hu : 0 < s.system_memory_info.physical_pages_used := by omega
    refine ⟨hu, ?_⟩
    unfold deallocate_physical_page
    rw [h1]
    simp only
    rw [wrapping_sub_eq (by omega) (by omega), wrapping_add_eq (by omega)]
  · intro hnone
    unfold deallocate_physical_page
    rw [return_page_to_regions_none hnone]

theorem deallocate_physical_page_contract_witness :
    manager_invariant three_uncommitted_state ∧
    deallocate_physical_page 0x100000 three_uncommitted_state =
      .ok { three_uncommitted_state with
        physical_regions := [{ lower := 0x100000, frames := [true, true, true, true] }]
        system_memory_info :=
          { physical_pages := 4, physical_pages_used := 0, physical_pages_committed := 0,
            physical_pages_uncommitted := 4 } } ∧
    deallocate_physical_page 0x200000 three_uncommitted_state = .fatal :=
  ⟨by decide,
    ((deallocate_physical_page_contract 0x100000 three_uncommitted_state (by decide)).1
      [] { lower := 0x100000, frames := [false, true, true, true] } []
      { lower := 0x100000, frames := [true, true, true, true] } rfl
      (by simp) (by decide) (by decide)).2,
    (deallocate_physical_page_contract 0x200000 three_uncommitted_state (by decide)).2
      (by decide)⟩

/-! ## Lemmas: the quickmap windows and the walker -/

@[simp] theorem retarget_window_pd_pages (i p : Nat) (s : MemoryManager) :
    (retarget_window i p s).pd_pages = s.pd_pages := rfl

@[simp] theorem retarget_window_pt_pages (i p : Nat) (s : MemoryManager) :
    (retarget_window i p s).pt_pages = s.pt_pages := rfl

@[simp] theorem retarget_window_interrupts (i p : Nat) (s : MemoryManager) :
    (retarget_window i p s).interrupts_disabled = s.interrupts_disabled := rfl

@[simp] theorem retarget_window_info (i p : Nat) (s : MemoryManager) :
    (retarget_window i p s).system_memory_info = s.system_memory_info := rfl

@[simp] theorem retarget_window_regions (i p : Nat) (s : MemoryManager) :
    (retarget_window i p s).physical_regions = s.physical_regions := rfl

@[simp] theorem retarget_window_ref_count (i p : Nat) (s : MemoryManager) :
    (retarget_window i p s).ref_count = s.ref_count := rfl

@[simp] theorem retarget_window_may_return (i p : Nat) (s : MemoryManager) :
    (retarget_window i p s).may_return_to_freelist = s.may_return_to_freelist := rfl

@[simp] theorem retarget_window_entries_count (i p : Nat) (s : MemoryManager) :
    (retarget_window i p s).physical_page_entries_count = s.physical_page_entries_count := rfl

@[simp] theorem retarget_window_in_use (i p : Nat) (s : MemoryManager) :
    (retarget_window i p s).quickmap_in_use = s.quickmap_in_use := rfl

@[simp] theorem retarget_window_same (i p : Nat) (s : MemoryManager) :
    ((retarget_window i p s).boot_pd_kernel_pt1023 i).physical_page_base = p := by
  simp [retarget_window, retarget_slot_base]

theorem retarget_window_other {i j : Nat} (h : j ≠ i) (p : Nat) (s : MemoryManager) :
    (retarget_window i p s).boot_pd_kernel_pt1023 j = s.boot_pd_kernel_pt1023 j := by
  simp [retarget_window, Function.update_noteq h]

theorem quickmap_pd_eq (cpu : Processor) (dir : PageDirectory) (i : Nat) (s : MemoryManager)
    (hi : s.interrupts_disabled = true) :
    quickmap_pd cpu dir i s =
      .ok (cpu.layout.KERNEL_QUICKMAP_PD_PER_CPU_BASE + cpu.current_id * PAGE_SIZE,
        retarget_window (pd_slot cpu) (dir.directory_pages i) s) := by
  unfold quickmap_pd
  simp [hi]

theorem quickmap_pt_eq (cpu : Processor) (p : Nat) (s : MemoryManager)
    (hi : s.interrupts_disabled = true) :
    quickmap_pt cpu p s =
      .ok (cpu.layout.KERNEL_QUICKMAP_PT_PER_CPU_BASE + cpu.current_id * PAGE_SIZE,
        retarget_window (pt_slot cpu) p s) := by
  unfold quickmap_pt
  simp [hi]

theorem read_pd_window_retarget (cpu : Processor) (p i : Nat) (s : MemoryManager) :
    read_pd_window cpu i (retarget_window (pd_slot cpu) p s) = s.pd_pages p i := by
  simp [read_pd_window, pd_window_target]

theorem read_pt_window_retarget (cpu : Processor) (p i : Nat) (s : MemoryManager) :
    read_pt_window cpu i (retarget_window (pt_slot cpu) p s) = s.pt_pages p i := by
  simp [read_pt_window, pt_window_target]

/-- What `pte` computes, for a caller that has the interrupts disabled and
holds the lock of the directory. -/
theorem pte_eq (cpu : Processor) (dir : PageDirectory) (v : Nat) (s : MemoryManager)
    (hi : s.interrupts_disabled = true) (hl : dir.lock_held = true) :
    pte cpu dir v s =
      if (directory_entry dir v s).present then
        .ok (some (page_table_index v),
          retarget_window (pt_slot cpu) (directory_entry dir v s).physical_page_base
            (retarget_window (pd_slot cpu)
              (dir.directory_pages (page_directory_table_index v)) s))
      else
        .ok (none, retarget_window (pd_slot cpu)
          (dir.directory_pages (page_directory_table_index v)) s) := by
  unfold pte
  simp only [hi, hl, Bool.not_true, Bool.false_eq_true, if_false]
  rw [quickmap_pd_eq cpu dir _ s hi]
  simp only [Outcome.bind, read_pd_window_retarget]
  show (if (!(directory_entry dir v s).present) = true then _ else _) = _
  cases hp : (directory_entry dir v s).present
  · simp [page_directory_table_index]
  · simp only [Bool.not_true, Bool.false_eq_true, if_false, if_true]
    rw [quickmap_pt_eq cpu _ _ (by simpa using hi)]
    rfl

/-! ## The page-table walker: lookup -/

theorem find_free_physical_page_frame {c : Bool} {s s' : MemoryManager} {r : Option Nat}
    (h : find_free_physical_page c s = .ok (r, s')) :
    s'.pd_pages = s.pd_pages ∧ s'.pt_pages = s.pt_pages ∧
    s'.boot_pd_kernel_pt1023 = s.boot_pd_kernel_pt1023 ∧
    s'.interrupts_disabled = s.interrupts_disabled ∧
    s'.quickmap_in_use = s.quickmap_in_use ∧
    s'.physical_page_entries_count = s.physical_page_entries_count := by
  unfold find_free_physical_page at h
  split at h
  · split at h
    · cases h
    · simp only [Outcome.ok.injEq] at h
      have := search_physical_regions_frame (s.set_info { s.system_memory_info with
        physical_pages_committed :=
          wrapping_sub s.system_memory_info.physical_pages_committed 1 })
      rw [h] at this
      exact this
  · split at h
    · cases h; exact ⟨rfl, rfl, rfl, rfl, rfl, rfl⟩
    · simp only [Outcome.ok.injEq] at h
      have := search_physical_regions_frame (s.set_info { s.system_memory_info with
        physical_pages_uncommitted :=
          wrapping_sub s.system_memory_info.physical_pages_uncommitted 1 })
      rw [h] at this
      exact this

theorem purge_pass_none {α : Type} (f : MemoryManager → α) {vmobjects : List VMObject}
    (hcb : ∀ o ∈ vmobjects, ∀ s, (o.purge s).1 = 0 → f (o.purge s).2 = f s)
    {s s' : MemoryManager} {b : Bool} (h : purge_pass vmobjects s = .ok (none, b, s')) :
    f s' = f s ∧ b = false := by
  induction vmobjects generalizing s with
  | nil =>
    simp only [purge_pass, Outcome.ok.injEq, Prod.mk.injEq, true_and] at h
    obtain ⟨rfl, rfl⟩ := h
    exact ⟨rfl, rfl⟩
  | cons o t ih =>
    have iht := fun {s : MemoryManager} => ih (s := s) (fun x hx => hcb x (by simp [hx]))
    simp only [purge_pass] at h
    split at h
    · exact iht h
    · split at h
      · exact iht h
      · split at h
        · cases hf : find_free_physical_page false (o.purge s).2 with
          | ok r =>
            obtain ⟨r1, r2⟩ := r
            cases r1 <;> simp [hf, Outcome.bind] at h
          | fatal => simp [hf, Outcome.bind] at h
          | deadlock => simp [hf, Outcome.bind] at h
        · rename_i hz
          have h0 : (o.purge s).1 = 0 := by simpa using hz
          obtain ⟨h1, h2⟩ := iht h
          exact ⟨h1.trans (hcb o (by simp) s h0), h2⟩

theorem purge_pass_some {vmobjects : List VMObject} {s s' : MemoryManager} {b : Bool}
    {p : Nat} (h : purge_pass vmobjects s = .ok (some p, b, s')) : b = true := by
  induction vmobjects generalizing s with
  | nil => simp [purge_pass] at h
  | cons o t ih =>
    simp only [purge_pass] at h
    split at h
    · exact ih h
    · split at h
      · exact ih h
      · split at h
        · cases hf : find_free_physical_page false (o.purge s).2 with
          | ok r =>
            obtain ⟨r1, r2⟩ := r
            cases r1 with
            | none => simp [hf, Outcome.bind] at h
            | some q =>
              simp only [hf, Outcome.bind, Outcome.ok.injEq, Prod.mk.injEq] at h
              exact h.2.1.symm
          | fatal => simp [hf, Outcome.bind] at h
          | deadlock => simp [hf, Outcome.bind] at h
        · exact ih h

theorem release_pass_none {α : Type} (f : MemoryManager → α) {vmobjects : List VMObject}
    (hcb : ∀ o ∈ vmobjects, ∀ n s, (o.try_release_clean_pages n s).1 = 0 →
      f (o.try_release_clean_pages n s).2 = f s)
    {s s' : MemoryManager} (h : release_pass vmobjects s = .ok (none, s')) :
    f s' = f s := by
  induction vmobjects generalizing s with
  | nil =>
    simp only [release_pass, Outcome.ok.injEq, Prod.mk.injEq, true_and] at h
    subst h
    rfl
  | cons o t ih =>
    have iht := fun {s : MemoryManager} => ih (s := s) (fun x hx => hcb x (by simp [hx]))
    simp only [release_pass] at h
    split at h
    · exact iht h
    · split at h
      · cases hf : find_free_physical_page false (o.try_release_clean_pages 1 s).2 with
        | ok r =>
          obtain ⟨r1, r2⟩ := r
          cases r1 <;> simp [hf, Outcome.bind] at h
        | fatal => simp [hf, Outcome.bind] at h
        | deadlock => simp [hf, Outcome.bind] at h
      · rename_i hz
        have h0 : (o.try_release_clean_pages 1 s).1 = 0 := by simpa using hz
        exact (iht h).trans (hcb o (by simp) 1 s h0)

theorem release_pass_some {α : Type} (f : MemoryManager → α) {vmobjects : List VMObject}
    (hff : ∀ s r s', find_free_physical_page false s = .ok (r, s') → f s' = f s)
    (hcb : ∀ o ∈ vmobjects, ∀ n s, f (o.try_release_clean_pages n s).2 = f s)
    {s s' : MemoryManager} {p : Nat} (h : release_pass vmobjects s = .ok (some p, s')) :
    f s' = f s := by
  induction vmobjects generalizing s with
  | nil => simp [release_pass] at h
  | cons o t ih =>
    have iht := fun {s : MemoryManager} => ih (s := s) (fun x hx => hcb x (by simp [hx]))
    simp only [release_pass] at h
    split at h
    · exact iht h
    · split at h
      · cases hf : find_free_physical_page false (o.try_release_clean_pages 1 s).2 with
        | ok r =>
          obtain ⟨r1, r2⟩ := r
          cases r1 with
          | none => simp [hf, Outcome.bind] at h
          | some q =>
            simp only [hf, Outcome.bind, Outcome.ok.injEq, Prod.mk.injEq] at h
            obtain ⟨-, rfl⟩ := h
            exact (hff _ _ _ hf).trans (hcb o (by simp) 1 s)
        | fatal => simp [hf, Outcome.bind] at h
        | deadlock => simp [hf, Outcome.bind] at h
      · exact (iht h).trans (hcb o (by simp) 1 s)

theorem zero_fill_page_inv {cpu : Processor} {p : Nat} {s s' : MemoryManager}
    (h : zero_fill_page cpu p s = .ok s') :
    s'.pd_pages = Function.update s.pd_pages p (fun _ => PageEntry.null) ∧
    s'.pt_pages = Function.update s.pt_pages p (fun _ => PageEntry.null) ∧
    s'.boot_pd_kernel_pt1023 =
      Function.update s.boot_pd_kernel_pt1023 (quickmap_slot cpu) PageEntry.null ∧
    s'.interrupts_disabled = true ∧ s.interrupts_disabled = true := by
  have hi : s.interrupts_disabled = true := by
    cases hint : s.interrupts_disabled with
    | true => rfl
    | false => simp [zero_fill_page, quickmap_page, hint, Outcome.bind] at h
  have hq : s.quickmap_in_use cpu.current_id = false := by
    cases hqq : s.quickmap_in_use cpu.current_id with
    | false => rfl
    | true => simp [zero_fill_page, quickmap_page, hi, hqq, Outcome.bind] at h
  obtain ⟨s2, h2, -, -, -, -, -, z1, z2, z3, z4, -⟩ := zero_fill_page_spec cpu p s hi hq
  rw [h2] at h
  cases h
  exact ⟨z1, z2, z3, z4, hi⟩

/-- A page that `allocate_physical_page` returns zero-filled is a page table
without entries; the state of the interrupts is the one of the caller. -/
theorem allocate_physical_page_zeroed {cpu : Processor} {vmobjects : List VMObject}
    {s s' : MemoryManager} {page : Nat} {purged : Bool}
    (h : allocate_physical_page cpu vmobjects true s = .ok (.ok (page, purged), s')) :
    s'.pt_pages page = (fun _ => PageEntry.null) ∧
      s'.interrupts_disabled = s.interrupts_disabled := by
  unfold allocate_physical_page with_global_data at h
  simp only [if_true] at h
  have key : ∀ (q : Nat) (b : Bool) (t : MemoryManager),
      ((zero_fill_page cpu q t).bind fun s4 =>
        (Outcome.ok (Except.ok (q, b), s4) :
          Outcome (Except Errno (Nat × Bool) × MemoryManager))).bind
        (fun r => Outcome.ok (r.1, { r.2 with interrupts_disabled := s.interrupts_disabled }))
        = .ok (.ok (page, purged), s') →
      s'.pt_pages page = (fun _ => PageEntry.null) ∧
        s'.interrupts_disabled = s.interrupts_disabled := by
    intro q b t hk
    cases hz : zero_fill_page cpu q t with
    | ok s4 =>
      simp only [hz, Outcome.bind, Outcome.ok.injEq, Prod.mk.injEq, Except.ok.injEq] at hk
      obtain ⟨⟨rfl, -⟩, rfl⟩ := hk
      obtain ⟨-, z2, -, -, -⟩ := zero_fill_page_inv hz
      refine ⟨?_, rfl⟩
      show s4.pt_pages q = _
      rw [z2]
      simp
    | fatal => simp [hz, Outcome.bind] at hk
    | deadlock => simp [hz, Outcome.bind] at hk
  cases hf : find_free_physical_page false { s with interrupts_disabled := true } with
  | fatal => simp [hf, Outcome.bind] at h
  | deadlock => simp [hf, Outcome.bind] at h
  | ok f =>
    obtain ⟨f1, s1⟩ := f
    cases f1 with
    | some q =>
      simp only [hf, Outcome.bind] at h
      exact key q false s1 h
    | none =>
      simp only [hf, Outcome.bind] at h
      cases hp : purge_pass vmobjects s1 with
      | fatal => simp [hp] at h
      | deadlock => simp [hp] at h
      | ok pr =>
        obtain ⟨p1, b, s2⟩ := pr
        cases p1 with
        | some q =>
          simp only [hp] at h
          exact key q b s2 h
        | none =>
          simp only [hp] at h
          cases hr : release_pass vmobjects s2 with
          | fatal => simp [hr] at h
          | deadlock => simp [hr] at h
          | ok qr =>
            obtain ⟨q1, s3⟩ := qr
            cases q1 with
            | some q =>
              simp only [hr] at h
              exact key q b s3 h
            | none => simp [hr] at h

/-- An allocation that returns a page without reporting a purge has kept
whatever the search of the regions, the idle purges, the releases and the
zero fill keep. -/
theorem allocate_physical_page_keeps {α : Type} (f : MemoryManager → α) {cpu : Processor}
    {vmobjects : List VMObject}
    (hint : ∀ s b, f { s with interrupts_disabled := b } = f s)
    (hff : ∀ s r s', find_free_physical_page false s = .ok (r, s') → f s' = f s)
    (hz : ∀ p s s', zero_fill_page cpu p s = .ok s' → f s' = f s)
    (hpurge : ∀ o ∈ vmobjects, ∀ s, (o.purge s).1 = 0 → f (o.purge s).2 = f s)
    (hrel : ∀ o ∈ vmobjects, ∀ n s, f (o.try_release_clean_pages n s).2 = f s)
    {s s' : MemoryManager} {page : Nat}
    (h : allocate_physical_page cpu vmobjects true s = .ok (.ok (page, false), s')) :
    f s' = f s := by
  unfold allocate_physical_page with_global_data at h
  simp only [if_true] at h
  have key : ∀ (q : Nat) (b : Bool) (t : MemoryManager), f t = f s →
      ((zero_fill_page cpu q t).bind fun s4 =>
        (Outcome.ok (Except.ok (q, b), s4) :
          Outcome (Except Errno (Nat × Bool) × MemoryManager))).bind
        (fun r => Outcome.ok (r.1, { r.2 with interrupts_disabled := s.interrupts_disabled }))
        = .ok (.ok (page, false), s') →
      f s' = f s := by
    intro q b t ht hk
    cases hzz : zero_fill_page cpu q t with
    | ok s4 =>
      simp only [hzz, Outcome.bind, Outcome.ok.injEq, Prod.mk.injEq, Except.ok.injEq] at hk
      obtain ⟨-, rfl⟩ := hk
      rw [hint, hz q t s4 hzz, ht]
    | fatal => simp [hzz, Outcome.bind] at hk
    | deadlock => simp [hzz, Outcome.bind] at hk
  cases hf : find_free_physical_page false { s with interrupts_disabled := true } with
  | fatal => simp [hf, Outcome.bind] at h
  | deadlock => simp [hf, Outcome.bind] at h
  | ok fr =>
    obtain ⟨f1, s1⟩ := fr
    have e1 : f s1 = f s := (hff _ _ _ hf).trans (hint s true)
    cases f1 with
    | some q =>
      simp only [hf, Outcome.bind] at h
      exact key q false s1 e1 h
    | none =>
      simp only [hf, Outcome.bind] at h
      cases hp : purge_pass vmobjects s1 with
      | fatal => simp [hp] at h
      | deadlock => simp [hp] at h
      | ok pr =>
        obtain ⟨p1, b, s2⟩ := pr
        cases p1 with
        | some q =>
          have hb := purge_pass_some hp
          subst hb
          simp only [hp] at h
          cases hzz : zero_fill_page cpu q s2 <;> simp [hzz, Outcome.bind] at h
        | none =>
          have e2 : f s2 = f s := ((purge_pass_none f hpurge hp).1).trans e1
          simp only [hp] at h
          cases hr : release_pass vmobjects s2 with
          | fatal => simp [hr] at h
          | deadlock => simp [hr] at h
          | ok qr =>
            obtain ⟨q1, s3⟩ := qr
            cases q1 with
            | some q =>
              simp only [hr] at h
              exact key q b s3 ((release_pass_some f hff hrel hr).trans e2) h
            | none => simp [hr] at h

/-- A failed allocation has kept whatever the search of the regions and the
idle reclaim callbacks keep. -/
theorem allocate_physical_page_error_keeps {α : Type} (f : MemoryManager → α)
    {cpu : Processor} {vmobjects : List VMObject} {zero_fill : Bool}
    (hint : ∀ s b, f { s with interrupts_disabled := b } = f s)
    (hff : ∀ s r s', find_free_physical_page false s = .ok (r, s') → f s' = f s)
    (hpurge : ∀ o ∈ vmobjects, ∀ s, (o.purge s).1 = 0 → f (o.purge s).2 = f s)
    (hrel : ∀ o ∈ vmobjects, ∀ n s, (o.try_release_clean_pages n s).1 = 0 →
      f (o.try_release_clean_pages n s).2 = f s)
    {s s' : MemoryManager} {e : Errno}
    (h : allocate_physical_page cpu vmobjects zero_fill s = .ok (.error e, s')) :
    f s' = f s := by
  unfold allocate_physical_page with_global_data at h
  cases hf : find_free_physical_page false { s with interrupts_disabled := true } with
  | fatal => simp [hf, Outcome.bind] at h
  | deadlock => simp [hf, Outcome.bind] at h
  | ok fr =>
    obtain ⟨f1, s1⟩ := fr
    have e1 : f s1 = f s := (hff _ _ _ hf).trans (hint s true)
    cases f1 with
    | some page =>
      simp only [hf, Outcome.bind] at h
      cases zero_fill with
      | false => simp at h
      | true =>
        simp only [if_true] at h
        cases hz : zero_fill_page cpu page s1 <;> simp [hz] at h
    | none =>
      simp only [hf, Outcome.bind] at h
      cases hp : purge_pass vmobjects s1 with
      | fatal => simp [hp] at h
      | deadlock => simp [hp] at h
      | ok pr =>
        obtain ⟨p1, purged, s2⟩ := pr
        cases p1 with
        | some page =>
          simp only [hp] at h
          cases zero_fill with
          | false => simp at h
          | true =>
            simp only [if_true] at h
            cases hz : zero_fill_page cpu page s2 <;> simp [hz] at h
        | none =>
          have e2 : f s2 = f s := ((purge_pass_none f hpurge hp).1).trans e1
          simp only [hp] at h
          cases hr : release_pass vmobjects s2 with
          | fatal => simp [hr] at h
          | deadlock => simp [hr] at h
          | ok q =>
            obtain ⟨q1, s3⟩ := q
            cases q1 with
            | some page =>
              simp only [hr] at h
              cases zero_fill with
              | false => simp at h
              | true =>
                simp only [if_true] at h
                cases hz : zero_fill_page cpu page s3 <;> simp [hz] at h
            | none =>
              simp only [hr, Outcome.ok.injEq, Prod.mk.injEq, Except.error.injEq] at h
              obtain ⟨-, rfl⟩ := h
              rw [hint]
              exact (release_pass_none f hrel hr).trans e2

/-! ## Lemmas: `ensure_pte` -/

theorem ensure_pte_eq (cpu : Processor) (vmobjects : List VMObject) (dir : PageDirectory)
    (v : Nat) (s : MemoryManager) (hi : s.interrupts_disabled = true)
    (hl : dir.lock_held = true) :
    ensure_pte cpu vmobjects dir v s =
      if (directory_entry dir v s).present then
        .ok (some (page_table_index v),
          retarget_window (pt_slot cpu) (directory_entry dir v s).physical_page_base
            (retarget_window (pd_slot cpu)
              (dir.directory_pages (page_directory_table_index v)) s))
      else
        (allocate_physical_page cpu vmobjects true
          (retarget_window (pd_slot cpu)
            (dir.directory_pages (page_directory_table_index v)) s)).bind
          (ensure_pte_install cpu dir v) := by
  unfold ensure_pte
  simp only [hi, hl, Bool.not_true, Bool.false_eq_true, if_false]
  rw [quickmap_pd_eq cpu dir _ s hi]
  simp only [Outcome.bind, read_pd_window_retarget]
  show (if (directory_entry dir v s).present = true then _ else _) = _
  cases hp : (directory_entry dir v s).present
  · simp only [Bool.false_eq_true, if_false]
    rfl
  · simp only [if_true]
    rw [quickmap_pt_eq cpu _ _ (by simpa using hi)]
    rfl

theorem ensure_pte_ok_contract {cpu : Processor} {vmobjects : List VMObject}
    {dir : PageDirectory} {v : Nat} {s s1 : MemoryManager} {r : Option Nat}
    (h : ensure_pte cpu vmobjects dir v s = .ok (r, s1)) :
    s.interrupts_disabled = true ∧ dir.lock_held = true := by
  unfold ensure_pte at h
  cases hi : s.interrupts_disabled with
  | false => simp [hi] at h
  | true =>
    cases hl : dir.lock_held with
    | false => simp [hi, hl] at h
    | true => exact ⟨rfl, rfl⟩

/-- C10: with the interrupts disabled and the lock of the directory held, when
the directory entry of `v` is absent and `allocate_physical_page` returns an
error, `ensure_pte(dir, v)` returns null, it does not stop the kernel; it
writes no directory entry itself, so that, the reclaim callbacks that
released nothing having changed none, the entry of `v` is still absent and
every directory entry is what it was. -/
theorem ensure_pte_out_of_memory (cpu : Processor) (vmobjects : List VMObject)
    (dir : PageDirectory) (v : Nat) (s s2 : MemoryManager) (e : Errno)
    (hi : s.interrupts_disabled = true) (hl : dir.lock_held = true)
    (habs : (directory_entry dir v s).present = false)
    (hidle : idle_reclaim_keeps_directories vmobjects)
    (halloc : allocate_physical_page cpu vmobjects true
        (retarget_window (pd_slot cpu)
          (dir.directory_pages (page_directory_table_index v)) s) = .ok (.error e, s2)) :
    ensure_pte cpu vmobjects dir v s = .ok (none, s2) ∧
      s2.pd_pages = s.pd_pages ∧ (directory_entry dir v s2).present = false := by
  have hpd : s2.pd_pages = s.pd_pages := by
    have := allocate_physical_page_error_keeps (fun t => t.pd_pages)
      (fun _ _ => rfl)
      (fun _ _ _ hf => (find_free_physical_page_frame hf).1)
      (fun o ho t h0 => (hidle o ho).1 t h0)
      (fun o ho n t h0 => (hidle o ho).2 n t h0) halloc
    simpa using this
  refine ⟨?_, hpd, ?_⟩
  · rw [ensure_pte_eq cpu vmobjects dir v s hi hl, habs]
    simp only [Bool.false_eq_true, if_false]
    rw [halloc]
    rfl
  · unfold directory_entry at *
    rw [hpd]
    exact habs

theorem ensure_pte_out_of_memory_witness :
    no_memory_state.interrupts_disabled = true ∧ example_directory.lock_held = true ∧
    (directory_entry example_directory 0x200000 no_memory_state).present = false ∧
    ensure_pte example_cpu [] example_directory 0x200000 no_memory_state
      = .ok (none, retarget_window (pd_slot example_cpu) 0x5000 no_memory_state) ∧
    (retarget_window (pd_slot example_cpu) 0x5000 no_memory_state).pd_pages
      = no_memory_state.pd_pages ∧
    (directory_entry example_directory 0x200000
      (retarget_window (pd_slot example_cpu) 0x5000 no_memory_state)).present = false :=
  ⟨rfl, rfl, rfl,
    ensure_pte_out_of_memory example_cpu [] example_directory 0x200000 no_memory_state
      (retarget_window (pd_slot example_cpu) 0x5000 no_memory_state) .ENOMEM rfl rfl rfl
      (by intro o ho; simp at ho) rfl⟩

/-- What `ensure_pte_install` does with a page that the allocation returned:
it installs the directory entry at the index of `v` in the directory page
that the page-directory window shows, and leaves the page-table window on the
new table. -/
theorem ensure_pte_install_some {cpu : Processor} {dir : PageDirectory} {v : Nat}
    {page : Nat} {purged : Bool} {s2 s1 : MemoryManager} {r : Option Nat}
    (hw : windows_apart cpu) (hi2 : s2.interrupts_disabled = true)
    (h : ensure_pte_install cpu dir v (.ok (page, purged), s2) = .ok (r, s1)) :
    r = some (page_table_index v) ∧ s1.interrupts_disabled = true ∧
    pd_window_target cpu s1 = installed_directory_page cpu dir v purged s2 ∧
    s1.pt_pages = s2.pt_pages ∧
    s1.pd_pages = Function.update s2.pd_pages
      (installed_directory_page cpu dir v purged s2)
      (Function.update (s2.pd_pages (installed_directory_page cpu dir v purged s2))
        (page_directory_index v)
        { s2.pd_pages (installed_directory_page cpu dir v purged s2)
            (page_directory_index v) with
          physical_page_base := page
          user_allowed := true
          present := true
          writable := true
          global := dir.is_kernel }) ∧
    pt_window_target cpu s1 = page ∧
    s1.system_memory_info = s2.system_memory_info ∧
    s1.physical_regions = s2.physical_regions ∧ s1.ref_count = s2.ref_count := by
  unfold ensure_pte_install at h
  simp only at h
  -- the state in which the directory entry is written
  have hs3 : ∃ s3, (if purged = true then
        (quickmap_pd cpu dir (page_directory_table_index v) s2).bind fun pd2 =>
          if (read_pd_window cpu (page_directory_index v) pd2.2).present = true then
            (Outcome.fatal : Outcome MemoryManager)
          else .ok pd2.2
      else Outcome.ok s2) = .ok s3 ∧
      pd_window_target cpu s3 = installed_directory_page cpu dir v purged s2 ∧
      s3.pd_pages = s2.pd_pages ∧ s3.pt_pages = s2.pt_pages ∧
      s3.interrupts_disabled = true ∧ s3.system_memory_info = s2.system_memory_info ∧
      s3.physical_regions = s2.physical_regions ∧ s3.ref_count = s2.ref_count := by
    cases purged with
    | false =>
      exact ⟨s2, by simp, by simp [installed_directory_page], rfl, rfl, hi2, rfl, rfl, rfl⟩
    | true =>
      simp only [if_true] at h ⊢
      rw [quickmap_pd_eq cpu dir _ s2 hi2] at h ⊢
      simp only [Outcome.bind] at h ⊢
      cases hp : (read_pd_window cpu (page_directory_index v)
          (retarget_window (pd_slot cpu)
            (dir.directory_pages (page_directory_table_index v)) s2)).present with
      | true => simp [hp] at h
      | false =>
        refine ⟨retarget_window (pd_slot cpu)
          (dir.directory_pages (page_directory_table_index v)) s2,
          by simp [hp], ?_, rfl, rfl, by simpa using hi2, rfl, rfl, rfl⟩
        simp [pd_window_target, installed_directory_page]
  obtain ⟨s3, e3, t3, p3, q3, i3, m3, g3, c3⟩ := hs3
  rw [e3] at h
  simp only [Outcome.bind] at h
  have hread : ∀ e, read_pd_window cpu (page_directory_index v)
      (write_pd_window cpu (page_directory_index v) e s3) = e := by
    intro e
    simp [read_pd_window, write_pd_window, pd_window_target]
  rw [hread, quickmap_pt_eq cpu _ _ (by simpa [write_pd_window] using i3)] at h
  simp only [Outcome.ok.injEq, Prod.mk.injEq] at h
  obtain ⟨rfl, rfl⟩ := h
  refine ⟨rfl, by simpa [write_pd_window] using i3, ?_, ?_, ?_, ?_, ?_, ?_, ?_⟩
  · rw [← t3]
    unfold pd_window_target
    rw [retarget_window_other hw.1]
    rfl
  · simp [write_pd_window, q3]
  · simp only [retarget_window_pd_pages, write_pd_window, read_pd_window, t3, p3]
  · simp [pt_window_target]
  · simpa [write_pd_window] using m3
  · simpa [write_pd_window] using g3
  · simpa [write_pd_window] using c3

/-- A successful `ensure_pte` on an absent directory entry: the page that
`allocate_physical_page` returned is a page table without entries, the
directory entry that was written points at it, and the page-table window
shows it. -/
theorem ensure_pte_created {cpu : Processor} {vmobjects : List VMObject}
    {dir : PageDirectory} {v i : Nat} {s s1 : MemoryManager}
    (hw : windows_apart cpu)
    (habs : (directory_entry dir v s).present = false)
    (h : ensure_pte cpu vmobjects dir v s = .ok (some i, s1)) :
    ∃ page purged s2,
      allocate_physical_page cpu vmobjects true
        (retarget_window (pd_slot cpu)
          (dir.directory_pages (page_directory_table_index v)) s)
        = .ok (.ok (page, purged), s2) ∧
      i = page_table_index v ∧ s1.interrupts_disabled = true ∧
      pd_window_target cpu s1 = installed_directory_page cpu dir v purged s2 ∧
      s1.pt_pages = s2.pt_pages ∧
      s1.pd_pages = Function.update s2.pd_pages
        (installed_directory_page cpu dir v purged s2)
        (Function.update (s2.pd_pages (installed_directory_page cpu dir v purged s2))
          (page_directory_index v)
          { s2.pd_pages (installed_directory_page cpu dir v purged s2)
              (page_directory_index v) with
            physical_page_base := page
            user_allowed := true
            present := true
            writable := true
            global := dir.is_kernel }) ∧
      pt_window_target cpu s1 = page ∧
      s2.pt_pages page = (fun _ => PageEntry.null) ∧
      s1.system_memory_info = s2.system_memory_info ∧
      s1.physical_regions = s2.physical_regions ∧ s1.ref_count = s2.ref_count := by
  obtain ⟨hi, hl⟩ := ensure_pte_ok_contract h
  rw [ensure_pte_eq cpu vmobjects dir v s hi hl, habs] at h
  simp only [Bool.false_eq_true, if_false] at h
  cases ha : allocate_physical_page cpu vmobjects true
      (retarget_window (pd_slot cpu)
        (dir.directory_pages (page_directory_table_index v)) s) with
  | fatal => simp [ha, Outcome.bind] at h
  | deadlock => simp [ha, Outcome.bind] at h
  | ok a =>
    obtain ⟨a1, s2⟩ := a
    rw [ha] at h
    simp only [Outcome.bind] at h
    cases a1 with
    | error e => simp [ensure_pte_install] at h
    | ok pr =>
      obtain ⟨page, purged⟩ := pr
      obtain ⟨hz, hint2⟩ := allocate_physical_page_zeroed ha
      have hi2 : s2.interrupts_disabled = true := by
        rw [hint2]; simpa using hi
      obtain ⟨h1, h2, hW, h3, h4, h5, h6, h7, h8⟩ := ensure_pte_install_some hw hi2 h
      simp only [Option.some.injEq] at h1
      exact ⟨page, purged, s2, rfl, h1, h2, hW, h3, h4, h5, hz, h6, h7, h8⟩

/-- An allocation in a state that satisfies the invariant of the manager and
has an uncommitted page finds its frame in the first search: no reclaim
callback runs, no purge is reported, and the page-directory window of the
processor stays where it was. -/
theorem allocate_physical_page_without_reclaim {cpu : Processor} {vmobjects : List VMObject}
    {s s' : MemoryManager} {page : Nat} {purged : Bool}
    (hw : windows_apart cpu) (hi : manager_invariant s)
    (hpos : 0 < s.system_memory_info.physical_pages_uncommitted)
    (h : allocate_physical_page cpu vmobjects true s = .ok (.ok (page, purged), s')) :
    purged = false ∧
      s'.boot_pd_kernel_pt1023 (pd_slot cpu) = s.boot_pd_kernel_pt1023 (pd_slot cpu) := by
  unfold allocate_physical_page with_global_data at h
  simp only [if_true] at h
  have hi' : manager_invariant { s with interrupts_disabled := true } :=
    manager_invariant_congr (s := s) rfl rfl hi
  obtain ⟨p, t, hf, -, -, -, -, hslot, -⟩ :=
    find_free_physical_page_spec false { s with interrupts_disabled := true } hi'
      (by simpa using hpos)
  rw [hf] at h
  simp only [Outcome.bind] at h
  cases hz : zero_fill_page cpu p t with
  | ok s4 =>
    simp only [hz, Outcome.ok.injEq, Prod.mk.injEq, Except.ok.injEq] at h
    obtain ⟨⟨-, hb⟩, rfl⟩ := h
    refine ⟨hb.symm, ?_⟩
    show s4.boot_pd_kernel_pt1023 (pd_slot cpu) = s.boot_pd_kernel_pt1023 (pd_slot cpu)
    rw [(zero_fill_page_inv hz).2.2.1, Function.update_noteq hw.2.1, hslot]
  | fatal => simp [hz] at h
  | deadlock => simp [hz] at h

/-- After a reported purge, and after an allocation that found its frame
without reclaim, the directory entry is written into the directory page of
`v`. -/
theorem installed_directory_page_eq {cpu : Processor} {vmobjects : List VMObject}
    {dir : PageDirectory} {v page : Nat} {purged : Bool} {s s2 : MemoryManager}
    (hw : windows_apart cpu)
    (h : allocate_physical_page cpu vmobjects true
        (retarget_window (pd_slot cpu)
          (dir.directory_pages (page_directory_table_index v)) s)
        = .ok (.ok (page, purged), s2)) :
    purged = true ∨
        (manager_invariant s ∧ 0 < s.system_memory_info.physical_pages_uncommitted) →
      installed_directory_page cpu dir v purged s2
        = dir.directory_pages (page_directory_table_index v) := by
  rintro (hp | ⟨hi, hpos⟩)
  · subst hp
    simp [installed_directory_page]
  · have hi' : manager_invariant (retarget_window (pd_slot cpu)
        (dir.directory_pages (page_directory_table_index v)) s) :=
      manager_invariant_congr (s := s) rfl rfl hi
    obtain ⟨hp, hslot⟩ := allocate_physical_page_without_reclaim hw hi' hpos h
    subst hp
    unfold installed_directory_page pd_window_target
    rw [hslot]
    simp

/-! ## Lemmas: `release_pte` -/

theorem deallocate_physical_page_frame {p : Nat} {s s' : MemoryManager}
    (h : deallocate_physical_page p s = .ok s') :
    s'.pd_pages = s.pd_pages ∧ s'.pt_pages = s.pt_pages ∧
    s'.boot_pd_kernel_pt1023 = s.boot_pd_kernel_pt1023 ∧
    s'.interrupts_disabled = s.interrupts_disabled ∧ s'.ref_count = s.ref_count := by
  unfold deallocate_physical_page at h
  split at h
  · cases h; exact ⟨rfl, rfl, rfl, rfl, rfl⟩
  · cases h

theorem unref_physical_page_frame {index : Nat} {s s' : MemoryManager}
    (h : unref_physical_page index s = .ok s') :
    s'.pd_pages = s.pd_pages ∧ s'.pt_pages = s.pt_pages ∧
    s'.boot_pd_kernel_pt1023 = s.boot_pd_kernel_pt1023 ∧
    s'.interrupts_disabled = s.interrupts_disabled ∧
    s'.ref_count = Function.update s.ref_count index ((s.ref_count index + 2 ^ 32 - 1) % 2 ^ 32) := by
  unfold unref_physical_page at h
  simp only at h
  split at h
  · unfold get_physical_address at h
    split at h
    · simp only [Outcome.bind] at h
      split at h
      · obtain ⟨h1, h2, h3, h4, h5⟩ := deallocate_physical_page_frame h
        exact ⟨h1, h2, h3, h4, h5⟩
      · cases h; exact ⟨rfl, rfl, rfl, rfl, rfl⟩
    · simp [Outcome.bind] at h
  · cases h; exact ⟨rfl, rfl, rfl, rfl, rfl⟩

theorem leaf_cleared_pt_pages (cpu : Processor) (dir : PageDirectory) (v table : Nat)
    (s : MemoryManager) :
    (leaf_cleared cpu dir v table s).pt_pages =
      Function.update s.pt_pages table
        (Function.update (s.pt_pages table) (page_table_index v) PageEntry.null) := by
  simp [leaf_cleared, write_pt_window, pt_window_target]

theorem leaf_cleared_frame (cpu : Processor) (dir : PageDirectory) (v table : Nat)
    (s : MemoryManager) (hw : windows_apart cpu) :
    (leaf_cleared cpu dir v table s).pd_pages = s.pd_pages ∧
    (leaf_cleared cpu dir v table s).interrupts_disabled = s.interrupts_disabled ∧
    (leaf_cleared cpu dir v table s).ref_count = s.ref_count ∧
    (leaf_cleared cpu dir v table s).system_memory_info = s.system_memory_info ∧
    (leaf_cleared cpu dir v table s).physical_regions = s.physical_regions ∧
    pd_window_target cpu (leaf_cleared cpu dir v table s)
      = dir.directory_pages (page_directory_table_index v) ∧
    pt_window_target cpu (leaf_cleared cpu dir v table s) = table := by
  refine ⟨rfl, rfl, rfl, rfl, rfl, ?_, ?_⟩
  · simp [leaf_cleared, write_pt_window, pd_window_target, retarget_window_other hw.1]
  · simp [leaf_cleared, write_pt_window, pt_window_target]

/-- What `release_pte` computes, for a caller that has the interrupts disabled
and holds the lock of the directory. -/
theorem release_pte_eq (cpu : Processor) (dir : PageDirectory) (v : Nat)
    (last : IsLastPTERelease) (s : MemoryManager) (hw : windows_apart cpu)
    (hi : s.interrupts_disabled = true) (hl : dir.lock_held = true) :
    release_pte cpu dir v last s =
      if (directory_entry dir v s).present then
        if (last = IsLastPTERelease.Yes ∨ page_table_index v = 0x1ff) ∧
            table_all_null
              (leaf_cleared cpu dir v (directory_entry dir v s).physical_page_base s)
              (directory_entry dir v s).physical_page_base = true then
          (get_physical_page_entry (directory_entry dir v s).physical_page_base
            (leaf_cleared cpu dir v (directory_entry dir v s).physical_page_base s)).bind
            fun entry =>
              (unref_physical_page entry
                (leaf_cleared cpu dir v (directory_entry dir v s).physical_page_base s)).bind
                fun s4 =>
                  .ok (write_pd_window cpu (page_directory_index v) PageEntry.null s4)
        else
          .ok (leaf_cleared cpu dir v (directory_entry dir v s).physical_page_base s)
      else
        .ok (retarget_window (pd_slot cpu)
          (dir.directory_pages (page_directory_table_index v)) s) := by
  unfold release_pte
  simp only [hi, hl, Bool.not_true, Bool.false_eq_true, if_false]
  rw [quickmap_pd_eq cpu dir _ s hi]
  simp only [Outcome.bind, read_pd_window_retarget]
  show (if (directory_entry dir v s).present = true then _ else _) = _
  cases hp : (directory_entry dir v s).present
  · simp only [Bool.false_eq_true, if_false]
    rfl
  · simp only [if_true]
    rw [quickmap_pt_eq cpu _ _ (by simpa using hi)]
    simp only [PageEntry.clear]
    obtain ⟨f1, f2, f3, f4, f5, f6, f7⟩ :=
      leaf_cleared_frame cpu dir v (directory_entry dir v s).physical_page_base s hw
    have hrd : read_pd_window cpu (page_directory_index v)
        (leaf_cleared cpu dir v (directory_entry dir v s).physical_page_base s)
        = directory_entry dir v s := by
      unfold read_pd_window
      rw [f6, f1]
      rfl
    have hscan : ((List.range 512).all fun i =>
        (read_pt_window cpu i
          (leaf_cleared cpu dir v (directory_entry dir v s).physical_page_base s)).is_null)
        = table_all_null
            (leaf_cleared cpu dir v (directory_entry dir v s).physical_page_base s)
            (directory_entry dir v s).physical_page_base := by
      unfold table_all_null read_pt_window
      rw [f7]
    show (if _ then (if ((List.range 512).all fun i =>
        (read_pt_window cpu i
          (leaf_cleared cpu dir v (directory_entry dir v s).physical_page_base s)).is_null)
          = true then
        (get_physical_page_entry (read_pd_window cpu (page_directory_index v)
          (leaf_cleared cpu dir v (directory_entry dir v s).physical_page_base s)).physical_page_base
          (leaf_cleared cpu dir v (directory_entry dir v s).physical_page_base s)).bind _
        else _) else _) = _
    rw [hscan, hrd]
    by_cases hc : last = IsLastPTERelease.Yes ∨ page_table_index v = 0x1ff
    · have hc' : last = IsLastPTERelease.Yes ∨ (v >>> 12) &&& 0x1ff = 0x1ff := hc
      rw [if_pos hc']
      cases hall : table_all_null
          (leaf_cleared cpu dir v (directory_entry dir v s).physical_page_base s)
          (directory_entry dir v s).physical_page_base
      · simp
        rfl
      · simp only [if_true, hc, true_and]
        rfl
    · have hc' : ¬ (last = IsLastPTERelease.Yes ∨ (v >>> 12) &&& 0x1ff = 0x1ff) := hc
      rw [if_neg hc']
      simp [hc]
      rfl

theorem table_all_null_iff (s : MemoryManager) (table : Nat) :
    table_all_null s table = true ↔ ∀ k, k < 512 → (s.pt_pages table k).is_null = true := by
  unfold table_all_null
  simp [List.all_eq_true]

theorem page_table_index_lt (v : Nat) : page_table_index v < 512 := by
  unfold page_table_index
  have : (v >>> 12) &&& 0x1ff ≤ 0x1ff := Nat.and_le_right
  omega

/-- The second half of the round trip: a `release_pte` with
`IsLastPTERelease::Yes` on a present directory entry, and the lookup after
it. -/
theorem release_then_lookup (cpu : Processor) (dir : PageDirectory) (v : Nat)
    (s3 s4 : MemoryManager) (hw : windows_apart cpu)
    (hi : s3.interrupts_disabled = true) (hl : dir.lock_held = true)
    (hp : (directory_entry dir v s3).present = true)
    (hrel : release_pte cpu dir v IsLastPTERelease.Yes s3 = .ok s4) :
    (∃ r s5, pte cpu dir v s4 = .ok (r, s5) ∧
      ∀ k, r = some k → (read_pt_window cpu k s5).present = false) ∧
    ((∀ k, k < 512 → k ≠ page_table_index v →
        (s3.pt_pages (directory_entry dir v s3).physical_page_base k).is_null = true) →
      (directory_entry dir v s4).present = false ∧
        ∃ s5, pte cpu dir v s4 = .ok (none, s5)) := by
  rw [release_pte_eq cpu dir v _ s3 hw hi hl, hp] at hrel
  simp only [if_true, true_or, true_and] at hrel
  obtain ⟨f1, f2, f3, f4, f5, f6, f7⟩ :=
    leaf_cleared_frame cpu dir v (directory_entry dir v s3).physical_page_base s3 hw
  have hpt := leaf_cleared_pt_pages cpu dir v (directory_entry dir v s3).physical_page_base s3
  cases hall : table_all_null
      (leaf_cleared cpu dir v (directory_entry dir v s3).physical_page_base s3)
      (directory_entry dir v s3).physical_page_base with
  | false =>
    rw [hall] at hrel
    simp only [Bool.false_eq_true, if_false, Outcome.ok.injEq] at hrel
    subst hrel
    have hde : directory_entry dir v
        (leaf_cleared cpu dir v (directory_entry dir v s3).physical_page_base s3)
        = directory_entry dir v s3 := congrFun (congrFun f1 _) _
    refine ⟨?_, ?_⟩
    · rw [pte_eq cpu dir v _ (by rw [f2]; exact hi) hl, hde, hp]
      simp only [if_true]
      refine ⟨_, _, rfl, ?_⟩
      intro k hk
      simp only [Option.some.injEq] at hk
      subst hk
      rw [read_pt_window_retarget]
      simp only [retarget_window_pt_pages, hpt, Function.update_same]
      rfl
    · intro hothers
      exfalso
      have : table_all_null
          (leaf_cleared cpu dir v (directory_entry dir v s3).physical_page_base s3)
          (directory_entry dir v s3).physical_page_base = true := by
        rw [table_all_null_iff]
        intro k hk
        rw [hpt]
        simp only [Function.update_same]
        by_cases hkv : k = page_table_index v
        · subst hkv
          simp [PageEntry.is_null]
        · rw [Function.update_noteq hkv]
          exact hothers k hk hkv
      rw [hall] at this
      cases this
  | true =>
    rw [hall] at hrel
    simp only [if_true] at hrel
    cases hg : get_physical_page_entry (directory_entry dir v s3).physical_page_base
        (leaf_cleared cpu dir v (directory_entry dir v s3).physical_page_base s3) with
    | fatal => simp [hg, Outcome.bind] at hrel
    | deadlock => simp [hg, Outcome.bind] at hrel
    | ok entry =>
      rw [hg] at hrel
      simp only [Outcome.bind] at hrel
      cases hu : unref_physical_page entry
          (leaf_cleared cpu dir v (directory_entry dir v s3).physical_page_base s3) with
      | fatal => simp [hu] at hrel
      | deadlock => simp [hu] at hrel
      | ok s4' =>
        rw [hu] at hrel
        simp only [Outcome.ok.injEq] at hrel
        subst hrel
        obtain ⟨u1, u2, u3, u4, -⟩ := unref_physical_page_frame hu
        have htarget : pd_window_target cpu s4'
            = dir.directory_pages (page_directory_table_index v) := by
          unfold pd_window_target at f6 ⊢
          rw [u3]
          exact f6
        have hde : directory_entry dir v
            (write_pd_window cpu (page_directory_index v) PageEntry.null s4')
            = PageEntry.null := by
          unfold directory_entry write_pd_window
          simp only [htarget, Function.update_same]
        have hint : (write_pd_window cpu (page_directory_index v) PageEntry.null
            s4').interrupts_disabled = true := by
          show s4'.interrupts_disabled = true
          rw [u4, f2]
          exact hi
        have hlook : pte cpu dir v
            (write_pd_window cpu (page_directory_index v) PageEntry.null s4')
            = .ok (none, retarget_window (pd_slot cpu)
                (dir.directory_pages (page_directory_table_index v))
                (write_pd_window cpu (page_directory_index v) PageEntry.null s4')) := by
          rw [pte_eq cpu dir v _ hint hl, hde]
          rfl
        refine ⟨⟨_, _, hlook, ?_⟩, ?_⟩
        · intro k hk
          cases hk
        · intro _
          exact ⟨by rw [hde]; rfl, _, hlook⟩

/-! ## The page-table walker: the round trip -/

/-- C8 fails after a reclaim by the inode release pass.  `no_memory_state` has
no free frame; the manager is in its invariant, the caller has the interrupts
disabled and holds the lock, the directory entry of `0x200000` is absent.
With `inode_object`, whose `try_release_clean_pages` gives back a frame and
leaves the page-directory window on a page of `other_directory`,
`ensure_pte(example_directory, 0x200000)` returns a leaf entry, but
`did_purge` is not set, the window is not mapped again, and the directory
entry is written into `other_directory`: the directory entry of `0x200000` in
`example_directory` is still absent, and after the caller has written a
present leaf entry through the pointer, `pte(example_directory, 0x200000)`
returns null.  With `volatile_object`, whose `purge` does the same to the
window, the purge is reported, the window is mapped again, and the round trip
holds: the lookup returns the entry that the caller wrote. -/
theorem ensure_pte_after_inode_release_misses_directory :
    manager_invariant no_memory_state ∧ no_memory_state.interrupts_disabled = true ∧
    example_directory.lock_held = true ∧
    (directory_entry example_directory 0x200000 no_memory_state).present = false ∧
    ensure_pte example_cpu [inode_object] example_directory 0x200000 no_memory_state
      = .ok (some 0, inode_reclaim_example) ∧
    (directory_entry example_directory 0x200000 inode_reclaim_example).present = false ∧
    (directory_entry other_directory 0x200000 inode_reclaim_example).present = true ∧
    (∃ s2, pte example_cpu example_directory 0x200000
        (write_pt_window example_cpu 0 example_entry inode_reclaim_example)
        = .ok (none, s2)) ∧
    ensure_pte example_cpu [volatile_object] example_directory 0x200000 no_memory_state
      = .ok (some 0, purge_reclaim_example) ∧
    (directory_entry example_directory 0x200000 purge_reclaim_example).present = true ∧
    ∃ s2, pte example_cpu example_directory 0x200000
        (write_pt_window example_cpu 0 example_entry purge_reclaim_example)
        = .ok (some 0, s2) ∧
      read_pt_window example_cpu 0 s2 = example_entry :=
  ⟨by decide, rfl, rfl, rfl, rfl, rfl, rfl, ⟨_, rfl⟩, rfl, rfl, ⟨_, rfl, rfl⟩⟩

/-! ## The page-table walker: the entry that `ensure_pte` installs -/

/-- C11, as stated, fails: `ensure_pte` on the absent directory entry of the
address `0x200000` creates a page table, and the directory entry that it
installs is user-accessible, not kernel-only. -/
theorem ensure_pte_installs_user_allowed :
    (directory_entry example_directory 0x200000 boot_state).present = false ∧
    ensure_pte example_cpu [] example_directory 0x200000 boot_state
      = .ok (some 0, mapped_example) ∧
    (directory_entry example_directory 0x200000 mapped_example).user_allowed = true :=
  ⟨rfl, rfl, rfl⟩

/-- C11, amended, on a processor whose quickmap windows use three slots:
whenever `ensure_pte(dir, v)` creates a page table for an absent directory
entry, the entry it installs is user-accessible (`set_user_allowed(true)`),
present and writable, points at the page that `allocate_physical_page` has
just returned, every entry of which is null, and is global exactly when `dir`
is the kernel page directory.  The entry is the one at the directory index of
`v` in the directory page that the page-directory window of the processor
shows when `ensure_pte` returns: the directory page of `v` in `dir` when the
allocation reported a purge (the window is mapped again) or found its frame
without reclaim (the manager in its invariant, a page uncommitted). -/
theorem ensure_pte_installed_entry (cpu : Processor) (vmobjects : List VMObject)
    (dir : PageDirectory) (v i : Nat) (s s1 : MemoryManager)
    (hw : windows_apart cpu)
    (habs : (directory_entry dir v s).present = false)
    (hens : ensure_pte cpu vmobjects dir v s = .ok (some i, s1)) :
    ∃ page purged s2,
      allocate_physical_page cpu vmobjects true
        (retarget_window (pd_slot cpu)
          (dir.directory_pages (page_directory_table_index v)) s)
        = .ok (.ok (page, purged), s2) ∧
      (s1.pd_pages (pd_window_target cpu s1) (page_directory_index v)).user_allowed = true ∧
      (s1.pd_pages (pd_window_target cpu s1) (page_directory_index v)).present = true ∧
      (s1.pd_pages (pd_window_target cpu s1) (page_directory_index v)).writable = true ∧
      (s1.pd_pages (pd_window_target cpu s1) (page_directory_index v)).global
        = dir.is_kernel ∧
      (s1.pd_pages (pd_window_target cpu s1) (page_directory_index v)).physical_page_base
        = page ∧
      (∀ k, s1.pt_pages page k = PageEntry.null) ∧
      (purged = true ∨
          (manager_invariant s ∧ 0 < s.system_memory_info.physical_pages_uncommitted) →
        pd_window_target cpu s1 = dir.directory_pages (page_directory_table_index v)) := by
  obtain ⟨page, purged, s2, h0, -, -, hW, h3, h4, -, h6, -⟩ := ensure_pte_created hw habs hens
  rw [hW]
  refine ⟨page, purged, s2, h0, ?_, ?_, ?_, ?_, ?_, ?_, ?_⟩
  · rw [h4]; simp
  · rw [h4]; simp
  · rw [h4]; simp
  · rw [h4]; simp
  · rw [h4]; simp
  · intro k
    rw [h3, h6]
  · exact installed_directory_page_eq hw h0

theorem ensure_pte_installed_entry_witness :
    windows_apart example_cpu ∧
    (directory_entry example_directory 0x200000 no_memory_state).present = false ∧
    ensure_pte example_cpu [inode_object] example_directory 0x200000 no_memory_state
      = .ok (some 0, inode_reclaim_example) ∧
    pd_window_target example_cpu inode_reclaim_example = 0x7000 ∧
    ∃ page purged s2,
      allocate_physical_page example_cpu [inode_object] true
        (retarget_window (pd_slot example_cpu)
          (example_directory.directory_pages (page_directory_table_index 0x200000))
          no_memory_state)
        = .ok (.ok (page, purged), s2) ∧
      (inode_reclaim_example.pd_pages (pd_window_target example_cpu inode_reclaim_example)
        (page_directory_index 0x200000)).user_allowed = true ∧
      (inode_reclaim_example.pd_pages (pd_window_target example_cpu inode_reclaim_example)
        (page_directory_index 0x200000)).present = true :=
  ⟨by decide, rfl, rfl, rfl,
    (ensure_pte_installed_entry example_cpu [inode_object] example_directory 0x200000 0
      no_memory_state inode_reclaim_example (by decide) rfl rfl).imp fun _ h =>
        h.imp fun _ h => h.imp fun _ h => ⟨h.1, h.2.1, h.2.2.1⟩⟩

/-! ## The page-table walker: release -/

/-- What a `release_pte` on a present directory entry leaves behind, when it
returns. -/
theorem release_pte_present {cpu : Processor} {dir : PageDirectory} {v : Nat}
    {last : IsLastPTERelease} {s s' : MemoryManager} (hw : windows_apart cpu)
    (hi : s.interrupts_disabled = true) (hl : dir.lock_held = true)
    (hp : (directory_entry dir v s).present = true)
    (hrel : release_pte cpu dir v last s = .ok s') :
    s'.pt_pages =
      Function.update s.pt_pages (directory_entry dir v s).physical_page_base
        (Function.update (s.pt_pages (directory_entry dir v s).physical_page_base)
          (page_table_index v) PageEntry.null) ∧
    s'.interrupts_disabled = true ∧
    (∀ i, i ≠ pd_slot cpu → i ≠ pt_slot cpu →
      s'.boot_pd_kernel_pt1023 i = s.boot_pd_kernel_pt1023 i) ∧
    (((last = IsLastPTERelease.Yes ∨ page_table_index v = 0x1ff) ∧
        table_all_null s' (directory_entry dir v s).physical_page_base = true) →
      s'.pd_pages =
        Function.update s.pd_pages (dir.directory_pages (page_directory_table_index v))
          (Function.update (s.pd_pages (dir.directory_pages (page_directory_table_index v)))
            (page_directory_index v) PageEntry.null) ∧
      s'.ref_count =
        Function.update s.ref_count ((directory_entry dir v s).physical_page_base / PAGE_SIZE)
          ((s.ref_count ((directory_entry dir v s).physical_page_base / PAGE_SIZE)
            + 2 ^ 32 - 1) % 2 ^ 32)) ∧
    (¬ ((last = IsLastPTERelease.Yes ∨ page_table_index v = 0x1ff) ∧
        table_all_null s' (directory_entry dir v s).physical_page_base = true) →
      s'.pd_pages = s.pd_pages ∧ s'.ref_count = s.ref_count ∧
      s'.system_memory_info = s.system_memory_info ∧
      s'.physical_regions = s.physical_regions) := by
  rw [release_pte_eq cpu dir v _ s hw hi hl, hp] at hrel
  simp only [if_true] at hrel
  obtain ⟨f1, f2, f3, f4, f5, f6, f7⟩ :=
    leaf_cleared_frame cpu dir v (directory_entry dir v s).physical_page_base s hw
  have hpt := leaf_cleared_pt_pages cpu dir v (directory_entry dir v s).physical_page_base s
  have hslots : ∀ i, i ≠ pd_slot cpu → i ≠ pt_slot cpu →
      (leaf_cleared cpu dir v (directory_entry dir v s).physical_page_base
        s).boot_pd_kernel_pt1023 i = s.boot_pd_kernel_pt1023 i := by
    intro i h1 h2
    show (retarget_window (pt_slot cpu) _ (retarget_window (pd_slot cpu) _ s)).boot_pd_kernel_pt1023 i
      = _
    rw [retarget_window_other h2, retarget_window_other h1]
  by_cases hc : (last = IsLastPTERelease.Yes ∨ page_table_index v = 0x1ff) ∧
      table_all_null
        (leaf_cleared cpu dir v (directory_entry dir v s).physical_page_base s)
        (directory_entry dir v s).physical_page_base = true
  · rw [if_pos hc] at hrel
    cases hg : get_physical_page_entry (directory_entry dir v s).physical_page_base
        (leaf_cleared cpu dir v (directory_entry dir v s).physical_page_base s) with
    | fatal => simp [hg, Outcome.bind] at hrel
    | deadlock => simp [hg, Outcome.bind] at hrel
    | ok entry =>
      have hentry : entry = (directory_entry dir v s).physical_page_base / PAGE_SIZE := by
        unfold get_physical_page_entry at hg
        simp only at hg
        split at hg
        · cases hg; rfl
        · cases hg
      rw [hg] at hrel
      simp only [Outcome.bind] at hrel
      cases hu : unref_physical_page entry
          (leaf_cleared cpu dir v (directory_entry dir v s).physical_page_base s) with
      | fatal => simp [hu] at hrel
      | deadlock => simp [hu] at hrel
      | ok s4 =>
        rw [hu] at hrel
        simp only [Outcome.ok.injEq] at hrel
        subst hrel
        obtain ⟨u1, u2, u3, u4, u5⟩ := unref_physical_page_frame hu
        have htarget : pd_window_target cpu s4
            = dir.directory_pages (page_directory_table_index v) := by
          unfold pd_window_target at f6 ⊢
          rw [u3]
          exact f6
        have hpt' : (write_pd_window cpu (page_directory_index v) PageEntry.null s4).pt_pages
            = (leaf_cleared cpu dir v (directory_entry dir v s).physical_page_base s).pt_pages :=
          u2
        have hall : table_all_null
            (write_pd_window cpu (page_directory_index v) PageEntry.null s4)
            (directory_entry dir v s).physical_page_base = true := by
          unfold table_all_null
          rw [hpt']
          exact hc.2
        refine ⟨hpt'.trans hpt, ?_, ?_, ?_, ?_⟩
        · show s4.interrupts_disabled = true
          rw [u4, f2]
          exact hi
        · intro i h1 h2
          show s4.boot_pd_kernel_pt1023 i = _
          rw [u3]
          exact hslots i h1 h2
        · intro _
          refine ⟨?_, ?_⟩
          · show Function.update s4.pd_pages (pd_window_target cpu s4)
              (Function.update (s4.pd_pages (pd_window_target cpu s4)) (page_directory_index v)
                PageEntry.null) = _
            rw [htarget, u1, f1]
          · show s4.ref_count = _
            rw [u5, f3, hentry]
        · intro hn
          exact absurd ⟨hc.1, hall⟩ hn
  · rw [if_neg hc] at hrel
    simp only [Outcome.ok.injEq] at hrel
    subst hrel
    refine ⟨hpt, ?_, hslots, ?_, ?_⟩
    · rw [f2]
      exact hi
    · intro h
      exact absurd h hc
    · intro _
      exact ⟨f1, f3, f4, f5⟩

theorem unref_physical_page_returns {index : Nat} {s : MemoryManager}
    (hidx : index < s.physical_page_entries_count)
    (h : s.ref_count index ≠ 1 ∨ s.may_return_to_freelist index = false ∨
      (return_page_to_regions (index * PAGE_SIZE % 2 ^ 64) s.physical_regions).isSome = true) :
    ∃ s', unref_physical_page index s = .ok s' := by
  unfold unref_physical_page
  simp only
  by_cases h1 : s.ref_count index = 1
  · rw [if_pos h1]
    unfold get_physical_address
    simp only [hidx, if_true, Outcome.bind]
    cases hm : s.may_return_to_freelist index
    · exact ⟨_, rfl⟩
    · simp only [if_true]
      rcases h with h | h | h
      · exact absurd h1 h
      · rw [hm] at h; cases h
      · unfold deallocate_physical_page
        simp only
        cases hr : return_page_to_regions (index * PAGE_SIZE % 2 ^ 64) s.physical_regions with
        | none => rw [hr] at h; cases h
        | some rs => exact ⟨_, rfl⟩
  · rw [if_neg h1]
    exact ⟨_, rfl⟩

/-- When `release_pte` returns: always, unless it has to drop the reference
on the frame of the page table and that drop panics. -/
theorem release_pte_returns {cpu : Processor} {dir : PageDirectory} {v : Nat}
    {last : IsLastPTERelease} {s : MemoryManager} (hw : windows_apart cpu)
    (hi : s.interrupts_disabled = true) (hl : dir.lock_held = true)
    (hidx : (directory_entry dir v s).physical_page_base / PAGE_SIZE
      < s.physical_page_entries_count)
    (h : s.ref_count ((directory_entry dir v s).physical_page_base / PAGE_SIZE) ≠ 1 ∨
      s.may_return_to_freelist ((directory_entry dir v s).physical_page_base / PAGE_SIZE)
        = false ∨
      (return_page_to_regions
        ((directory_entry dir v s).physical_page_base / PAGE_SIZE * PAGE_SIZE % 2 ^ 64)
        s.physical_regions).isSome = true) :
    ∃ s', release_pte cpu dir v last s = .ok s' := by
  rw [release_pte_eq cpu dir v _ s hw hi hl]
  cases hp : (directory_entry dir v s).present
  · exact ⟨_, rfl⟩
  · simp only [if_true]
    split
    · have hg : get_physical_page_entry (directory_entry dir v s).physical_page_base
          (leaf_cleared cpu dir v (directory_entry dir v s).physical_page_base s)
          = .ok ((directory_entry dir v s).physical_page_base / PAGE_SIZE) := by
        unfold get_physical_page_entry
        simp only
        exact if_pos hidx
      rw [hg]
      simp only [Outcome.bind]
      obtain ⟨s4, h4⟩ := unref_physical_page_returns
        (s := leaf_cleared cpu dir v (directory_entry dir v s).physical_page_base s) hidx h
      rw [h4]
      exact ⟨_, rfl⟩
    · exact ⟨_, rfl⟩

/-- C13, as stated, fails.  `boot_state` satisfies the presence invariant for
`example_directory`.  `ensure_pte` on the address `0x200000` leaves a present
directory entry whose page table has no present leaf entry; and after the
caller has written the leaf entry, `release_pte` with `IsLastPTERelease::No`
(leaf index 0) clears that leaf entry and leaves the directory entry present,
the page table empty. -/
theorem presence_invariant_broken :
    presence_invariant example_directory boot_state ∧
    ensure_pte example_cpu [] example_directory 0x200000 boot_state
      = .ok (some 0, mapped_example) ∧
    ¬ presence_invariant example_directory mapped_example ∧
    release_pte example_cpu example_directory 0x200000 IsLastPTERelease.No written_example
      = .ok released_early_example ∧
    ¬ presence_invariant example_directory released_early_example := by
  refine ⟨?_, rfl, ?_, rfl, ?_⟩
  · intro vaddr
    constructor
    · intro h
      exact Bool.noConfusion (show false = true from h)
    · rintro ⟨i, -, h⟩
      exact Bool.noConfusion (show false = true from h)
  · intro h
    obtain ⟨i, -, hp⟩ := (h 0x200000).1 rfl
    have hnull : (mapped_example.pt_pages 0x100000 i).present = false := rfl
    have hp' : (mapped_example.pt_pages 0x100000 i).present = true := hp
    rw [hnull] at hp'
    cases hp'
  · intro h
    obtain ⟨i, -, hp⟩ := (h 0x200000).1 rfl
    have hnull : (released_early_example.pt_pages 0x100000 i).present = false := by
      cases i <;> rfl
    have hp' : (released_early_example.pt_pages 0x100000 i).present = true := hp
    rw [hnull] at hp'
    cases hp'

/-- C13, amended, on a processor whose quickmap windows use three slots.
After an `ensure_pte(dir, v)` that returns a leaf entry: if the directory
entry of `v` was present, no directory entry has changed and no entry of a
page table other than the slots of the page-directory window and the
page-table window of the processor in `boot_pd_kernel_pt1023`; if it was
absent, the directory entry that `ensure_pte` has written
is present while all 512 entries of its page table are null (the table is
empty until the caller writes the leaf entry).  That entry is the one at
the directory index of `v` in the directory page that the page-directory
window of the processor shows when `ensure_pte` returns; it is the directory
entry of `v` in `dir` when the allocation reported a purge or found its frame
without reclaim (the manager in its invariant, a page uncommitted).  After a
`release_pte(dir, v, last)` on a present directory entry with `last == Yes`
or leaf index `0x1ff`, by a caller that has the interrupts disabled and holds
the lock of the directory, the directory entry of `v` is present if and only
if its page table has an entry that is not null; with `last == No` and
another leaf index the directory entry stays as it was. -/
theorem page_table_presence (cpu : Processor) (vmobjects : List VMObject)
    (dir : PageDirectory) (v : Nat) (s : MemoryManager)
    (hw : windows_apart cpu) :
    (∀ i s1, ensure_pte cpu vmobjects dir v s = .ok (some i, s1) →
      ((directory_entry dir v s).present = true →
        s1.pd_pages = s.pd_pages ∧ s1.pt_pages = s.pt_pages ∧
        ∀ j, j ≠ pd_slot cpu → j ≠ pt_slot cpu →
          s1.boot_pd_kernel_pt1023 j = s.boot_pd_kernel_pt1023 j) ∧
      ((directory_entry dir v s).present = false →
        ∃ page purged s2,
          allocate_physical_page cpu vmobjects true
            (retarget_window (pd_slot cpu)
              (dir.directory_pages (page_directory_table_index v)) s)
            = .ok (.ok (page, purged), s2) ∧
          (s1.pd_pages (pd_window_target cpu s1) (page_directory_index v)).present = true ∧
          (s1.pd_pages (pd_window_target cpu s1) (page_directory_index v)).physical_page_base
            = page ∧
          (∀ k, s1.pt_pages page k = PageEntry.null) ∧
          (purged = true ∨
              (manager_invariant s ∧ 0 < s.system_memory_info.physical_pages_uncommitted) →
            (directory_entry dir v s1).present = true ∧
            (directory_entry dir v s1).physical_page_base = page))) ∧
    (∀ last s', s.interrupts_disabled = true → dir.lock_held = true →
      (directory_entry dir v s).present = true →
      release_pte cpu dir v last s = .ok s' →
      ((last = IsLastPTERelease.Yes ∨ page_table_index v = 0x1ff) →
        ((directory_entry dir v s').present = true ↔
          ∃ k, k < 512 ∧
            (s'.pt_pages (directory_entry dir v s).physical_page_base k).is_null = false)) ∧
      (¬ (last = IsLastPTERelease.Yes ∨ page_table_index v = 0x1ff) →
        directory_entry dir v s' = directory_entry dir v s)) := by
  refine ⟨?_, ?_⟩
  · intro i s1 hens
    obtain ⟨hi, hl⟩ := ensure_pte_ok_contract hens
    refine ⟨?_, ?_⟩
    · intro hp
      rw [ensure_pte_eq cpu vmobjects dir v s hi hl, hp] at hens
      simp only [if_true, Outcome.ok.injEq, Prod.mk.injEq] at hens
      obtain ⟨-, rfl⟩ := hens
      refine ⟨rfl, rfl, ?_⟩
      intro j hj1 hj2
      rw [retarget_window_other hj2, retarget_window_other hj1]
    · intro habs
      obtain ⟨page, purged, s2, h0, -, -, hW, h3, h4, -, h6, -⟩ :=
        ensure_pte_created hw habs hens
      have hpres : (s1.pd_pages (installed_directory_page cpu dir v purged s2)
          (page_directory_index v)).present = true := by
        rw [h4]; simp
      have hbase : (s1.pd_pages (installed_directory_page cpu dir v purged s2)
          (page_directory_index v)).physical_page_base = page := by
        rw [h4]; simp
      rw [hW]
      refine ⟨page, purged, s2, h0, hpres, hbase, ?_, ?_⟩
      · intro k
        rw [h3, h6]
      · intro hcase
        have hW := installed_directory_page_eq hw h0 hcase
        rw [hW] at hpres hbase
        exact ⟨hpres, hbase⟩
  · intro last s' hi hl hp hrel
    obtain ⟨-, -, -, g4, g5⟩ := release_pte_present hw hi hl hp hrel
    refine ⟨?_, ?_⟩
    · intro hlast
      cases hall : table_all_null s' (directory_entry dir v s).physical_page_base with
      | true =>
        have hnull : directory_entry dir v s' = PageEntry.null := by
          unfold directory_entry
          rw [(g4 ⟨hlast, hall⟩).1]
          simp
        constructor
        · intro h
          rw [hnull] at h
          cases h
        · rintro ⟨k, hk, hnn⟩
          rw [table_all_null_iff] at hall
          rw [hall k hk] at hnn
          cases hnn
      | false =>
        have hc : ¬ ((last = IsLastPTERelease.Yes ∨ page_table_index v = 0x1ff) ∧
            table_all_null s' (directory_entry dir v s).physical_page_base = true) := by
          rw [hall]
          simp
        have hsame : directory_entry dir v s' = directory_entry dir v s := by
          unfold directory_entry
          rw [(g5 hc).1]
        constructor
        · intro _
          by_contra hne
          have : table_all_null s' (directory_entry dir v s).physical_page_base = true := by
            rw [table_all_null_iff]
            intro k hk
            by_contra hk'
            exact hne ⟨k, hk, by simpa using hk'⟩
          rw [hall] at this
          cases this
        · intro _
          rw [hsame]
          exact hp
    · intro hlast
      have hc : ¬ ((last = IsLastPTERelease.Yes ∨ page_table_index v = 0x1ff) ∧
          table_all_null s' (directory_entry dir v s).physical_page_base = true) :=
        fun h => hlast h.1
      unfold directory_entry
      rw [(g5 hc).1]

theorem page_table_presence_witness :
    windows_apart example_cpu ∧
    ensure_pte example_cpu [inode_object] example_directory 0x200000 no_memory_state
      = .ok (some 0, inode_reclaim_example) ∧
    (directory_entry example_directory 0x200000 no_memory_state).present = false ∧
    (∃ page purged s2,
      allocate_physical_page example_cpu [inode_object] true
        (retarget_window (pd_slot example_cpu)
          (example_directory.directory_pages (page_directory_table_index 0x200000))
          no_memory_state)
        = .ok (.ok (page, purged), s2) ∧
      (inode_reclaim_example.pd_pages (pd_window_target example_cpu inode_reclaim_example)
        (page_directory_index 0x200000)).present = true ∧
      ∀ k, inode_reclaim_example.pt_pages page k = PageEntry.null) ∧
    release_pte example_cpu example_directory 0x200000 IsLastPTERelease.No written_example
      = .ok released_early_example ∧
    directory_entry example_directory 0x200000 released_early_example
      = directory_entry example_directory 0x200000 written_example :=
  ⟨by decide, rfl, rfl,
    (((page_table_presence example_cpu [inode_object] example_directory 0x200000
      no_memory_state (by decide)).1 0 inode_reclaim_example rfl).2 rfl).imp fun _ h =>
        h.imp fun _ h => h.imp fun _ h => ⟨h.1, h.2.1, h.2.2.2.1⟩,
    rfl,
    ((page_table_presence example_cpu [] example_directory 0x200000 written_example
      (by decide)).2 IsLastPTERelease.No released_early_example rfl rfl rfl
      rfl).2 (by decide)⟩

/-! ## Page faults -/

/-- C15: for every fault whose address `a` satisfies `start <= a < end` for
one of the three protected sections (ro_after_init, unmap_after_init, ksyms),
`handle_page_fault` panics, whatever the interrupt level of the processor is
and whichever regions exist; no region is looked up and no region handler is
called. -/
theorem handle_page_fault_protected_section (env : FaultEnvironment) (fault : PageFault)
    (h : in_protected_section env fault.vaddr) :
    handle_page_fault env fault = ([], .fatal) := by
  unfold handle_page_fault faulted_in_range
  rcases h with h | h | h
  · simp [h.1, h.2]
  · simp [h.1, h.2]
  · simp [h.1, h.2]

theorem handle_page_fault_protected_section_witness :
    in_protected_section (example_environment 1) 0x2abc ∧
    handle_page_fault (example_environment 1) { vaddr := 0x2abc, code := 2 } = ([], .fatal) :=
  ⟨by decide,
    handle_page_fault_protected_section (example_environment 1) { vaddr := 0x2abc, code := 2 }
      (by decide)⟩

/-- C16: for every fault whose address lies outside the three protected
sections.  If the processor is servicing an IRQ, `handle_page_fault` returns
`ShouldCrash` and looks up no region.  Otherwise it returns `ShouldCrash` if
`find_region_from_vaddr` finds no region, and exactly what the `handle_fault`
of the region returns if it finds one, that handler being the only one
called.  `find_region_from_vaddr` returns the region of the kernel region
tree if the address is not a user address and the tree has one; otherwise
null if there is no current page directory, and what the address space of the
current process finds (for the range of one byte at the address) if there is
one; it returns unless the current page directory has no process
(`VERIFY(process)`). -/
theorem handle_page_fault_routing (env : FaultEnvironment) (fault : PageFault)
    (hout : ¬ in_protected_section env fault.vaddr) :
    (env.current_in_irq ≠ 0 → handle_page_fault env fault = ([], .ok .ShouldCrash)) ∧
    (env.current_in_irq = 0 →
      ((find_region_from_vaddr env fault.vaddr).2 = .ok none →
        handle_page_fault env fault
          = ((find_region_from_vaddr env fault.vaddr).1, .ok .ShouldCrash)) ∧
      (∀ region, (find_region_from_vaddr env fault.vaddr).2 = .ok (some region) →
        handle_page_fault env fault
          = ((find_region_from_vaddr env fault.vaddr).1 ++ [.handler_call region fault],
              env.handle_fault region fault))) ∧
    (∀ region, env.is_user_address fault.vaddr = false →
      env.region_tree_find_region_containing fault.vaddr = some region →
      find_region_from_vaddr env fault.vaddr
        = ([.kernel_tree_lookup fault.vaddr], .ok (some region))) ∧
    ((env.is_user_address fault.vaddr = true ∨
        env.region_tree_find_region_containing fault.vaddr = none) →
      (env.find_current = none →
        find_region_from_vaddr env fault.vaddr
          = ((kernel_region_from_vaddr env fault.vaddr).1, .ok none)) ∧
      (∀ process, env.find_current = some (some process) →
        find_region_from_vaddr env fault.vaddr
          = ((kernel_region_from_vaddr env fault.vaddr).1
              ++ [.address_space_lookup fault.vaddr],
            .ok (process.find_region_containing fault.vaddr 1)))) ∧
    (env.find_current ≠ some none →
      ∃ r, (find_region_from_vaddr env fault.vaddr).2 = .ok r) := by
  have h1 : faulted_in_range fault env.start_of_ro_after_init env.end_of_ro_after_init
      = false := by
    unfold faulted_in_range
    by_contra hc
    simp only [Bool.not_eq_false, Bool.and_eq_true, decide_eq_true_eq] at hc
    exact hout (Or.inl hc)
  have h2 : faulted_in_range fault env.start_of_unmap_after_init env.end_of_unmap_after_init
      = false := by
    unfold faulted_in_range
    by_contra hc
    simp only [Bool.not_eq_false, Bool.and_eq_true, decide_eq_true_eq] at hc
    exact hout (Or.inr (Or.inl hc))
  have h3 : faulted_in_range fault env.start_of_kernel_ksyms env.end_of_kernel_ksyms
      = false := by
    unfold faulted_in_range
    by_contra hc
    simp only [Bool.not_eq_false, Bool.and_eq_true, decide_eq_true_eq] at hc
    exact hout (Or.inr (Or.inr hc))
  refine ⟨?_, ?_, ?_, ?_, ?_⟩
  · intro hirq
    unfold handle_page_fault
    simp [h1, h2, h3, hirq]
  · intro hirq
    refine ⟨?_, ?_⟩
    · intro hf
      unfold handle_page_fault
      simp only [h1, h2, h3, hirq, Bool.false_eq_true, if_false, ne_eq, not_true_eq_false]
      generalize find_region_from_vaddr env fault.vaddr = r at hf ⊢
      obtain ⟨ev, o⟩ := r
      simp only at hf
      subst hf
      rfl
    · intro region hf
      unfold handle_page_fault
      simp only [h1, h2, h3, hirq, Bool.false_eq_true, if_false, ne_eq, not_true_eq_false]
      generalize find_region_from_vaddr env fault.vaddr = r at hf ⊢
      obtain ⟨ev, o⟩ := r
      simp only at hf
      subst hf
      rfl
  · intro region hu ht
    unfold find_region_from_vaddr kernel_region_from_vaddr
    simp [hu, ht]
  · intro hk
    have hkr : (kernel_region_from_vaddr env fault.vaddr).2 = none := by
      unfold kernel_region_from_vaddr
      rcases hk with hk | hk
      · simp [hk]
      · cases hu : env.is_user_address fault.vaddr
        · simp [hk]
        · simp
    refine ⟨?_, ?_⟩
    · intro hc
      unfold find_region_from_vaddr
      generalize kernel_region_from_vaddr env fault.vaddr = r at hkr ⊢
      obtain ⟨ev, o⟩ := r
      simp only at hkr
      subst hkr
      simp only [hc]
    · intro process hc
      unfold find_region_from_vaddr
      generalize kernel_region_from_vaddr env fault.vaddr = r at hkr ⊢
      obtain ⟨ev, o⟩ := r
      simp only at hkr
      subst hkr
      simp only [hc]
      rfl
  · intro hc
    unfold find_region_from_vaddr
    generalize kernel_region_from_vaddr env fault.vaddr = r
    obtain ⟨ev, o⟩ := r
    cases o with
    | some region => exact ⟨_, rfl⟩
    | none =>
      simp only
      cases hfc : env.find_current with
      | none => exact ⟨_, rfl⟩
      | some p =>
        cases p with
        | none => exact absurd hfc hc
        | some process => exact ⟨_, rfl⟩

theorem handle_page_fault_routing_witness :
    ¬ in_protected_section (example_environment 2) 0x20004 ∧
    handle_page_fault (example_environment 2) { vaddr := 0x20004, code := 0 }
      = ([], .ok .ShouldCrash) ∧
    handle_page_fault (example_environment 0) { vaddr := 0x20004, code := 0 }
      = ([.kernel_tree_lookup 0x20004,
          .handler_call { id := 1 } { vaddr := 0x20004, code := 0 }], .ok (.Other 3)) ∧
    handle_page_fault (example_environment 0) { vaddr := 0x5008, code := 0 }
      = ([.address_space_lookup 0x5008,
          .handler_call { id := 2 } { vaddr := 0x5008, code := 0 }], .ok .ShouldCrash) ∧
    handle_page_fault (example_environment 0) { vaddr := 0x40000, code := 0 }
      = ([.kernel_tree_lookup 0x40000, .address_space_lookup 0x40000], .ok .ShouldCrash) :=
  ⟨by decide,
    (handle_page_fault_routing (example_environment 2) { vaddr := 0x20004, code := 0 }
      (by decide)).1 (by decide),
    rfl, rfl, rfl⟩

/-! ## The general quickmap window -/

/-- What `quickmap_page` does for a caller that has the interrupts disabled on
a processor whose window is free: it returns the address of the window, takes
the lock, and leaves the slot targeting `P`; the slot is rewritten only when
it did not target `P` before, and it is present, writable and kernel-only
after the call when it was rewritten or was so before. -/
theorem quickmap_page_spec (cpu : Processor) (P : Nat) (s : MemoryManager)
    (hi : s.interrupts_disabled = true) (hq : s.quickmap_in_use cpu.current_id = false) :
    ∃ s', quickmap_page cpu P s
        = .ok (cpu.layout.KERNEL_QUICKMAP_PER_CPU_BASE + cpu.current_id * PAGE_SIZE, s') ∧
      (s'.boot_pd_kernel_pt1023 (quickmap_slot cpu)).physical_page_base = P ∧
      s'.quickmap_in_use cpu.current_id = true ∧
      ((s.boot_pd_kernel_pt1023 (quickmap_slot cpu)).physical_page_base = P →
        s'.boot_pd_kernel_pt1023 = s.boot_pd_kernel_pt1023) ∧
      ((s.boot_pd_kernel_pt1023 (quickmap_slot cpu)).physical_page_base ≠ P →
        (s'.boot_pd_kernel_pt1023 (quickmap_slot cpu)).present = true ∧
        (s'.boot_pd_kernel_pt1023 (quickmap_slot cpu)).writable = true ∧
        (s'.boot_pd_kernel_pt1023 (quickmap_slot cpu)).user_allowed = false) := by
  unfold quickmap_page
  simp only [hi, hq, Bool.not_true, Bool.false_eq_true, if_false]
  refine ⟨_, rfl, ?_, ?_, ?_, ?_⟩
  · simp only [Function.update_same]
    exact retarget_slot_base _ _
  · simp
  · intro hb
    simp only
    unfold retarget_slot
    rw [if_neg (by simpa using hb)]
    simp
  · intro hb
    simp only [Function.update_same]
    unfold retarget_slot
    rw [if_pos hb]
    exact ⟨rfl, rfl, rfl⟩

/-- C18 fails for the frame at physical address 0 when the slot is clear, as
it is at boot and after every `unquickmap_page`: a cleared entry has the
physical page base 0, so `quickmap_page(0)` takes the slot for already
targeting the frame, does not rewrite it, and returns the address of a window
whose entry is not present.  Here on `boot_state`, and again after
`quickmap_page(0x100000)` and `unquickmap_page()`. -/
theorem quickmap_page_frame_zero_not_present :
    boot_state.interrupts_disabled = true ∧
    boot_state.quickmap_in_use example_cpu.current_id = false ∧
    (∃ s', quickmap_page example_cpu 0 boot_state = .ok (8192, s') ∧
      (s'.boot_pd_kernel_pt1023 (quickmap_slot example_cpu)).present = false) ∧
    ∃ s1 s2 s3, quickmap_page example_cpu 0x100000 boot_state = .ok (8192, s1) ∧
      (s1.boot_pd_kernel_pt1023 (quickmap_slot example_cpu)).present = true ∧
      unquickmap_page example_cpu s1 = .ok s2 ∧
      quickmap_page example_cpu 0 s2 = .ok (8192, s3) ∧
      (s3.boot_pd_kernel_pt1023 (quickmap_slot example_cpu)).present = false :=
  ⟨rfl, rfl, ⟨_, rfl, rfl⟩, _, _, _, rfl, rfl, rfl, rfl, rfl⟩

/-! ## Boot accounting -/

theorem physical_pages_sum (rs : List PhysicalRegion) (acc : Nat)
    (h : acc + total_frames rs < 2 ^ 64) :
    rs.foldl (fun pages region => wrapping_add pages region.size) acc
      = acc + total_frames rs := by
  induction rs generalizing acc with
  | nil => simp [total_frames]
  | cons r rs ih =>
    have hsplit : total_frames (r :: rs) = r.size + total_frames rs := by
      simp [total_frames]
    rw [hsplit] at h ⊢
    rw [List.foldl_cons, wrapping_add_eq (by omega), ih _ (by omega)]
    omega

/-- Whether every frame of every region is free. -/
theorem free_frames_of_all_free (rs : List PhysicalRegion)
    (h : ∀ r ∈ rs, ∀ b ∈ r.frames, b = true) : free_frames rs = total_frames rs := by
  induction rs with
  | nil => rfl
  | cons r rs ih =>
    have h1 : r.free_count = r.size := by
      unfold PhysicalRegion.free_count PhysicalRegion.size
      rw [List.count_eq_length]
      intro b hb
      exact (h r (List.mem_cons_self _ _) b hb).symm
    have h2 := ih fun q hq => h q (List.mem_cons_of_mem _ hq)
    simp only [free_frames, total_frames, List.map_cons, List.sum_cons] at h2 ⊢
    rw [h1, h2]

theorem find_region_index_spec {n : Nat} {rs : List PhysicalRegion} {i : Nat}
    (h : find_region_index n rs = some i) :
    ∃ r, rs.get? i = some r ∧ n ≤ r.size ∧ r ∈ rs ∧
      total_frames (rs.eraseIdx i) + r.size = total_frames rs ∧
      (∀ x, total_frames (rs.set i x) + r.size = total_frames rs + x.size) ∧
      (∀ y ∈ rs.eraseIdx i, y ∈ rs) ∧
      (∀ x, ∀ y ∈ rs.set i x, y = x ∨ y ∈ rs) := by
  induction rs generalizing i with
  | nil => simp [find_region_index] at h
  | cons a t ih =>
    unfold find_region_index at h
    split at h
    · rename_i hsize
      cases h
      refine ⟨a, rfl, hsize, List.mem_cons_self _ _, ?_, ?_, ?_, ?_⟩
      · simp [total_frames]; omega
      · intro x; simp [total_frames]; omega
      · intro y hy
        exact List.mem_cons_of_mem _ (by simpa using hy)
      · intro x y hy
        simp only [List.set_cons_zero, List.mem_cons] at hy
        rcases hy with hy | hy
        · exact Or.inl hy
        · exact Or.inr (List.mem_cons_of_mem _ hy)
    · cases hf : find_region_index n t with
      | none => simp [hf] at h
      | some j =>
        rw [hf] at h
        simp only [Option.map_some', Option.some.injEq] at h
        subst h
        obtain ⟨r, g1, g2, g3, g4, g5, g6, g7⟩ := ih hf
        refine ⟨r, by simpa using g1, g2, List.mem_cons_of_mem _ g3, ?_, ?_, ?_, ?_⟩
        · have := g4
          simp only [total_frames, List.eraseIdx_cons_succ, List.map_cons, List.sum_cons]
            at this ⊢
          omega
        · intro x
          have := g5 x
          simp only [total_frames, List.set_cons_succ, List.map_cons, List.sum_cons] at this ⊢
          omega
        · intro y hy
          simp only [List.eraseIdx_cons_succ, List.mem_cons] at hy
          rcases hy with hy | hy
          · subst hy; exact List.mem_cons_self _ _
          · exact List.mem_cons_of_mem _ (g6 y hy)
        · intro x y hy
          simp only [List.set_cons_succ, List.mem_cons] at hy
          rcases hy with hy | hy
          · subst hy; exact Or.inr (List.mem_cons_self _ _)
          · rcases g7 x y hy with h1 | h1
            · exact Or.inl h1
            · exact Or.inr (List.mem_cons_of_mem _ h1)

/-- What `initialize_physical_pages` does to the counters and the regions,
when it returns. -/
theorem initialize_physical_pages_spec {boot : BootInfo} {g0 g : GlobalData}
    (h : initialize_physical_pages boot g0 = .ok g) :
    ∃ rounded taken,
      page_round_up (g.m_physical_page_entries_count * boot.sizeof_PhysicalPageEntry)
        = .ok rounded ∧
      g.m_physical_page_entries_count
        = wrapping_add (highest_physical_address g0 / PAGE_SIZE) 1 ∧
      g.physical_pages_region = some taken ∧
      taken.size = rounded / PAGE_SIZE + (rounded / PAGE_SIZE + 512 - 1) / 512 ∧
      taken.size ≤ g0.system_memory_info.physical_pages ∧
      g.system_memory_info =
        { g0.system_memory_info with
          physical_pages := wrapping_sub g0.system_memory_info.physical_pages taken.size } ∧
      total_frames g.physical_regions + taken.size = total_frames g0.physical_regions ∧
      ((∀ r ∈ g0.physical_regions, ∀ b ∈ r.frames, b = true) →
        ∀ r ∈ g.physical_regions, ∀ b ∈ r.frames, b = true) := by
  unfold initialize_physical_pages at h
  simp only at h
  split at h
  · cases h
  split at h
  · cases h
  split at h
  · cases h
  rename_i rounded hround
  split at h
  · cases h
  split at h
  · cases h
  rename_i i hfind
  split at h
  · cases h
  rename_i found hget
  split at h
  · cases h
  rename_i hpages
  obtain ⟨r, g1, g2, g3, g4, g5, g6, g7⟩ := find_region_index_spec hfind
  rw [hget] at g1
  cases g1
  cases hmap : boot.page_array_mapping_succeeds
  · simp [hmap] at h
  simp only [hmap, Bool.not_true, Bool.false_eq_true, if_false, Outcome.ok.injEq] at h
  subst h
  by_cases hsize : found.size = rounded / PAGE_SIZE + (rounded / PAGE_SIZE + 512 - 1) / 512
  · rw [if_pos hsize]
    refine ⟨rounded, found, hround, rfl, rfl, hsize, by omega, ?_, ?_, ?_⟩
    · rw [hsize]
    · exact g4
    · intro hall q hq
      exact hall q (g6 q hq)
  · rw [if_neg hsize]
    have hlen : (found.try_take_pages_from_beginning
        (rounded / PAGE_SIZE + (rounded / PAGE_SIZE + 512 - 1) / 512)).1.size
        = rounded / PAGE_SIZE + (rounded / PAGE_SIZE + 512 - 1) / 512 := by
      unfold PhysicalRegion.try_take_pages_from_beginning PhysicalRegion.size
      simp only [List.length_take]
      unfold PhysicalRegion.size at g2
      omega
    have hrest : (found.try_take_pages_from_beginning
        (rounded / PAGE_SIZE + (rounded / PAGE_SIZE + 512 - 1) / 512)).2.size
        + (rounded / PAGE_SIZE + (rounded / PAGE_SIZE + 512 - 1) / 512) = found.size := by
      unfold PhysicalRegion.try_take_pages_from_beginning PhysicalRegion.size
      simp only [List.length_drop]
      unfold PhysicalRegion.size at g2
      omega
    refine ⟨rounded, _, hround, rfl, rfl, hlen, by rw [hlen]; omega, ?_, ?_, ?_⟩
    · rw [hlen]
    · have := g5 (found.try_take_pages_from_beginning
        (rounded / PAGE_SIZE + (rounded / PAGE_SIZE + 512 - 1) / 512)).2
      show total_frames (g0.physical_regions.set i
        (found.try_take_pages_from_beginning
          (rounded / PAGE_SIZE + (rounded / PAGE_SIZE + 512 - 1) / 512)).2)
        + (found.try_take_pages_from_beginning
          (rounded / PAGE_SIZE + (rounded / PAGE_SIZE + 512 - 1) / 512)).1.size
        = total_frames g0.physical_regions
      rw [hlen]
      omega
    · intro hall q hq b hb
      rcases g7 _ q hq with h1 | h1
      · subst h1
        exact hall found g3 b (List.mem_of_mem_drop hb)
      · exact hall q h1 b hb

theorem page_run_append (a m n : Nat) :
    page_run a (m + n) = page_run a m ++ page_run (a + m * PAGE_SIZE) n := by
  induction m generalizing a with
  | zero => simp [page_run]
  | succ m ih =>
    have h : m + 1 + n = (m + n) + 1 := by omega
    rw [h]
    simp only [page_run, List.cons_append, ih]
    have harith : a + PAGE_SIZE + m * PAGE_SIZE = a + (m + 1) * PAGE_SIZE := by
      unfold PAGE_SIZE
      omega
    rw [harith]

theorem page_run_bounds {a n p : Nat} (h : p ∈ page_run a n) :
    a ≤ p ∧ p + PAGE_SIZE ≤ a + n * PAGE_SIZE := by
  induction n generalizing a with
  | zero => simp [page_run] at h
  | succ n ih =>
    simp only [page_run, List.mem_cons] at h
    rcases h with h | h
    · subst h
      constructor
      · exact Nat.le_refl _
      · have : (n + 1) * PAGE_SIZE = n * PAGE_SIZE + PAGE_SIZE := by ring
        omega
    · obtain ⟨h1, h2⟩ := ih h
      have : (n + 1) * PAGE_SIZE = n * PAGE_SIZE + PAGE_SIZE := by ring
      constructor <;> omega

/-- The page loop over pages that lie in used memory ranges adds nothing. -/
theorem add_page_skips (used : List UsedMemoryRange)
    (ranges : List ContiguousPhysicalVirtualRange) (pages : List Nat)
    (h : ∀ p ∈ pages, (used.any fun used_range =>
      decide (p ≥ used_range.start) && decide (p ≤ used_range.range_end)) = true) :
    pages.foldl (add_page used) ranges = ranges := by
  induction pages with
  | nil => rfl
  | cons p ps ih =>
    rw [List.foldl_cons]
    have hp := h p (List.mem_cons_self _ _)
    have : add_page used ranges p = ranges := by
      unfold add_page
      rw [if_pos hp]
    rw [this]
    exact ih fun q hq => h q (List.mem_cons_of_mem _ hq)

/-- The page loop over a run of pages outside the used memory ranges, right
after the last page of the only contiguous range, extends that range. -/
theorem add_page_extends (used : List UsedMemoryRange) (lo a n : Nat)
    (hfree : ∀ p ∈ page_run a n, (used.any fun used_range =>
      decide (p ≥ used_range.start) && decide (p ≤ used_range.range_end)) = false)
    (hpos : PAGE_SIZE ≤ a) (hfit : a + n * PAGE_SIZE ≤ 2 ^ 64) :
    (page_run a n).foldl (add_page used) [{ lower := lo, upper := a - PAGE_SIZE }]
      = [{ lower := lo, upper := a - PAGE_SIZE + n * PAGE_SIZE }] := by
  induction n generalizing a with
  | zero => simp [page_run]
  | succ n ih =>
    have hmul : (n + 1) * PAGE_SIZE = n * PAGE_SIZE + PAGE_SIZE := by ring
    have hP : PAGE_SIZE = 4096 := rfl
    simp only [page_run, List.foldl_cons]
    have hp := hfree a (by simp [page_run])
    have hstep : add_page used [{ lower := lo, upper := a - PAGE_SIZE }] a
        = [{ lower := lo, upper := a + PAGE_SIZE - PAGE_SIZE }] := by
      unfold add_page
      rw [if_neg (by rw [hp]; simp)]
      have hw : wrapping_add (a - PAGE_SIZE) PAGE_SIZE = a := by
        rw [wrapping_add_eq (by omega)]
        omega
      simp [hw]
    rw [hstep, ih (a + PAGE_SIZE)
      (fun q hq => hfree q (by simp only [page_run, List.mem_cons]; exact Or.inr hq))
      (by omega) (by omega)]
    have harith : a + PAGE_SIZE - PAGE_SIZE + n * PAGE_SIZE
        = a - PAGE_SIZE + (n + 1) * PAGE_SIZE := by omega
    rw [harith]

/-- The page loop of the scenario: the pages up to `0x300000` are skipped, the
pages from `0x301000` to `0x1000000` make one contiguous range. -/
theorem example_boot_page_loop :
    (page_run 0 (769 + 3328)).foldl
      (add_page
        [{ type := .LowMemory, start := 0, range_end := 0x100000 },
         { type := .Kernel, start := 0x100000, range_end := 0x300000 }]) []
      = [{ lower := 0x301000, upper := 0x1000000 }] := by
  have hskip : (page_run 0 769).foldl
      (add_page
        [{ type := .LowMemory, start := 0, range_end := 0x100000 },
         { type := .Kernel, start := 0x100000, range_end := 0x300000 }]) [] = [] := by
    apply add_page_skips
    intro p hp
    have hb := (page_run_bounds hp).2
    have hP : PAGE_SIZE = 4096 := rfl
    rw [hP] at hb
    simp only [List.any_cons, List.any_nil, Bool.or_false, Bool.or_eq_true, Bool.and_eq_true,
      decide_eq_true_eq]
    omega
  have hrun : page_run (0 + 769 * PAGE_SIZE) 3328
      = 0x301000 :: page_run 0x302000 3327 := rfl
  have hfirst : add_page
      [{ type := .LowMemory, start := 0, range_end := 0x100000 },
       { type := .Kernel, start := 0x100000, range_end := 0x300000 }] [] 0x301000
      = [{ lower := 0x301000, upper := 0x302000 - PAGE_SIZE }] := by decide
  have hext := add_page_extends
    [{ type := .LowMemory, start := 0, range_end := 0x100000 },
     { type := .Kernel, start := 0x100000, range_end := 0x300000 }]
    0x301000 0x302000 3327
    (by
      intro p hp
      have hb := (page_run_bounds hp).1
      simp only [List.any_cons, List.any_nil, Bool.or_false, Bool.or_eq_false_iff,
        Bool.and_eq_false_imp, decide_eq_true_eq, decide_eq_false_iff_not]
      constructor <;> intro _ <;> omega)
    (by decide) (by decide)
  rw [page_run_append, List.foldl_append, hskip, hrun, List.foldl_cons, hfirst, hext]
  rfl

theorem example_boot_entries :
    parse_memory_map_entries
      [{ type := .LowMemory, start := 0, range_end := 0x100000 },
       { type := .Kernel, start := 0x100000, range_end := 0x300000 }]
      example_boot.multiboot_memory_map ([], [])
      = .ok ([{ type := .Usable, start := 0, length := 0x1000000 }],
          [{ lower := 0x301000, upper := 0x1000000 }]) := by
  have hpages : page_bases 0 0x1000000 = .ok (page_run 0 (769 + 3328)) := rfl
  show parse_memory_map_entries _ [{ addr := 0, len := 0x1000000, type := 1 }] ([], []) = _
  unfold parse_memory_map_entries parse_memory_map_entry
  have hfix : fix_up_unaligned 0 0x1000000 = (0, 0x1000000) := rfl
  have htyped : typed_memory_range { addr := 0, len := 0x1000000, type := 1 }
      = some { type := .Usable, start := 0, length := 0x1000000 } := rfl
  simp only [hfix, htyped, hpages, Outcome.bind, example_boot_page_loop]
  rfl

theorem example_boot_initialized :
    initialize_physical_pages example_boot example_boot_parsed
      = .ok { example_boot_result with
          system_memory_info :=
            { physical_pages := 3317, physical_pages_used := 0,
              physical_pages_committed := 0, physical_pages_uncommitted := 0 } } := by
  have hsize : ({ lower := 0x301000, frames := List.replicate 3327 true } :
      PhysicalRegion).size = 3327 := by
    show (List.replicate 3327 true).length = 3327
    exact List.length_replicate _ _
  have hfind : find_region_index 10 example_boot_parsed.physical_regions = some 0 := by
    show find_region_index 10 [{ lower := 0x301000, frames := List.replicate 3327 true }] = _
    unfold find_region_index
    rw [if_pos (by rw [hsize]; decide)]
  have hhigh : highest_physical_address example_boot_parsed = 0x1000000 := rfl
  have hround : page_round_up (4097 * 8) = .ok 36864 := rfl
  have htake : (({ lower := 0x301000, frames := List.replicate 3327 true } :
      PhysicalRegion).try_take_pages_from_beginning 10)
      = ({ lower := 0x301000, frames := List.replicate 10 true },
         { lower := 0x30b000, frames := List.replicate 3317 true }) := by
    have h1 : List.take 10 (List.replicate 3327 true) = List.replicate (min 10 3327) true :=
      List.take_replicate _ _ _
    have h2 : List.drop 10 (List.replicate 3327 true) = List.replicate (3327 - 10) true :=
      List.drop_replicate _ _ _
    unfold PhysicalRegion.try_take_pages_from_beginning
    show (({ lower := 0x301000, frames := List.take 10 (List.replicate 3327 true) } :
        PhysicalRegion),
      ({ lower := 0x301000 + 10 * PAGE_SIZE,
         frames := List.drop 10 (List.replicate 3327 true) } : PhysicalRegion)) = _
    rw [h1, h2]
    exact rfl
  have hupper : ({ lower := 0x301000, frames := List.replicate 10 true } :
      PhysicalRegion).upper = 0x30b000 := rfl
  unfold initialize_physical_pages
  simp only [hhigh]
  have hcount : wrapping_add (0x1000000 / PAGE_SIZE) 1 = 4097 := rfl
  have hsz : example_boot.sizeof_PhysicalPageEntry = 8 := rfl
  have hmap : example_boot.page_array_mapping_succeeds = true := rfl
  have hget : example_boot_parsed.physical_regions.get? 0
      = some { lower := 0x301000, frames := List.replicate 3327 true } := rfl
  have hpp : example_boot_parsed.system_memory_info.physical_pages = 3327 := rfl
  simp only [hcount, hsz, hround, hmap]
  have h9 : 36864 / PAGE_SIZE = 9 := rfl
  simp only [h9]
  have h10 : 9 + (9 + 512 - 1) / 512 = 10 := rfl
  simp only [h10, hfind, hget, hsize, htake, hupper, hpp]
  rfl

theorem bind_ok_eq {α β : Type} (a : α) (f : α → Outcome β) :
    (Outcome.ok a).bind f = f a := by
  cases h : f a <;> simp [Outcome.bind, h]

theorem bind_eq_ok {α β : Type} {x : Outcome α} {f : α → Outcome β} {b : β}
    (h : x.bind f = .ok b) : ∃ a, x = .ok a ∧ f a = .ok b := by
  cases x with
  | ok a => exact ⟨a, rfl, by rw [bind_ok_eq] at h; exact h⟩
  | fatal => simp [Outcome.bind] at h
  | deadlock => simp [Outcome.bind] at h

/-- The boot of the scenario returns, and leaves `example_boot_result`. -/
theorem parse_memory_map_example : parse_memory_map example_boot = .ok example_boot_result := by
  have hused : initial_used_memory_ranges example_boot
      = .ok [{ type := .LowMemory, start := 0, range_end := 0x100000 },
             { type := .Kernel, start := 0x100000, range_end := 0x300000 }] := rfl
  have hregions : ([{ lower := 0x301000, upper := 0x1000000 }] :
        List ContiguousPhysicalVirtualRange).map
        (fun range => PhysicalRegion.try_create range.lower range.upper)
      = [{ lower := 0x301000, frames := List.replicate 3327 true }] := rfl
  have hsize : ({ lower := 0x301000, frames := List.replicate 3327 true } :
      PhysicalRegion).size = 3327 := by
    show (List.replicate 3327 true).length = 3327
    exact List.length_replicate _ _
  have hpages : ([{ lower := 0x301000, frames := List.replicate 3327 true }] :
        List PhysicalRegion).foldl (fun pages region => wrapping_add pages region.size) 0
      = 3327 := by
    rw [List.foldl_cons, List.foldl_nil, hsize]
    rfl
  have hreserved : register_reserved_ranges
      [{ type := .Usable, start := 0, length := 0x1000000 }] = .ok [] := rfl
  unfold parse_memory_map
  rw [hused, bind_ok_eq, example_boot_entries, bind_ok_eq]
  simp only []
  rw [hregions, hpages, hreserved, bind_ok_eq]
  have hinit := example_boot_initialized
  unfold example_boot_parsed at hinit
  rw [hinit, bind_ok_eq]
  rfl

/-- C19, as stated, fails on its own scenario: one usable range `[0, 16 MiB)`
with the kernel image at `[1 MiB, 3 MiB)`.  The array of physical page
entries and its page table take 10 pages.  After `parse_memory_map`,
`physical_pages` is 3317, not `16 MiB / PAGE_SIZE - 10 = 4086`: the pages of
the low memory and of the kernel image are in no region and are not counted;
and `physical_pages_used` is 0: it accounts neither for the kernel image nor
for the array. -/
theorem boot_leaves_nothing_used :
    parse_memory_map example_boot = .ok example_boot_result ∧
    example_boot_result.system_memory_info =
      { physical_pages := 3317, physical_pages_used := 0, physical_pages_committed := 0,
        physical_pages_uncommitted := 3317 } ∧
    example_boot_result.physical_pages_region
      = some { lower := 0x301000, frames := List.replicate 10 true } ∧
    example_boot_result.system_memory_info.physical_pages ≠ 0x1000000 / PAGE_SIZE - 10 ∧
    example_boot_result.system_memory_info.physical_pages_used = 0 :=
  ⟨parse_memory_map_example, rfl, rfl, by decide, rfl⟩

/-- C19, amended: after a `parse_memory_map` that returns, `physical_pages`
plus the pages taken for the array of physical page entries and its page
tables equals the number of pages of the physical regions built from the
usable ranges of the memory map, which leave out every page of a used memory
range (low memory, kernel image, boot modules); the pages taken are the pages
of the array, rounded up, and one page table for every 512 of them;
`physical_pages` is the number of pages of the regions that remain, all of
them free; `physical_pages_used` and `physical_pages_committed` are 0, and
`physical_pages_uncommitted` equals `physical_pages`, which is not 0.  (In the
scenario of one usable range `[0, 16 MiB)` with a 2 MiB kernel image at 1 MiB:
3317, 0, 0 and 3317.) -/
theorem parse_memory_map_accounting (boot : BootInfo) (g : GlobalData)
    (used : List UsedMemoryRange)
    (parsed : List PhysicalMemoryRange × List ContiguousPhysicalVirtualRange)
    (hused : initial_used_memory_ranges boot = .ok used)
    (hparsed : parse_memory_map_entries used boot.multiboot_memory_map ([], []) = .ok parsed)
    (hfit : total_frames
      (parsed.2.map fun range => PhysicalRegion.try_create range.lower range.upper) < 2 ^ 64)
    (h : parse_memory_map boot = .ok g) :
    ∃ rounded taken,
      page_round_up (g.m_physical_page_entries_count * boot.sizeof_PhysicalPageEntry)
        = .ok rounded ∧
      g.physical_pages_region = some taken ∧
      taken.size = rounded / PAGE_SIZE + (rounded / PAGE_SIZE + 512 - 1) / 512 ∧
      g.system_memory_info.physical_pages + taken.size =
        total_frames
          (parsed.2.map fun range => PhysicalRegion.try_create range.lower range.upper) ∧
      total_frames g.physical_regions = g.system_memory_info.physical_pages ∧
      free_frames g.physical_regions = total_frames g.physical_regions ∧
      g.system_memory_info.physical_pages_used = 0 ∧
      g.system_memory_info.physical_pages_committed = 0 ∧
      g.system_memory_info.physical_pages_uncommitted = g.system_memory_info.physical_pages ∧
      0 < g.system_memory_info.physical_pages := by
  unfold parse_memory_map at h
  rw [hused, bind_ok_eq, hparsed, bind_ok_eq] at h
  simp only [] at h
  obtain ⟨reserved, -, h⟩ := bind_eq_ok h
  obtain ⟨g1, hinit, h⟩ := bind_eq_ok h
  obtain ⟨rounded, taken, e1, -, e3, e4, e5, e6, e7, e8⟩ := initialize_physical_pages_spec hinit
  have hsum := physical_pages_sum
    (parsed.2.map fun range => PhysicalRegion.try_create range.lower range.upper) 0
    (by omega)
  simp only [Nat.zero_add] at hsum
  simp only [hsum] at e5 e6
  have hfree : ∀ r ∈ parsed.2.map
      (fun range => PhysicalRegion.try_create range.lower range.upper),
      ∀ b ∈ r.frames, b = true := by
    intro r hr b hb
    obtain ⟨range, -, rfl⟩ := List.mem_map.1 hr
    exact List.eq_of_mem_replicate hb
  have hall := e8 hfree
  have hw : wrapping_sub
      (total_frames
        (parsed.2.map fun range => PhysicalRegion.try_create range.lower range.upper))
      taken.size
      = total_frames
          (parsed.2.map fun range => PhysicalRegion.try_create range.lower range.upper)
        - taken.size := wrapping_sub_eq e5 hfit
  rw [hw] at e6
  split at h
  · cases h
  rename_i hpos
  simp only [Outcome.ok.injEq] at h
  subst h
  have e7' : total_frames g1.physical_regions + taken.size
      = total_frames
          (parsed.2.map fun range => PhysicalRegion.try_create range.lower range.upper) := e7
  refine ⟨rounded, taken, e1, e3, e4, ?_, ?_, free_frames_of_all_free _ hall, ?_, ?_, rfl, ?_⟩
  · show g1.system_memory_info.physical_pages + taken.size = _
    rw [e6]
    show _ - taken.size + taken.size = _
    omega
  · show total_frames g1.physical_regions = g1.system_memory_info.physical_pages
    rw [e6]
    show _ = _ - taken.size
    omega
  · show g1.system_memory_info.physical_pages_used = 0
    rw [e6]
  · show g1.system_memory_info.physical_pages_committed = 0
    rw [e6]
  · show 0 < g1.system_memory_info.physical_pages
    omega

theorem parse_memory_map_accounting_witness :
    parse_memory_map example_boot = .ok example_boot_result ∧
    ∃ rounded taken,
      page_round_up (example_boot_result.m_physical_page_entries_count
          * example_boot.sizeof_PhysicalPageEntry) = .ok rounded ∧
      example_boot_result.physical_pages_region = some taken ∧
      taken.size = rounded / PAGE_SIZE + (rounded / PAGE_SIZE + 512 - 1) / 512 ∧
      example_boot_result.system_memory_info.physical_pages + taken.size =
        total_frames
          (([{ lower := 0x301000, upper := 0x1000000 }] :
              List ContiguousPhysicalVirtualRange).map
            fun range => PhysicalRegion.try_create range.lower range.upper) ∧
      total_frames example_boot_result.physical_regions
        = example_boot_result.system_memory_info.physical_pages ∧
      free_frames example_boot_result.physical_regions
        = total_frames example_boot_result.physical_regions ∧
      example_boot_result.system_memory_info.physical_pages_used = 0 ∧
      example_boot_result.system_memory_info.physical_pages_committed = 0 ∧
      example_boot_result.system_memory_info.physical_pages_uncommitted
        = example_boot_result.system_memory_info.physical_pages ∧
      0 < example_boot_result.system_memory_info.physical_pages :=
  ⟨parse_memory_map_example,
    parse_memory_map_accounting example_boot example_boot_result
      [{ type := .LowMemory, start := 0, range_end := 0x100000 },
       { type := .Kernel, start := 0x100000, range_end := 0x300000 }]
      ([{ type := .Usable, start := 0, length := 0x1000000 }],
        [{ lower := 0x301000, upper := 0x1000000 }])
      rfl example_boot_entries
      (by
        show total_frames [PhysicalRegion.try_create 0x301000 0x1000000] < 2 ^ 64
        simp only [total_frames, List.map_cons, List.map_nil, List.sum_cons, List.sum_nil,
          PhysicalRegion.size, PhysicalRegion.try_create, List.length_replicate]
        decide)
      parse_memory_map_example⟩

/-! ## Bulk teardown -/

theorem page_table_index_eq (v : Nat) : page_table_index v = v / 4096 % 512 := by
  unfold page_table_index
  rw [Nat.shiftRight_eq_div_pow]
  exact Nat.and_pow_two_sub_one_eq_mod _ 9

theorem page_directory_index_eq (v : Nat) : page_directory_index v = v / 2097152 % 512 := by
  unfold page_directory_index
  rw [Nat.shiftRight_eq_div_pow]
  exact Nat.and_pow_two_sub_one_eq_mod _ 9

theorem page_directory_table_index_eq (v : Nat) :
    page_directory_table_index v = v / 1073741824 % 512 := by
  unfold page_directory_table_index
  rw [Nat.shiftRight_eq_div_pow]
  exact Nat.and_pow_two_sub_one_eq_mod _ 9

theorem run_address (a j : Nat) :
    a + PAGE_SIZE + j * PAGE_SIZE = a + (j + 1) * PAGE_SIZE := by
  unfold PAGE_SIZE
  omega

/-- The next page of a page that is not the last one of its page table has
the same directory entry. -/
theorem directory_entry_next (dir : PageDirectory) (a : Nat) (s : MemoryManager)
    (h : page_table_index a ≠ 0x1ff) :
    directory_entry dir (a + PAGE_SIZE) s = directory_entry dir a s := by
  rw [page_table_index_eq] at h
  have h1 : page_directory_table_index (a + PAGE_SIZE) = page_directory_table_index a := by
    rw [page_directory_table_index_eq, page_directory_table_index_eq]
    unfold PAGE_SIZE
    omega
  have h2 : page_directory_index (a + PAGE_SIZE) = page_directory_index a := by
    rw [page_directory_index_eq, page_directory_index_eq]
    unfold PAGE_SIZE
    omega
  unfold directory_entry
  rw [h1, h2]

/-- Within a window of 512 GiB, no later page of a run that starts at the last
page of a page table has the directory entry of that page. -/
theorem later_page_other_slot (dir : PageDirectory) (a j m : Nat)
    (hdirs : ∀ x y, x < 512 → y < 512 → dir.directory_pages x = dir.directory_pages y → x = y)
    (hspan : a / 2 ^ 39 = (a + m * PAGE_SIZE) / 2 ^ 39)
    (h1 : 1 ≤ j) (h2 : j ≤ m) (h511 : page_table_index a = 0x1ff) :
    ¬ same_slot dir (a + j * PAGE_SIZE) a := by
  rintro ⟨hd, hp⟩
  have ht := hdirs _ _ (by rw [page_directory_table_index_eq]; omega)
    (by rw [page_directory_table_index_eq]; omega) hd
  rw [page_directory_table_index_eq, page_directory_table_index_eq] at ht
  rw [page_directory_index_eq, page_directory_index_eq] at hp
  rw [page_table_index_eq] at h511
  unfold PAGE_SIZE at hspan ht hp
  norm_num at hspan
  omega

/-- What one `release_pte` changes, when it returns. -/
theorem release_pte_step {cpu : Processor} {dir : PageDirectory} {v : Nat}
    {last : IsLastPTERelease} {s s' : MemoryManager} (hw : windows_apart cpu)
    (hi : s.interrupts_disabled = true) (hl : dir.lock_held = true)
    (hrel : release_pte cpu dir v last s = .ok s') :
    s'.interrupts_disabled = true ∧
    (∀ w, directory_entry dir w s' = directory_entry dir w s ∨
      (same_slot dir w v ∧ directory_entry dir w s' = PageEntry.null ∧
        (last = IsLastPTERelease.Yes ∨ page_table_index v = 0x1ff))) ∧
    (∀ t, ((directory_entry dir v s).present = true →
        (directory_entry dir v s).physical_page_base ≠ t) →
      s'.pt_pages t = s.pt_pages t) ∧
    (∀ x, ((directory_entry dir v s).present = true →
        (directory_entry dir v s).physical_page_base / PAGE_SIZE ≠ x) →
      s'.ref_count x = s.ref_count x) ∧
    (¬ (last = IsLastPTERelease.Yes ∨ page_table_index v = 0x1ff) →
      s'.ref_count = s.ref_count) ∧
    ((directory_entry dir v s).present = true →
      (last = IsLastPTERelease.Yes ∨ page_table_index v = 0x1ff) →
      table_all_null s' (directory_entry dir v s).physical_page_base = true →
      directory_entry dir v s' = PageEntry.null ∧
      s'.ref_count ((directory_entry dir v s).physical_page_base / PAGE_SIZE) =
        (s.ref_count ((directory_entry dir v s).physical_page_base / PAGE_SIZE)
          + 2 ^ 32 - 1) % 2 ^ 32) := by
  cases hp : (directory_entry dir v s).present with
  | false =>
    rw [release_pte_eq cpu dir v _ s hw hi hl, hp] at hrel
    simp only [Bool.false_eq_true, if_false, Outcome.ok.injEq] at hrel
    subst hrel
    refine ⟨hi, fun w => Or.inl rfl, fun t _ => rfl, fun x _ => rfl, fun _ => rfl, ?_⟩
    intro h
    cases h
  | true =>
    obtain ⟨g1, g2, -, g4, g5⟩ := release_pte_present hw hi hl hp hrel
    by_cases hc : (last = IsLastPTERelease.Yes ∨ page_table_index v = 0x1ff) ∧
        table_all_null s' (directory_entry dir v s).physical_page_base = true
    · obtain ⟨c1, c2⟩ := g4 hc
      refine ⟨g2, ?_, ?_, ?_, ?_, ?_⟩
      · intro w
        by_cases hs : same_slot dir w v
        · refine Or.inr ⟨hs, ?_, hc.1⟩
          unfold directory_entry
          rw [c1, hs.1, hs.2]
          simp
        · refine Or.inl ?_
          unfold directory_entry
          rw [c1]
          by_cases hd : dir.directory_pages (page_directory_table_index w)
              = dir.directory_pages (page_directory_table_index v)
          · have hk : page_directory_index w ≠ page_directory_index v :=
              fun hk => hs ⟨hd, hk⟩
            rw [hd]
            simp [Function.update_noteq hk]
          · rw [Function.update_noteq hd]
      · intro t ht
        rw [g1, Function.update_noteq (fun h => ht rfl h.symm)]
      · intro x hx
        rw [c2, Function.update_noteq (fun h => hx rfl h.symm)]
      · intro hn
        exact absurd hc.1 hn
      · intro _ _ _
        refine ⟨?_, ?_⟩
        · unfold directory_entry
          rw [c1]
          simp
        · rw [c2]
          simp
    · obtain ⟨c1, c2, -, -⟩ := g5 hc
      refine ⟨g2, ?_, ?_, ?_, ?_, ?_⟩
      · intro w
        refine Or.inl ?_
        unfold directory_entry
        rw [c1]
      · intro t ht
        rw [g1, Function.update_noteq (fun h => ht rfl h.symm)]
      · intro x _
        rw [c2]
      · intro _
        exact c2
      · intro _ hlast hall
        exact absurd ⟨hlast, hall⟩ hc

theorem present_of_same_or_null {e e0 : PageEntry} (h : e = e0 ∨ e = PageEntry.null)
    (hp : e.present = true) : e = e0 := by
  rcases h with h | h
  · exact h
  · rw [h] at hp
    cases hp

/-- What a run of releases leaves alone, when it returns. -/
theorem release_run_frame {cpu : Processor} {dir : PageDirectory} (hw : windows_apart cpu)
    (hl : dir.lock_held = true) :
    ∀ (n a : Nat) (s s' : MemoryManager), s.interrupts_disabled = true →
      release_run cpu dir a n s = .ok s' →
      s'.interrupts_disabled = true ∧
      (∀ w, directory_entry dir w s' = directory_entry dir w s ∨
        directory_entry dir w s' = PageEntry.null) ∧
      (∀ w, (∀ j, j ≤ n → ¬ same_slot dir w (a + j * PAGE_SIZE)) →
        directory_entry dir w s' = directory_entry dir w s) ∧
      (∀ t, (∀ j, j ≤ n → (directory_entry dir (a + j * PAGE_SIZE) s).present = true →
          (directory_entry dir (a + j * PAGE_SIZE) s).physical_page_base ≠ t) →
        s'.pt_pages t = s.pt_pages t) ∧
      (∀ x, (∀ j, j ≤ n → (directory_entry dir (a + j * PAGE_SIZE) s).present = true →
          (directory_entry dir (a + j * PAGE_SIZE) s).physical_page_base / PAGE_SIZE ≠ x) →
        s'.ref_count x = s.ref_count x) := by
  intro n
  induction n with
  | zero =>
    intro a s s' hi hrun
    unfold release_run at hrun
    obtain ⟨k1, k2, k3, k4, -, -⟩ := release_pte_step hw hi hl hrun
    refine ⟨k1, ?_, ?_, ?_, ?_⟩
    · intro w
      rcases k2 w with h | h
      · exact Or.inl h
      · exact Or.inr h.2.1
    · intro w hj
      rcases k2 w with h | h
      · exact h
      · exact absurd (by simpa using h.1) (hj 0 (Nat.le_refl _))
    · intro t ht
      exact k3 t (by simpa using ht 0 (Nat.le_refl _))
    · intro x hx
      exact k4 x (by simpa using hx 0 (Nat.le_refl _))
  | succ n ih =>
    intro a s s' hi hrun
    unfold release_run at hrun
    obtain ⟨s1, hfirst, hrest⟩ := bind_eq_ok hrun
    obtain ⟨k1, k2, k3, k4, -, -⟩ := release_pte_step hw hi hl hfirst
    obtain ⟨r1, r2, r3, r4, r5⟩ := ih (a + PAGE_SIZE) s1 s' k1 hrest
    have hsame : ∀ w, directory_entry dir w s1 = directory_entry dir w s ∨
        directory_entry dir w s1 = PageEntry.null := by
      intro w
      rcases k2 w with h | h
      · exact Or.inl h
      · exact Or.inr h.2.1
    refine ⟨r1, ?_, ?_, ?_, ?_⟩
    · intro w
      rcases r2 w with h | h
      · rcases hsame w with h' | h'
        · exact Or.inl (h.trans h')
        · exact Or.inr (h.trans h')
      · exact Or.inr h
    · intro w hj
      have h0 : directory_entry dir w s1 = directory_entry dir w s := by
        rcases k2 w with h | h
        · exact h
        · exact absurd (by simpa using h.1) (hj 0 (Nat.zero_le _))
      rw [← h0]
      apply r3 w
      intro j hjn
      rw [run_address]
      exact hj (j + 1) (by omega)
    · intro t ht
      have h0 : s1.pt_pages t = s.pt_pages t :=
        k3 t (by simpa using ht 0 (Nat.zero_le _))
      rw [← h0]
      apply r4 t
      intro j hjn hp
      have he := present_of_same_or_null (hsame (a + PAGE_SIZE + j * PAGE_SIZE)) hp
      rw [he] at hp ⊢
      rw [run_address] at hp ⊢
      exact ht (j + 1) (by omega) hp
    · intro x hx
      have h0 : s1.ref_count x = s.ref_count x :=
        k4 x (by simpa using hx 0 (Nat.zero_le _))
      rw [← h0]
      apply r5 x
      intro j hjn hp
      have he := present_of_same_or_null (hsame (a + PAGE_SIZE + j * PAGE_SIZE)) hp
      rw [he] at hp ⊢
      rw [run_address] at hp ⊢
      exact hx (j + 1) (by omega) hp

theorem same_slot_symm {dir : PageDirectory} {u w : Nat} (h : same_slot dir u w) :
    same_slot dir w u :=
  ⟨h.1.symm, h.2.symm⟩

/-- A run of releases within a window of 512 GiB, in a directory whose
directory pages are distinct and whose entries for the pages of the run point
to distinct frames: a page table of the run that is empty after the run has
lost its directory entry and one reference. -/
theorem release_run_clears {cpu : Processor} {dir : PageDirectory} (hw : windows_apart cpu)
    (hl : dir.lock_held = true)
    (hdirs : ∀ x y, x < 512 → y < 512 → dir.directory_pages x = dir.directory_pages y → x = y) :
    ∀ (n a : Nat) (s s' : MemoryManager), s.interrupts_disabled = true →
      a / 2 ^ 39 = (a + n * PAGE_SIZE) / 2 ^ 39 →
      (∀ i j, i ≤ n → j ≤ n →
        (directory_entry dir (a + i * PAGE_SIZE) s).present = true →
        (directory_entry dir (a + j * PAGE_SIZE) s).present = true →
        ¬ same_slot dir (a + i * PAGE_SIZE) (a + j * PAGE_SIZE) →
        (directory_entry dir (a + i * PAGE_SIZE) s).physical_page_base / PAGE_SIZE
          ≠ (directory_entry dir (a + j * PAGE_SIZE) s).physical_page_base / PAGE_SIZE) →
      release_run cpu dir a n s = .ok s' →
      ∀ j, j ≤ n → (directory_entry dir (a + j * PAGE_SIZE) s).present = true →
        table_all_null s' (directory_entry dir (a + j * PAGE_SIZE) s).physical_page_base
          = true →
        (directory_entry dir (a + j * PAGE_SIZE) s').present = false ∧
        s'.ref_count ((directory_entry dir (a + j * PAGE_SIZE) s).physical_page_base / PAGE_SIZE)
          = (s.ref_count
              ((directory_entry dir (a + j * PAGE_SIZE) s).physical_page_base / PAGE_SIZE)
              + 2 ^ 32 - 1) % 2 ^ 32 := by
  intro n
  induction n with
  | zero =>
    intro a s s' hi _ _ hrun j hj hp hall
    obtain rfl : j = 0 := by omega
    simp only [Nat.zero_mul, Nat.add_zero] at hp hall ⊢
    unfold release_run at hrun
    obtain ⟨-, -, -, -, -, k6⟩ := release_pte_step hw hi hl hrun
    obtain ⟨c1, c2⟩ := k6 hp (Or.inl rfl) hall
    exact ⟨by rw [c1]; rfl, c2⟩
  | succ n ih =>
    intro a s s' hi hspan halias hrun j hj hp hall
    unfold release_run at hrun
    obtain ⟨s1, hfirst, hrest⟩ := bind_eq_ok hrun
    obtain ⟨k1, k2, -, k4, k5, k6⟩ := release_pte_step hw hi hl hfirst
    obtain ⟨-, -, r3, r4, r5⟩ := release_run_frame hw hl n (a + PAGE_SIZE) s1 s' k1 hrest
    have hzero : a + 0 * PAGE_SIZE = a := by simp
    -- the entries of the later pages are as before the first release
    have hE : ∀ i, 1 ≤ i → i ≤ n + 1 →
        directory_entry dir (a + i * PAGE_SIZE) s1 = directory_entry dir (a + i * PAGE_SIZE) s := by
      intro i h1 h2
      rcases k2 (a + i * PAGE_SIZE) with h | h
      · exact h
      · have hidx : page_table_index a = 0x1ff := by
          rcases h.2.2 with h' | h'
          · cases h'
          · exact h'
        exact absurd h.1 (later_page_other_slot dir a i (n + 1) hdirs hspan h1 h2 hidx)
    -- a later page whose table is another one than that of the first page
    have hother : ∀ i, 1 ≤ i → i ≤ n + 1 → page_table_index a = 0x1ff →
        (directory_entry dir a s).present = true →
        (directory_entry dir (a + i * PAGE_SIZE) s).present = true →
        (directory_entry dir (a + i * PAGE_SIZE) s).physical_page_base / PAGE_SIZE
          ≠ (directory_entry dir a s).physical_page_base / PAGE_SIZE := by
      intro i h1 h2 hidx hpa hpi
      have := halias i 0 h2 (Nat.zero_le _) hpi (by rw [hzero]; exact hpa)
        (by rw [hzero]; exact later_page_other_slot dir a i (n + 1) hdirs hspan h1 h2 hidx)
      rw [hzero] at this
      exact this
    have hR : ∀ i, 1 ≤ i → i ≤ n + 1 →
        (directory_entry dir (a + i * PAGE_SIZE) s).present = true →
        s1.ref_count ((directory_entry dir (a + i * PAGE_SIZE) s).physical_page_base / PAGE_SIZE)
          = s.ref_count
              ((directory_entry dir (a + i * PAGE_SIZE) s).physical_page_base / PAGE_SIZE) := by
      intro i h1 h2 hpi
      by_cases hidx : page_table_index a = 0x1ff
      · exact k4 _ fun hpa h => hother i h1 h2 hidx hpa hpi h.symm
      · rw [k5 (by
          rintro (h | h)
          · cases h
          · exact hidx h)]
    have hspan' : (a + PAGE_SIZE) / 2 ^ 39 = (a + PAGE_SIZE + n * PAGE_SIZE) / 2 ^ 39 := by
      unfold PAGE_SIZE at hspan ⊢
      norm_num at hspan ⊢
      omega
    have halias' : ∀ i j, i ≤ n → j ≤ n →
        (directory_entry dir (a + PAGE_SIZE + i * PAGE_SIZE) s1).present = true →
        (directory_entry dir (a + PAGE_SIZE + j * PAGE_SIZE) s1).present = true →
        ¬ same_slot dir (a + PAGE_SIZE + i * PAGE_SIZE) (a + PAGE_SIZE + j * PAGE_SIZE) →
        (directory_entry dir (a + PAGE_SIZE + i * PAGE_SIZE) s1).physical_page_base / PAGE_SIZE
          ≠ (directory_entry dir (a + PAGE_SIZE + j * PAGE_SIZE) s1).physical_page_base
              / PAGE_SIZE := by
      intro i j hi' hj'
      rw [run_address, run_address, hE (i + 1) (by omega) (by omega),
        hE (j + 1) (by omega) (by omega)]
      exact halias (i + 1) (j + 1) (by omega) (by omega)
    have hih := ih (a + PAGE_SIZE) s1 s' k1 hspan' halias' hrest
    -- the pages after the first one
    have hlater : ∀ i, i ≤ n →
        (directory_entry dir (a + (i + 1) * PAGE_SIZE) s).present = true →
        table_all_null s' (directory_entry dir (a + (i + 1) * PAGE_SIZE) s).physical_page_base
          = true →
        (directory_entry dir (a + (i + 1) * PAGE_SIZE) s').present = false ∧
        s'.ref_count
            ((directory_entry dir (a + (i + 1) * PAGE_SIZE) s).physical_page_base / PAGE_SIZE)
          = (s.ref_count
              ((directory_entry dir (a + (i + 1) * PAGE_SIZE) s).physical_page_base / PAGE_SIZE)
              + 2 ^ 32 - 1) % 2 ^ 32 := by
      intro i hi' hpi halli
      have h := hih i hi'
      rw [run_address, hE (i + 1) (by omega) (by omega)] at h
      obtain ⟨c1, c2⟩ := h hpi halli
      exact ⟨c1, by rw [c2, hR (i + 1) (by omega) (by omega) hpi]⟩
    cases j with
    | succ i => exact hlater i (by omega) hp hall
    | zero =>
      rw [hzero] at hp hall ⊢
      by_cases hidx : page_table_index a = 0x1ff
      · -- the first release scans the table
        have hfar : ∀ i, i ≤ n →
            (directory_entry dir (a + PAGE_SIZE + i * PAGE_SIZE) s1).present = true →
            (directory_entry dir (a + PAGE_SIZE + i * PAGE_SIZE) s1).physical_page_base
                / PAGE_SIZE
              ≠ (directory_entry dir a s).physical_page_base / PAGE_SIZE := by
          intro i hi'
          rw [run_address, hE (i + 1) (by omega) (by omega)]
          exact hother (i + 1) (by omega) (by omega) hidx hp
        have hpt : s'.pt_pages (directory_entry dir a s).physical_page_base
            = s1.pt_pages (directory_entry dir a s).physical_page_base :=
          r4 _ fun i hi' hpi h => hfar i hi' hpi (by rw [h])
        have hall1 : table_all_null s1 (directory_entry dir a s).physical_page_base = true := by
          unfold table_all_null at hall ⊢
          rw [← hpt]
          exact hall
        obtain ⟨c1, c2⟩ := k6 hp (Or.inr hidx) hall1
        have hde : directory_entry dir a s' = directory_entry dir a s1 := by
          apply r3
          intro i hi' hs
          rw [run_address] at hs
          exact later_page_other_slot dir a (i + 1) (n + 1) hdirs hspan (by omega) (by omega)
            hidx (same_slot_symm hs)
        have href : s'.ref_count ((directory_entry dir a s).physical_page_base / PAGE_SIZE)
            = s1.ref_count ((directory_entry dir a s).physical_page_base / PAGE_SIZE) :=
          r5 _ hfar
        exact ⟨by rw [hde, c1]; rfl, by rw [href, c2]⟩
      · -- the next page has the same directory entry
        have hnext := directory_entry_next dir a s hidx
        have hnext' := directory_entry_next dir a s' hidx
        have hone : a + (0 + 1) * PAGE_SIZE = a + PAGE_SIZE := by simp
        have h := hlater 0 (Nat.zero_le _)
        rw [hone, hnext, hnext'] at h
        exact h hp hall

theorem bind_ok_right {α : Type} (x : Outcome α) : x.bind Outcome.ok = x := by
  cases x <;> rfl

/-- The loop of `unmap_prekernel` over the pages from `a` to `a + k *
PAGE_SIZE` is the run of releases with `IsLastPTERelease::Yes` on the last
page only. -/
theorem unmap_prekernel_loop_eq (cpu : Processor) (dir : PageDirectory) :
    ∀ (k a : Nat) (s : MemoryManager),
      unmap_prekernel_loop cpu dir (a + k * PAGE_SIZE) (page_run a (k + 1)) s
        = release_run cpu dir a k s := by
  intro k
  induction k with
  | zero =>
    intro a s
    simp only [page_run, unmap_prekernel_loop, release_run, Nat.zero_mul, Nat.add_zero,
      if_true]
    exact bind_ok_right _
  | succ k ih =>
    intro a s
    have hne : a ≠ a + (k + 1) * PAGE_SIZE := by
      unfold PAGE_SIZE
      omega
    have hrun : page_run a (k + 1 + 1) = a :: page_run (a + PAGE_SIZE) (k + 1) := rfl
    rw [hrun]
    unfold unmap_prekernel_loop release_run
    rw [if_neg hne]
    congr 1
    funext s1
    rw [← run_address]
    exact ih (a + PAGE_SIZE) s1

theorem unmap_prekernel_pages_eq (cpu : Processor) (dir : PageDirectory) (a k : Nat)
    (s : MemoryManager) (hfit : a + (k + 1) * PAGE_SIZE < 2 ^ 64) :
    unmap_prekernel_pages cpu dir a (a + k * PAGE_SIZE) s = release_run cpu dir a k s := by
  have hcount : (a + k * PAGE_SIZE - a) / PAGE_SIZE = k := by
    rw [Nat.add_sub_cancel_left]
    exact Nat.mul_div_cancel _ (by decide)
  unfold unmap_prekernel_pages
  rw [if_neg (by omega), hcount, if_neg (by omega)]
  exact unmap_prekernel_loop_eq cpu dir k a s

/-- C20: bulk teardown leaves no empty table behind.  A run of consecutive
pages `v0, v0 + PAGE_SIZE, ..., vk` is released with `release_pte` in
ascending order, `IsLastPTERelease::Yes` on `vk` only; this is what the loop
of `unmap_prekernel` from `v0` to `vk` does.  The caller has the interrupts
disabled and holds the lock of the directory; the quickmap windows of the
processor use three slots; the addresses of the run do not wrap around and
lie within one window of 512 GiB; the directory pages are distinct frames, and directory entries of the run that
are not the same entry point to distinct frames.  When the batch returns,
every page table of the run (the table of a page whose directory entry was
present) whose 512 entries are all null has its directory entry cleared, and
the reference count of its frame is one less (mod 2^32) than before the
batch. -/
theorem bulk_teardown_clears_empty_tables (cpu : Processor) (dir : PageDirectory)
    (v0 k : Nat) (s s' : MemoryManager) (hw : windows_apart cpu)
    (hi : s.interrupts_disabled = true) (hl : dir.lock_held = true)
    (hdirs : ∀ x y, x < 512 → y < 512 → dir.directory_pages x = dir.directory_pages y → x = y)
    (hfit : v0 + (k + 1) * PAGE_SIZE < 2 ^ 64)
    (hspan : v0 / 2 ^ 39 = (v0 + k * PAGE_SIZE) / 2 ^ 39)
    (halias : ∀ i j, i ≤ k → j ≤ k →
      (directory_entry dir (v0 + i * PAGE_SIZE) s).present = true →
      (directory_entry dir (v0 + j * PAGE_SIZE) s).present = true →
      ¬ same_slot dir (v0 + i * PAGE_SIZE) (v0 + j * PAGE_SIZE) →
      (directory_entry dir (v0 + i * PAGE_SIZE) s).physical_page_base / PAGE_SIZE
        ≠ (directory_entry dir (v0 + j * PAGE_SIZE) s).physical_page_base / PAGE_SIZE)
    (hrun : release_run cpu dir v0 k s = .ok s') :
    unmap_prekernel_pages cpu dir v0 (v0 + k * PAGE_SIZE) s = .ok s' ∧
    ∀ j, j ≤ k → (directory_entry dir (v0 + j * PAGE_SIZE) s).present = true →
      table_all_null s' (directory_entry dir (v0 + j * PAGE_SIZE) s).physical_page_base
        = true →
      (directory_entry dir (v0 + j * PAGE_SIZE) s').present = false ∧
      s'.ref_count ((directory_entry dir (v0 + j * PAGE_SIZE) s).physical_page_base / PAGE_SIZE)
        = (s.ref_count
            ((directory_entry dir (v0 + j * PAGE_SIZE) s).physical_page_base / PAGE_SIZE)
            + 2 ^ 32 - 1) % 2 ^ 32 := by
  refine ⟨?_, release_run_clears hw hl hdirs k v0 s s' hi hspan halias hrun⟩
  rw [unmap_prekernel_pages_eq cpu dir v0 k s hfit, hrun]

theorem bulk_teardown_clears_empty_tables_witness :
    windows_apart example_cpu ∧ written_example.interrupts_disabled = true ∧
    example_directory.lock_held = true ∧
    (directory_entry example_directory 0x200000 written_example).present = true ∧
    written_example.ref_count 0x100 = 1 ∧
    ∃ s', release_run example_cpu example_directory 0x200000 1 written_example = .ok s' ∧
      unmap_prekernel_pages example_cpu example_directory 0x200000 0x201000 written_example
        = .ok s' ∧
      table_all_null s' 0x100000 = true ∧
      (directory_entry example_directory 0x200000 s').present = false ∧
      s'.ref_count 0x100 = 0 := by
  refine ⟨by decide, rfl, rfl, rfl, rfl, ?_⟩
  have hfirst : release_pte example_cpu example_directory 0x200000 IsLastPTERelease.No
      written_example = .ok released_early_example := rfl
  have haddr : 0x200000 + PAGE_SIZE = 0x201000 := rfl
  obtain ⟨s', hlast⟩ := @release_pte_returns example_cpu example_directory
    0x201000 IsLastPTERelease.Yes released_early_example (by decide) rfl rfl
    (by decide) (Or.inr (Or.inr (by decide)))
  have hrun : release_run example_cpu example_directory 0x200000 1 written_example
      = .ok s' := by
    unfold release_run
    rw [hfirst, bind_ok_eq]
    unfold release_run
    rw [haddr]
    exact hlast
  obtain ⟨g1, -⟩ := @release_pte_present example_cpu example_directory
    0x201000 IsLastPTERelease.Yes released_early_example s' (by decide) rfl rfl rfl hlast
  have hall : table_all_null s' 0x100000 = true := by
    rw [table_all_null_iff]
    intro i _
    rw [g1]
    rcases i with _ | _ | i <;> rfl
  have h := bulk_teardown_clears_empty_tables example_cpu example_directory 0x200000 1
    written_example s' (by decide) rfl rfl
    (by
      intro x y _ _ hxy
      simp only [example_directory, PAGE_SIZE] at hxy
      omega)
    (by decide) (by decide)
    (by
      intro i j hi hj _ _ hns
      exfalso
      apply hns
      interval_cases i <;> interval_cases j <;> decide)
    hrun
  exact ⟨s', hrun, h.1, hall, h.2 0 (by decide) rfl hall⟩

/-! ## The array of physical page entries: the round trip -/

/-- C30: for every physical address `pa` (a 64-bit value) whose page index is
below `m_physical_page_entries_count`, `get_physical_page_entry(pa)` returns
the entry with index `pa / PAGE_SIZE`, and `get_physical_address` of the
physical page in that entry returns `pa` rounded down to a page boundary;
each of the two functions fails fatally exactly when the index is not below
`m_physical_page_entries_count`. -/
theorem physical_page_entry_round_trip (pa : Nat) (s : MemoryManager) (hpa : pa < 2 ^ 64) :
    (pa / PAGE_SIZE < s.physical_page_entries_count →
      get_physical_page_entry pa s = .ok (pa / PAGE_SIZE) ∧
      get_physical_address (pa / PAGE_SIZE) s = .ok (pa - pa % PAGE_SIZE) ∧
      (pa - pa % PAGE_SIZE) % PAGE_SIZE = 0 ∧ pa - pa % PAGE_SIZE ≤ pa ∧
      pa < pa - pa % PAGE_SIZE + PAGE_SIZE) ∧
    (get_physical_page_entry pa s = .fatal ↔
      ¬ pa / PAGE_SIZE < s.physical_page_entries_count) ∧
    (∀ index, get_physical_address index s = .fatal ↔
      ¬ index < s.physical_page_entries_count) := by
  have hP : PAGE_SIZE = 4096 := rfl
  refine ⟨?_, ?_, ?_⟩
  · intro h
    refine ⟨?_, ?_, ?_, ?_, ?_⟩
    · unfold get_physical_page_entry
      simp only
      exact if_pos h
    · unfold get_physical_address
      rw [if_pos h]
      congr 1
      rw [hP]
      omega
    · rw [hP]; omega
    · omega
    · rw [hP]; omega
  · unfold get_physical_page_entry
    simp only
    by_cases h : pa / PAGE_SIZE < s.physical_page_entries_count
    · rw [if_pos h]
      simp [h]
    · rw [if_neg h]
      simp [h]
  · intro index
    unfold get_physical_address
    by_cases h : index < s.physical_page_entries_count
    · rw [if_pos h]
      simp [h]
    · rw [if_neg h]
      simp [h]

theorem physical_page_entry_round_trip_witness :
    (0x100abc : Nat) < 2 ^ 64 ∧ 0x100abc / PAGE_SIZE < boot_state.physical_page_entries_count ∧
    get_physical_page_entry 0x100abc boot_state = .ok 256 ∧
    get_physical_address 256 boot_state = .ok 0x100000 ∧
    get_physical_page_entry 0x400000 boot_state = .fatal :=
  ⟨by decide, by decide,
    ((physical_page_entry_round_trip 0x100abc boot_state (by decide)).1 (by decide)).1,
    ((physical_page_entry_round_trip 0x100abc boot_state (by decide)).1 (by decide)).2.1,
    (physical_page_entry_round_trip 0x400000 boot_state (by decide)).2.1.2 (by decide)⟩

/-! ## The guard of the general quickmap window -/

/-- C21: the in-use guard of the quickmap window, for a caller that has the
interrupts disabled.  With the guard free, `quickmap_page` returns and holds
the guard; `unquickmap_page` then returns, releases the guard and leaves the
entry of the slot cleared; the guards of the other processors are not
touched.  With the guard free, `unquickmap_page` is a fatal error.  With the
guard held, `quickmap_page` on the same processor spins on the lock: it
returns no mapping. -/
theorem quickmap_guard (cpu : Processor) (P : Nat) (s : MemoryManager)
    (hi : s.interrupts_disabled = true) :
    (s.quickmap_in_use cpu.current_id = false →
      unquickmap_page cpu s = .fatal ∧
      ∃ vaddr s1 s2, quickmap_page cpu P s = .ok (vaddr, s1) ∧
        s1.quickmap_in_use cpu.current_id = true ∧
        (∀ Q, quickmap_page cpu Q s1 = .deadlock) ∧
        unquickmap_page cpu s1 = .ok s2 ∧
        s2.quickmap_in_use cpu.current_id = false ∧
        s2.boot_pd_kernel_pt1023 (quickmap_slot cpu) = PageEntry.null ∧
        (∀ other, other ≠ cpu.current_id →
          s1.quickmap_in_use other = s.quickmap_in_use other ∧
          s2.quickmap_in_use other = s.quickmap_in_use other) ∧
        unquickmap_page cpu s2 = .fatal) ∧
    (s.quickmap_in_use cpu.current_id = true →
      quickmap_page cpu P s = .deadlock ∧
      ∀ r, quickmap_page cpu P s ≠ .ok r) := by
  refine ⟨?_, ?_⟩
  · intro hq
    refine ⟨?_, ?_⟩
    · unfold unquickmap_page
      simp [hi, hq]
    · have h1 : quickmap_page cpu P s
          = .ok (cpu.layout.KERNEL_QUICKMAP_PER_CPU_BASE + cpu.current_id * PAGE_SIZE,
              { s with
                quickmap_in_use := Function.update s.quickmap_in_use cpu.current_id true
                boot_pd_kernel_pt1023 :=
                  Function.update s.boot_pd_kernel_pt1023 (quickmap_slot cpu)
                    (retarget_slot (s.boot_pd_kernel_pt1023 (quickmap_slot cpu)) P) }) := by
        unfold quickmap_page
        simp [hi, hq]
      have h2 : unquickmap_page cpu
          { s with
            quickmap_in_use := Function.update s.quickmap_in_use cpu.current_id true
            boot_pd_kernel_pt1023 :=
              Function.update s.boot_pd_kernel_pt1023 (quickmap_slot cpu)
                (retarget_slot (s.boot_pd_kernel_pt1023 (quickmap_slot cpu)) P) }
          = .ok { s with
              quickmap_in_use := Function.update s.quickmap_in_use cpu.current_id false
              boot_pd_kernel_pt1023 :=
                Function.update s.boot_pd_kernel_pt1023 (quickmap_slot cpu) PageEntry.null } := by
        unfold unquickmap_page
        simp [hi, PageEntry.clear]
      refine ⟨_, _, _, h1, by simp, ?_, h2, by simp, by simp, ?_, ?_⟩
      · intro Q
        unfold quickmap_page
        simp [hi]
      · intro other hne
        simp [Function.update_noteq hne]
      · unfold unquickmap_page
        simp [hi]
  · intro hq
    have h : quickmap_page cpu P s = .deadlock := by
      unfold quickmap_page
      simp [hi, hq]
    refine ⟨h, ?_⟩
    intro r hr
    rw [h] at hr
    cases hr

theorem quickmap_guard_witness :
    boot_state.interrupts_disabled = true ∧
    boot_state.quickmap_in_use example_cpu.current_id = false ∧
    unquickmap_page example_cpu boot_state = .fatal ∧
    ∃ vaddr s1 s2, quickmap_page example_cpu 0x100000 boot_state = .ok (vaddr, s1) ∧
      s1.quickmap_in_use example_cpu.current_id = true ∧
      (∀ Q, quickmap_page example_cpu Q s1 = .deadlock) ∧
      unquickmap_page example_cpu s1 = .ok s2 ∧
      s2.quickmap_in_use example_cpu.current_id = false ∧
      s2.boot_pd_kernel_pt1023 (quickmap_slot example_cpu) = PageEntry.null :=
  ⟨rfl, rfl, ((quickmap_guard example_cpu 0x100000 boot_state rfl).1 rfl).1,
    ((quickmap_guard example_cpu 0x100000 boot_state rfl).1 rfl).2.imp fun _ h1 =>
      h1.imp fun _ h2 => h2.imp fun _ h =>
        ⟨h.1, h.2.1, h.2.2.1, h.2.2.2.1, h.2.2.2.2.1, h.2.2.2.2.2.1⟩⟩

/-! ## Rounding up to a page -/

theorem and_page_mask (y : Nat) (hy : y < 2 ^ 64) :
    y &&& 0xfffffffffffff000 = y / 4096 * 4096 := by
  have hM : (0xfffffffffffff000 : Nat) = (2 ^ 52 - 1) <<< 12 := by decide
  have hR : y / 4096 * 4096 = (y >>> 12) <<< 12 := by
    rw [Nat.shiftLeft_eq, Nat.shiftRight_eq_div_pow]
  rw [hM, hR]
  apply Nat.eq_of_testBit_eq
  intro j
  simp only [Nat.testBit_and, Nat.testBit_shiftLeft, Nat.testBit_shiftRight,
    Nat.testBit_two_pow_sub_one]
  by_cases hj : j ≥ 12
  · have h12 : 12 + (j - 12) = j := by omega
    rw [h12]
    by_cases h64 : j < 64
    · have : j - 12 < 52 := by omega
      simp [hj, this]
    · have hlt : y < 2 ^ j := lt_of_lt_of_le hy (Nat.pow_le_pow_right (by decide) (by omega))
      simp [Nat.testBit_lt_two_pow hlt]
  · simp [hj]

theorem page_round_up_eq (x : Nat) (h : x ≤ 0xfffffffffffff000) :
    page_round_up x = .ok ((x + 4095) / 4096 * 4096) := by
  unfold page_round_up
  rw [if_neg (by omega)]
  have hP : PAGE_SIZE = 4096 := rfl
  rw [hP]
  have : x + 4096 - 1 = x + 4095 := by omega
  rw [this, and_page_mask _ (by omega)]

/-- C24: for every `x <= 0xFFFFFFFFFFFFF000`, `page_round_up(x)` returns the
least multiple of `PAGE_SIZE` that is `>= x`, without wrap-around: the result
is below 2^64, `>= x`, less than a page above `x`, and `x` itself when `x` is
aligned.  For every larger `x` it returns `EINVAL`. -/
theorem page_round_up_contract (x : Nat) :
    (x ≤ 0xfffffffffffff000 →
      ∃ r, page_round_up x = .ok r ∧ r % PAGE_SIZE = 0 ∧ x ≤ r ∧ r - x < PAGE_SIZE ∧
        r < 2 ^ 64 ∧ (∀ m, m % PAGE_SIZE = 0 → x ≤ m → r ≤ m) ∧
        (x % PAGE_SIZE = 0 → r = x)) ∧
    (0xfffffffffffff000 < x → page_round_up x = .error .EINVAL) := by
  have hP : PAGE_SIZE = 4096 := rfl
  refine ⟨?_, ?_⟩
  · intro h
    refine ⟨(x + 4095) / 4096 * 4096, page_round_up_eq x h, ?_, ?_, ?_, ?_, ?_, ?_⟩
    · rw [hP]; omega
    · omega
    · rw [hP]; omega
    · omega
    · intro m hm hxm
      rw [hP] at hm
      omega
    · intro hx
      rw [hP] at hx
      omega
  · intro h
    unfold page_round_up
    rw [if_pos h]

/-! ## Sizing of the array of physical page entries -/

theorem foldl_max_spec {α : Type} (f : α → Nat) (l : List α) (init : Nat) :
    init ≤ l.foldl (fun highest r => if f r > highest then f r else highest) init ∧
    (∀ r ∈ l, f r ≤ l.foldl (fun highest r => if f r > highest then f r else highest) init) ∧
    (l.foldl (fun highest r => if f r > highest then f r else highest) init = init ∨
      ∃ r ∈ l, f r = l.foldl (fun highest r => if f r > highest then f r else highest) init) := by
  induction l generalizing init with
  | nil => simp
  | cons a t ih =>
    simp only [List.foldl_cons]
    by_cases hc : f a > init
    · simp only [if_pos hc]
      obtain ⟨h1, h2, h3⟩ := ih (f a)
      refine ⟨by omega, ?_, ?_⟩
      · intro r hr
        rcases List.mem_cons.1 hr with h | h
        · subst h
          exact h1
        · exact h2 r h
      · rcases h3 with h | ⟨r, hr, h⟩
        · exact Or.inr ⟨a, List.mem_cons_self _ _, h.symm⟩
        · exact Or.inr ⟨r, List.mem_cons_of_mem _ hr, h⟩
    · simp only [if_neg hc]
      obtain ⟨h1, h2, h3⟩ := ih init
      refine ⟨h1, ?_, ?_⟩
      · intro r hr
        rcases List.mem_cons.1 hr with h | h
        · subst h
          omega
        · exact h2 r h
      · rcases h3 with h | ⟨r, hr, h⟩
        · exact Or.inl h
        · exact Or.inr ⟨r, List.mem_cons_of_mem _ hr, h⟩

/-- The highest physical address is the maximum of the ends of the used
memory ranges and of the physical memory ranges (0 when there is none). -/
theorem highest_physical_address_spec (g : GlobalData) :
    (∀ r ∈ g.used_memory_ranges, r.range_end ≤ highest_physical_address g) ∧
    (∀ r ∈ g.physical_memory_ranges,
      wrapping_add r.start r.length ≤ highest_physical_address g) ∧
    (highest_physical_address g = 0 ∨
      (∃ r ∈ g.used_memory_ranges, r.range_end = highest_physical_address g) ∨
      ∃ r ∈ g.physical_memory_ranges,
        wrapping_add r.start r.length = highest_physical_address g) := by
  unfold highest_physical_address
  obtain ⟨a1, a2, a3⟩ := foldl_max_spec (fun r : UsedMemoryRange => r.range_end)
    g.used_memory_ranges 0
  obtain ⟨b1, b2, b3⟩ := foldl_max_spec
    (fun r : PhysicalMemoryRange => wrapping_add r.start r.length) g.physical_memory_ranges
    (g.used_memory_ranges.foldl
      (fun highest range => if range.range_end > highest then range.range_end else highest) 0)
  refine ⟨?_, b2, ?_⟩
  · intro r hr
    exact Nat.le_trans (a2 r hr) b1
  · rcases b3 with h | h
    · rcases a3 with h' | ⟨r, hr, h'⟩
      · exact Or.inl (h.trans h')
      · exact Or.inr (Or.inl ⟨r, hr, h'.trans h.symm⟩)
    · exact Or.inr (Or.inr h)

theorem highest_physical_address_lt (g : GlobalData)
    (hends : ∀ r ∈ g.used_memory_ranges, r.range_end < 2 ^ 64) :
    highest_physical_address g < 2 ^ 64 := by
  rcases (highest_physical_address_spec g).2.2 with h | ⟨r, hr, h⟩ | ⟨r, _, h⟩
  · rw [h]; decide
  · rw [← h]; exact hends r hr
  · rw [← h]
    unfold wrapping_add
    exact Nat.mod_lt _ (by decide)

theorem find_region_index_least {n : Nat} {rs : List PhysicalRegion} {i : Nat}
    (h : find_region_index n rs = some i) :
    ∀ j r, j < i → rs.get? j = some r → r.size < n := by
  induction rs generalizing i with
  | nil => simp [find_region_index] at h
  | cons a t ih =>
    unfold find_region_index at h
    split at h
    · cases h
      intro j r hj
      omega
    · rename_i hsize
      cases hf : find_region_index n t with
      | none => simp [hf] at h
      | some k =>
        rw [hf] at h
        simp only [Option.map_some', Option.some.injEq] at h
        subst h
        intro j r hj hget
        cases j with
        | zero =>
          simp only [List.get?_cons_zero, Option.some.injEq] at hget
          subst hget
          omega
        | succ j =>
          simp only [List.get?_cons_succ] at hget
          exact ih hf j r (by omega) hget

theorem find_region_index_none {n : Nat} {rs : List PhysicalRegion}
    (h : ∀ r ∈ rs, r.size < n) : find_region_index n rs = none := by
  induction rs with
  | nil => rfl
  | cons a t ih =>
    unfold find_region_index
    rw [if_neg (by have := h a (List.mem_cons_self _ _); omega),
      ih fun r hr => h r (List.mem_cons_of_mem _ hr)]
    rfl

theorem page_round_up_pages {n rounded : Nat} (h : page_round_up n = .ok rounded) :
    rounded / PAGE_SIZE = ceil_div n PAGE_SIZE := by
  have hle : n ≤ 0xfffffffffffff000 := by
    by_contra hc
    unfold page_round_up at h
    rw [if_pos (by omega)] at h
    cases h
  rw [page_round_up_eq n hle] at h
  cases h
  unfold ceil_div PAGE_SIZE
  split <;> omega

/-- C23: the sizing of the array of physical page entries, for used memory
ranges that end below 2^64 and a count of physical pages below 2^64.  `H`,
`highest_physical_address`, is the maximum over the ends of all used ranges
and of all physical memory ranges (0 if there is none).  The number of page
tables `(array_pages + 511) / 512` is the least `k` with `512 * k >=
array_pages`.  When `initialize_physical_pages` returns, the number of
entries is `page_index(H) + 1`; the region it took the pages from is the
lowest-indexed physical region whose size is `>= array_pages + k`, where
`array_pages = ceil(entries_count * sizeof(PhysicalPageEntry) / PAGE_SIZE)`;
the pages taken are the first `array_pages + k` pages of that region; and
`physical_pages` is reduced by exactly `array_pages + k`.  When no region is
that large, it halts. -/
theorem initialize_physical_pages_sizing (boot : BootInfo) (g0 : GlobalData)
    (hends : ∀ r ∈ g0.used_memory_ranges, r.range_end < 2 ^ 64)
    (hpp : g0.system_memory_info.physical_pages < 2 ^ 64) :
    ((∀ r ∈ g0.used_memory_ranges, r.range_end ≤ highest_physical_address g0) ∧
      (∀ r ∈ g0.physical_memory_ranges,
        wrapping_add r.start r.length ≤ highest_physical_address g0) ∧
      (highest_physical_address g0 = 0 ∨
        (∃ r ∈ g0.used_memory_ranges, r.range_end = highest_physical_address g0) ∨
        ∃ r ∈ g0.physical_memory_ranges,
          wrapping_add r.start r.length = highest_physical_address g0)) ∧
    (∀ pages, pages ≤ 512 * ((pages + 512 - 1) / 512) ∧
      ∀ k, pages ≤ 512 * k → (pages + 512 - 1) / 512 ≤ k) ∧
    (∀ g, initialize_physical_pages boot g0 = .ok g →
      g.m_physical_page_entries_count = highest_physical_address g0 / PAGE_SIZE + 1 ∧
      ∃ i found taken,
        g0.physical_regions.get? i = some found ∧
        (∀ j r, j < i → g0.physical_regions.get? j = some r →
          r.size < frame_array_pages_and_page_tables (highest_physical_address g0)
            boot.sizeof_PhysicalPageEntry) ∧
        frame_array_pages_and_page_tables (highest_physical_address g0)
          boot.sizeof_PhysicalPageEntry ≤ found.size ∧
        g.physical_pages_region = some taken ∧ taken.lower = found.lower ∧
        taken.size = frame_array_pages_and_page_tables (highest_physical_address g0)
          boot.sizeof_PhysicalPageEntry ∧
        frame_array_pages_and_page_tables (highest_physical_address g0)
          boot.sizeof_PhysicalPageEntry ≤ g0.system_memory_info.physical_pages ∧
        g.system_memory_info.physical_pages =
          g0.system_memory_info.physical_pages
            - frame_array_pages_and_page_tables (highest_physical_address g0)
                boot.sizeof_PhysicalPageEntry) ∧
    ((∀ r ∈ g0.physical_regions,
        r.size < frame_array_pages_and_page_tables (highest_physical_address g0)
          boot.sizeof_PhysicalPageEntry) →
      initialize_physical_pages boot g0 = .fatal) := by
  have hH := highest_physical_address_lt g0 hends
  have hcount : wrapping_add (highest_physical_address g0 / PAGE_SIZE) 1
      = highest_physical_address g0 / PAGE_SIZE + 1 := by
    apply wrapping_add_eq
    unfold PAGE_SIZE
    omega
  refine ⟨highest_physical_address_spec g0, ?_, ?_, ?_⟩
  · intro pages
    refine ⟨by omega, ?_⟩
    intro k hk
    omega
  · intro g h
    unfold initialize_physical_pages at h
    simp only [hcount] at h
    split at h
    · cases h
    split at h
    · cases h
    split at h
    · cases h
    rename_i rounded hround
    have hpages := page_round_up_pages hround
    split at h
    · cases h
    split at h
    · cases h
    rename_i i hfind
    split at h
    · cases h
    rename_i found hget
    split at h
    · cases h
    rename_i hge
    obtain ⟨r, g1, g2, -⟩ := find_region_index_spec hfind
    rw [hget] at g1
    cases g1
    have hleast := find_region_index_least hfind
    cases hmap : boot.page_array_mapping_succeeds
    · simp [hmap] at h
    simp only [hmap, Bool.not_true, Bool.false_eq_true, if_false, Outcome.ok.injEq] at h
    subst h
    have hT : rounded / PAGE_SIZE + (rounded / PAGE_SIZE + 512 - 1) / 512
        = frame_array_pages_and_page_tables (highest_physical_address g0)
            boot.sizeof_PhysicalPageEntry := by
      unfold frame_array_pages_and_page_tables frame_array_pages
      rw [hpages]
    rw [hT] at hleast g2 hge
    refine ⟨rfl, i, found, _, hget, hleast, g2, rfl, ?_, ?_, by omega, ?_⟩
    · split <;> rfl
    · rw [hT]
      split
      · rename_i hs
        exact hs
      · show (List.take _ found.frames).length = _
        rw [List.length_take]
        unfold PhysicalRegion.size at g2
        omega
    · show wrapping_sub _ _ = _
      rw [hT, wrapping_sub_eq (by omega) hpp]
  · intro hnone
    unfold initialize_physical_pages
    simp only [hcount]
    split
    · rfl
    split
    · rfl
    split
    · rfl
    rename_i rounded hround
    have hpages := page_round_up_pages hround
    split
    · rfl
    have hT : rounded / PAGE_SIZE + (rounded / PAGE_SIZE + 512 - 1) / 512
        = frame_array_pages_and_page_tables (highest_physical_address g0)
            boot.sizeof_PhysicalPageEntry := by
      unfold frame_array_pages_and_page_tables frame_array_pages
      rw [hpages]
    rw [hT, find_region_index_none hnone]

theorem initialize_physical_pages_sizing_witness :
    (∀ r ∈ example_boot_parsed.used_memory_ranges, r.range_end < 2 ^ 64) ∧
    example_boot_parsed.system_memory_info.physical_pages < 2 ^ 64 ∧
    highest_physical_address example_boot_parsed = 0x1000000 ∧
    frame_array_pages_and_page_tables 0x1000000 example_boot.sizeof_PhysicalPageEntry = 10 ∧
    ∃ g, initialize_physical_pages example_boot example_boot_parsed = .ok g ∧
      g.m_physical_page_entries_count = 4097 ∧
      g.system_memory_info.physical_pages = 3317 :=
  ⟨by decide, by decide, rfl, by decide, _, example_boot_initialized,
    ((initialize_physical_pages_sizing example_boot example_boot_parsed (by decide)
      (by decide)).2.2.1 _ example_boot_initialized).1, rfl⟩

/-! ## Validation of a syscall -/

theorem validate_user_stack_iff (env : SyscallEnvironment) :
    validate_user_stack env env.userspace_sp = true ↔ stack_pointer_valid env := by
  unfold validate_user_stack stack_pointer_valid find_user_region_from_vaddr
  cases hu : env.is_user_address env.userspace_sp
  · simp
  · cases hr : env.space.find_region_containing env.userspace_sp 1 with
    | none => simp
    | some region => simp

/-- C28: `validate_syscall_preconditions` calls `handle_crash`, always with
`SIGSEGV`, if and only if at least one of these holds: the userspace stack
pointer is not a user address inside a user stack region; the instruction
pointer lies in no region; the region of the instruction pointer is writable;
the address space enforces syscall regions and that region is not a syscall
region.  The description is that of the first of these checks that fails, in
this order; when none fails, `handle_crash` is not called. -/
theorem validate_syscall_preconditions_contract (env : SyscallEnvironment) :
    ((validate_syscall_preconditions env).isSome = true ↔
      (¬ stack_pointer_valid env ∨
        env.space.find_region_containing env.ip 1 = none ∨
        (∃ region, env.space.find_region_containing env.ip 1 = some region ∧
          env.is_writable region = true) ∨
        (env.enforces_syscall_regions = true ∧
          ∃ region, env.space.find_region_containing env.ip 1 = some region ∧
            env.is_syscall_region region = false))) ∧
    (∀ description signal, validate_syscall_preconditions env = some (description, signal) →
      signal = SIGSEGV) ∧
    (¬ stack_pointer_valid env →
      validate_syscall_preconditions env = some ("Bad stack on syscall entry", SIGSEGV)) ∧
    (stack_pointer_valid env → env.space.find_region_containing env.ip 1 = none →
      validate_syscall_preconditions env = some ("Syscall from unknown region", SIGSEGV)) ∧
    (∀ region, stack_pointer_valid env →
      env.space.find_region_containing env.ip 1 = some region →
      (env.is_writable region = true →
        validate_syscall_preconditions env
          = some ("Syscall from writable memory", SIGSEGV)) ∧
      (env.is_writable region = false → env.enforces_syscall_regions = true →
        env.is_syscall_region region = false →
        validate_syscall_preconditions env
          = some ("Syscall from non-syscall region", SIGSEGV)) ∧
      (env.is_writable region = false →
        (env.enforces_syscall_regions = false ∨ env.is_syscall_region region = true) →
        validate_syscall_preconditions env = none)) := by
  have hstack := validate_user_stack_iff env
  unfold validate_syscall_preconditions find_user_region_from_vaddr
  by_cases hv : stack_pointer_valid env
  · have hvs : validate_user_stack env env.userspace_sp = true := hstack.2 hv
    simp only [hvs, Bool.not_true, Bool.false_eq_true, if_false]
    cases hr : env.space.find_region_containing env.ip 1 with
    | none => simp [hv]
    | some region =>
      cases hw : env.is_writable region <;> cases he : env.enforces_syscall_regions <;>
        cases hs : env.is_syscall_region region <;> simp [hv, hw, he, hs]
  · have hvs : validate_user_stack env env.userspace_sp = false := by
      cases h : validate_user_stack env env.userspace_sp
      · rfl
      · exact absurd (hstack.1 h) hv
    simp only [hvs, Bool.not_false, if_true]
    simp [hv]

/-! ## Reads of physical memory by userspace -/

theorem read_allowed_by_ranges_iff (start_address end_address : Nat)
    (ranges : List ContiguousReservedMemoryRange) :
    read_allowed_by_ranges start_address end_address ranges = true ↔
      ∃ r ∈ ranges, r.start ≤ start_address ∧ end_address ≤ wrapping_add r.start r.length := by
  induction ranges with
  | nil => simp [read_allowed_by_ranges]
  | cons a t ih =>
    unfold read_allowed_by_ranges
    by_cases h1 : a.start > start_address
    · rw [if_pos h1, ih]
      constructor
      · rintro ⟨r, hr, h⟩
        exact ⟨r, List.mem_cons_of_mem _ hr, h⟩
      · rintro ⟨r, hr, h⟩
        rcases List.mem_cons.1 hr with rfl | hr
        · omega
        · exact ⟨r, hr, h⟩
    · rw [if_neg h1]
      by_cases h2 : wrapping_add a.start a.length < end_address
      · rw [if_pos h2, ih]
        constructor
        · rintro ⟨r, hr, h⟩
          exact ⟨r, List.mem_cons_of_mem _ hr, h⟩
        · rintro ⟨r, hr, h⟩
          rcases List.mem_cons.1 hr with rfl | hr
          · omega
          · exact ⟨r, hr, h⟩
      · rw [if_neg h2]
        simp only [true_iff]
        exact ⟨a, List.mem_cons_self _ _, by omega, by omega⟩

/-- For reserved ranges that end below 2^64 the test is the containment in
one range: the result is true if and only if `start + len` does not overflow
and a single contiguous reserved range `r` satisfies `r.start <= start` and
`start + len <= r.start + r.length`.  For any ranges, a read that has a byte
outside every contiguous reserved range is denied. -/
theorem read_allowed_below_top (ranges : List ContiguousReservedMemoryRange)
    (start len : Nat) :
    ((∀ r ∈ ranges, r.start + r.length < 2 ^ 64) →
      (is_allowed_to_read_physical_memory_for_userspace ranges start len = true ↔
        start + len < 2 ^ 64 ∧
        ∃ r ∈ ranges, r.start ≤ start ∧ start + len ≤ r.start + r.length)) ∧
    (is_allowed_to_read_physical_memory_for_userspace ranges start len = true →
      start + len < 2 ^ 64 ∧
      ∃ r ∈ ranges, r.start ≤ start ∧ start + len ≤ r.start + r.length) ∧
    (∀ byte, start ≤ byte → byte < start + len →
      (∀ r ∈ ranges, ¬ (r.start ≤ byte ∧ byte < r.start + r.length)) →
      is_allowed_to_read_physical_memory_for_userspace ranges start len = false) := by
  have himp : is_allowed_to_read_physical_memory_for_userspace ranges start len = true →
      start + len < 2 ^ 64 ∧
      ∃ r ∈ ranges, r.start ≤ start ∧ start + len ≤ r.start + r.length := by
    unfold is_allowed_to_read_physical_memory_for_userspace
    by_cases ho : start + len ≥ 2 ^ 64
    · rw [if_pos ho]
      intro h
      cases h
    · rw [if_neg ho, read_allowed_by_ranges_iff, wrapping_add_eq (by omega)]
      rintro ⟨r, hr, h1, h2⟩
      refine ⟨by omega, r, hr, h1, ?_⟩
      have : wrapping_add r.start r.length ≤ r.start + r.length := by
        unfold wrapping_add
        exact Nat.mod_le _ _
      omega
  refine ⟨?_, himp, ?_⟩
  · intro hranges
    refine ⟨himp, ?_⟩
    rintro ⟨hlt, r, hr, h1, h2⟩
    unfold is_allowed_to_read_physical_memory_for_userspace
    rw [if_neg (by omega), read_allowed_by_ranges_iff, wrapping_add_eq hlt]
    exact ⟨r, hr, h1, by rw [wrapping_add_eq (hranges r hr)]; exact h2⟩
  · intro byte hb1 hb2 hout
    cases hres : is_allowed_to_read_physical_memory_for_userspace ranges start len
    · rfl
    · obtain ⟨-, r, hr, h1, h2⟩ := himp hres
      exact absurd ⟨by omega, by omega⟩ (hout r hr)

/-- C25 fails for a contiguous reserved range that ends at 2^64.  The sorted
memory map of a Usable record and a last Reserved record
`[0xfffffffffffff000, 2^64)` makes `register_reserved_ranges` register the
range `{0xfffffffffffff000, 0x1000}`.  The read of `0x800` bytes at
`0xfffffffffffff000` does not overflow and lies in that range, yet
`is_allowed_to_read_physical_memory_for_userspace` denies it: the end of the
range, `current_range.start.offset(current_range.length)`, wraps around to 0
and compares below the end of the read. -/
theorem read_inside_top_reserved_range_denied :
    register_reserved_ranges
      [{ type := .Usable, start := 0x100000, length := 0xf00000 },
       { type := .Reserved, start := 0xfffffffffffff000, length := 0x1000 }]
      = .ok [{ start := 0xfffffffffffff000, length := 0x1000 }] ∧
    (0xfffffffffffff000 + 0x800 < 2 ^ 64 ∧
      ∃ r ∈ [({ start := 0xfffffffffffff000, length := 0x1000 } :
          ContiguousReservedMemoryRange)],
        r.start ≤ 0xfffffffffffff000 ∧ 0xfffffffffffff000 + 0x800 ≤ r.start + r.length) ∧
    is_allowed_to_read_physical_memory_for_userspace
      [{ start := 0xfffffffffffff000, length := 0x1000 }] 0xfffffffffffff000 0x800 = false ∧
    wrapping_add 0xfffffffffffff000 0x1000 = 0 :=
  ⟨rfl, ⟨by decide, _, List.mem_singleton.2 rfl, by decide, by decide⟩, by decide, by decide⟩

/-! ## The contiguous reserved ranges -/

/-- C26 fails for a memory map whose first record is a Reserved record at the
physical address 0: `register_reserved_ranges` keeps the start of the current
run in `range.start` and takes it for "no run" when it is null.  With the
sorted map of a Reserved record `[0, 0x1000)` and a Usable record from
`0x1000`, no contiguous reserved range is registered, so the Reserved range
is contained in none; with two Reserved records `[0, 0x1000)` and
`[0x1000, 0x2000)` before the Usable one, the entry of the run starts at
`0x1000`, not at the first start address of the run. -/
theorem register_reserved_ranges_misses_address_zero :
    register_reserved_ranges
      [{ type := .Reserved, start := 0, length := 0x1000 },
       { type := .Usable, start := 0x1000, length := 0x9f000 }] = .ok [] ∧
    register_reserved_ranges
      [{ type := .Reserved, start := 0, length := 0x1000 },
       { type := .Reserved, start := 0x1000, length := 0x1000 },
       { type := .Usable, start := 0x2000, length := 0x9e000 }]
      = .ok [{ start := 0x1000, length := 0x1000 }] ∧
    register_reserved_ranges
      [{ type := .Usable, start := 0, length := 0x9f000 },
       { type := .Reserved, start := 0x9f000, length := 0x1000 },
       { type := .Reserved, start := 0xa0000, length := 0x60000 },
       { type := .Usable, start := 0x100000, length := 0xf00000 }]
      = .ok [{ start := 0x9f000, length := 0x61000 }] :=
  ⟨rfl, rfl, rfl⟩

/-! ## The page tables that map the array of physical page entries -/

/-- The entry with index `j` of a run of hand-built entries targets the page
`j` pages above the first one. -/
theorem hand_built_entries_get (current count j : Nat) (h : j < count) :
    (hand_built_entries current count).get? j =
      some { present := true, writable := true, user_allowed := false,
             execute_disabled := false, global := true,
             physical_page_base := current + j * PAGE_SIZE } := by
  induction count generalizing current j with
  | zero => omega
  | succ n ih =>
    cases j with
    | zero => simp [hand_built_entries]
    | succ j =>
      simp only [hand_built_entries, List.get?_cons_succ]
      rw [ih (current + PAGE_SIZE) j (by omega), run_address]

/-- C29 fails on the scenario of one usable range `[0, 16 MiB)` with the
kernel image at `[1 MiB, 3 MiB)`: the array takes 9 pages and one page table,
the stolen region is `[0x301000, 0x30b000)`, and the inner loop fills all 512
entries of the page table.  The entries 0 to 8 target the pages of the array;
the entry 9 is present and targets the frame at `0x30b000`, which is not below
`page_tables_base + (needed_page_table_count + physical_page_array_pages) *
PAGE_SIZE`: it is the first frame of the region that remains allocatable. -/
theorem hand_built_entry_maps_allocatable_frame :
    parse_memory_map example_boot = .ok example_boot_result ∧
    example_boot_result.physical_pages_region
      = some { lower := 0x301000, frames := List.replicate 10 true } ∧
    example_boot_result.physical_regions
      = [{ lower := 0x30b000, frames := List.replicate 3317 true }] ∧
    page_round_up (example_boot_result.m_physical_page_entries_count
      * example_boot.sizeof_PhysicalPageEntry) = .ok (9 * PAGE_SIZE) ∧
    physical_page_array_page_tables example_boot example_boot_result
      = [(0x301000, hand_built_entries 0x302000 512)] ∧
    (hand_built_entries 0x302000 512).get? 8 =
      some { present := true, writable := true, user_allowed := false,
             execute_disabled := false, global := true, physical_page_base := 0x30a000 } ∧
    (hand_built_entries 0x302000 512).get? 9 =
      some { present := true, writable := true, user_allowed := false,
             execute_disabled := false, global := true, physical_page_base := 0x30b000 } ∧
    ¬ (0x30b000 < 0x301000 + (1 + 9) * PAGE_SIZE) :=
  ⟨parse_memory_map_example, rfl, rfl, rfl, rfl,
    hand_built_entries_get 0x302000 512 8 (by decide),
    hand_built_entries_get 0x302000 512 9 (by decide), by decide⟩

/-! ## The pages of a usable record of the memory map -/

theorem page_run_mod {a n p : Nat} (h : p ∈ page_run a n) :
    p % PAGE_SIZE = a % PAGE_SIZE := by
  induction n generalizing a with
  | zero => simp [page_run] at h
  | succ n ih =>
    simp only [page_run, List.mem_cons] at h
    rcases h with h | h
    · rw [h]
    · rw [ih h]
      unfold PAGE_SIZE
      omega

/-- The fix-up of a record, in numbers. -/
theorem fix_up_unaligned_spec (addr len : Nat) :
    ((fix_up_unaligned addr len).2 = 0 ∨ 4096 ≤ (fix_up_unaligned addr len).2) ∧
    (fix_up_unaligned addr len).2 % 4096 = 0 ∧
    ((addr % 4096 = 0 ∧ (fix_up_unaligned addr len).1 = addr ∧
        (fix_up_unaligned addr len).2 = len - len % 4096) ∨
      (addr % 4096 ≠ 0 ∧
        (fix_up_unaligned addr len).1 = (addr + (4096 - addr % 4096)) % 2 ^ 64 ∧
        ((4096 - addr % 4096 ≤ len % 2 ^ 64 ∧
            (fix_up_unaligned addr len).2 =
              (len % 2 ^ 64 - (4096 - addr % 4096))
                - (len % 2 ^ 64 - (4096 - addr % 4096)) % 4096) ∨
          (len % 2 ^ 64 < 4096 - addr % 4096 ∧
            (fix_up_unaligned addr len).2 =
              (len % 2 ^ 64 + 2 ^ 64 - (4096 - addr % 4096))
                - (len % 2 ^ 64 + 2 ^ 64 - (4096 - addr % 4096)) % 4096)))) := by
  by_cases hd : addr % 4096 = 0
  · have hv : fix_up_unaligned addr len = (addr, len - len % 4096) := by
      unfold fix_up_unaligned PAGE_SIZE
      simp only [hd, ne_eq, not_true_eq_false, if_false]
      congr 1
      split <;> omega
    rw [hv]
    refine ⟨by omega, by omega, Or.inl ⟨hd, rfl, rfl⟩⟩
  · have hmod : (4096 - addr % 4096) % 2 ^ 64 = 4096 - addr % 4096 :=
      Nat.mod_eq_of_lt (by omega)
    by_cases hl : 4096 - addr % 4096 ≤ len % 2 ^ 64
    · have hv : fix_up_unaligned addr len = ((addr + (4096 - addr % 4096)) % 2 ^ 64,
          (len % 2 ^ 64 - (4096 - addr % 4096))
            - (len % 2 ^ 64 - (4096 - addr % 4096)) % 4096) := by
        unfold fix_up_unaligned wrapping_add wrapping_sub PAGE_SIZE
        simp only [hd, ne_eq, not_false_eq_true, if_true, hmod, if_pos hl]
        congr 1
        split <;> omega
      rw [hv]
      refine ⟨by omega, by omega, Or.inr ⟨hd, rfl, Or.inl ⟨hl, rfl⟩⟩⟩
    · have hv : fix_up_unaligned addr len = ((addr + (4096 - addr % 4096)) % 2 ^ 64,
          (len % 2 ^ 64 + 2 ^ 64 - (4096 - addr % 4096))
            - (len % 2 ^ 64 + 2 ^ 64 - (4096 - addr % 4096)) % 4096) := by
        unfold fix_up_unaligned wrapping_add wrapping_sub PAGE_SIZE
        simp only [hd, ne_eq, not_false_eq_true, if_true, hmod, if_neg hl]
        congr 1
        split <;> omega
      rw [hv]
      refine ⟨by omega, by omega, Or.inr ⟨hd, rfl, Or.inr ⟨by omega, rfl⟩⟩⟩

/-- What the page loop yields when it ends: nothing, or the pages from
`address` to the last one that is not above `address + length`. -/
theorem page_bases_ok {address length : Nat} {pages : List Nat}
    (h : page_bases address length = .ok pages) :
    pages = [] ∨
    (address ≤ (address + length) % 2 ^ 64 ∧
      address + (((address + length) % 2 ^ 64 - address) / 4096 + 1) * 4096 < 2 ^ 64 ∧
      ∀ p ∈ pages, address ≤ p ∧ p ≤ (address + length) % 2 ^ 64 ∧
        p % PAGE_SIZE = address % PAGE_SIZE ∧ p + PAGE_SIZE < 2 ^ 64) := by
  unfold page_bases wrapping_add at h
  simp only at h
  split at h
  · cases h
    exact Or.inl rfl
  · rename_i hb
    split at h
    · cases h
    · rename_i hfit
      cases h
      have hfit' : address + (((address + length) % 2 ^ 64 - address) / 4096 + 1) * 4096
          < 2 ^ 64 := by
        unfold PAGE_SIZE at hfit
        omega
      refine Or.inr ⟨by omega, hfit', ?_⟩
      intro p hp
      obtain ⟨b1, b2⟩ := page_run_bounds hp
      refine ⟨b1, ?_, page_run_mod hp, ?_⟩
      · unfold PAGE_SIZE at b2
        have hc : ((address + length) % 2 ^ 64 - address) / 4096 * 4096
            ≤ (address + length) % 2 ^ 64 - address := Nat.div_mul_le_self _ _
        have hm : (((address + length) % 2 ^ 64 - address) / 4096 + 1) * 4096
            = ((address + length) % 2 ^ 64 - address) / 4096 * 4096 + 4096 := by ring
        omega
      · unfold PAGE_SIZE at b2 ⊢
        omega

/-- The pages of a usable record `[addr, addr + len)` that lies below 2^64:
none, or pages from the start of the record rounded up to a page up to its
end. -/
theorem usable_record_pages (addr len : Nat) (hrec : addr + len < 2 ^ 64) (pages : List Nat)
    (hp : page_bases (fix_up_unaligned addr len).1 (fix_up_unaligned addr len).2 = .ok pages) :
    pages = [] ∨
    ((fix_up_unaligned addr len).1 = (addr + 4095) / 4096 * 4096 ∧
      (fix_up_unaligned addr len).1 + (fix_up_unaligned addr len).2 ≤ addr + len ∧
      ∀ p ∈ pages, addr ≤ p ∧ p ≤ addr + len ∧ p % PAGE_SIZE = 0) := by
  obtain ⟨-, hl4, hspec⟩ := fix_up_unaligned_spec addr len
  rcases page_bases_ok hp with h | ⟨hb, hfit, hall⟩
  · exact Or.inl h
  · cases hf : fix_up_unaligned addr len with
    | mk a l =>
      rw [hf] at hl4 hspec hb hfit hall
      simp only at hl4 hspec hb hfit hall
      have hP : PAGE_SIZE = 4096 := rfl
      have hlen : len % 2 ^ 64 = len := Nat.mod_eq_of_lt (by omega)
      rw [hlen] at hspec
      rcases hspec with ⟨hd, ha, hl⟩ | ⟨hd, ha, ⟨hc, hl⟩ | ⟨hc, hl⟩⟩
      · -- aligned start
        have hsum : (a + l) % 2 ^ 64 = a + l := Nat.mod_eq_of_lt (by omega)
        rw [hsum] at hall
        refine Or.inr ⟨by omega, by omega, ?_⟩
        intro p hp'
        obtain ⟨p1, p2, p3, -⟩ := hall p hp'
        rw [hP] at p3 ⊢
        omega
      · -- unaligned start, the record reaches the next page boundary
        have ha' : a = addr + (4096 - addr % 4096) := by
          rw [ha]
          exact Nat.mod_eq_of_lt (by omega)
        have hsum : (a + l) % 2 ^ 64 = a + l := Nat.mod_eq_of_lt (by omega)
        rw [hsum] at hall
        refine Or.inr ⟨by omega, by omega, ?_⟩
        intro p hp'
        obtain ⟨p1, p2, p3, -⟩ := hall p hp'
        rw [hP] at p3 ⊢
        omega
      · -- unaligned start, the record ends before the next page boundary
        exfalso
        have hl' : l = 2 ^ 64 - 4096 := by
          rw [hl]
          omega
        by_cases hwrap : addr + (4096 - addr % 4096) < 2 ^ 64
        · have ha' : a = addr + (4096 - addr % 4096) := by
            rw [ha]
            exact Nat.mod_eq_of_lt hwrap
          have hsum : (a + l) % 2 ^ 64 = a - 4096 := by
            rw [hl']
            omega
          omega
        · have ha' : a = 0 := by
            rw [ha]
            omega
          rw [ha', hl'] at hfit
          norm_num at hfit

/-- C27: a usable record of the memory map that lies below 2^64.  Every page
that the page loop takes for it lies within `[address, address + length]` of
the record and is page-aligned; the contiguous ranges after the record are
the ranges before it with these pages added.  A record that contains no
complete page-aligned page (its start rounded up to a page boundary, plus
`PAGE_SIZE`, exceeds its end) contributes no page: the contiguous ranges stay
as they are. -/
theorem usable_record_contribution (used : List UsedMemoryRange)
    (acc result : List PhysicalMemoryRange × List ContiguousPhysicalVirtualRange)
    (mmap : MultibootMemoryMapEntry)
    (htype : mmap.type = MULTIBOOT_MEMORY_AVAILABLE)
    (hrec : mmap.addr + mmap.len < 2 ^ 64)
    (hres : parse_memory_map_entry used acc mmap = .ok result) :
    ∃ pages, result.2 = pages.foldl (add_page used) acc.2 ∧
      (∀ p ∈ pages, mmap.addr ≤ p ∧ p ≤ mmap.addr + mmap.len ∧ p % PAGE_SIZE = 0) ∧
      ((mmap.addr + PAGE_SIZE - 1) / PAGE_SIZE * PAGE_SIZE + PAGE_SIZE > mmap.addr + mmap.len →
        pages = [] ∧ result.2 = acc.2) := by
  unfold parse_memory_map_entry at hres
  simp only [htype, ne_eq, not_true_eq_false, if_false] at hres
  split at hres
  · cases hres
    exact ⟨[], rfl, by simp, fun _ => ⟨rfl, rfl⟩⟩
  · rename_i hlen
    obtain ⟨pages, hpb, hr⟩ := bind_eq_ok hres
    cases hr
    rcases usable_record_pages mmap.addr mmap.len hrec pages hpb with h | ⟨h1, h2, h3⟩
    · subst h
      exact ⟨[], rfl, by simp, fun _ => ⟨rfl, rfl⟩⟩
    · refine ⟨pages, rfl, h3, ?_⟩
      intro hnone
      exfalso
      unfold PAGE_SIZE at hnone hlen
      have : mmap.addr + 4096 - 1 = mmap.addr + 4095 := by omega
      rw [this] at hnone
      omega

theorem usable_record_contribution_witness :
    (1 : Nat) = MULTIBOOT_MEMORY_AVAILABLE ∧ (0x1001 : Nat) + 0x1800 < 2 ^ 64 ∧
    parse_memory_map_entry [] ([], []) { addr := 0x1001, len := 0x1800, type := 1 }
      = .ok ([{ type := .Usable, start := 0x1001, length := 0x1800 }], []) ∧
    parse_memory_map_entry [] ([], []) { addr := 0x1001, len := 0x2000, type := 1 }
      = .ok ([{ type := .Usable, start := 0x1001, length := 0x2000 }],
          [{ lower := 0x2000, upper := 0x3000 }]) ∧
    ∃ pages : List Nat,
      ([{ lower := 0x2000, upper := 0x3000 }] : List ContiguousPhysicalVirtualRange)
        = pages.foldl (add_page []) [] ∧
      ∀ p ∈ pages, 0x1001 ≤ p ∧ p ≤ 0x1001 + 0x2000 ∧ p % PAGE_SIZE = 0 :=
  ⟨rfl, by decide, rfl, rfl,
    (usable_record_contribution [] ([], [])
      ([{ type := .Usable, start := 0x1001, length := 0x2000 }],
        [{ lower := 0x2000, upper := 0x3000 }])
      { addr := 0x1001, len := 0x2000, type := 1 } rfl (by decide) rfl).imp
      fun _ h => ⟨h.1, h.2.1⟩⟩

/-! ## The pages of the contiguous physical ranges -/

theorem fix_up_unaligned_aligned (addr len : Nat) :
    (fix_up_unaligned addr len).1 % PAGE_SIZE = 0 := by
  obtain ⟨-, -, h⟩ := fix_up_unaligned_spec addr len
  unfold PAGE_SIZE
  rcases h with ⟨h1, h2, -⟩ | ⟨h1, h2, -⟩
  · rw [h2]; exact h1
  · rw [h2]; omega

/-- One round of the page loop keeps the contiguous ranges good. -/
theorem add_page_good {good : Nat → Prop} (used : List UsedMemoryRange)
    (ranges : List ContiguousPhysicalVirtualRange) (p : Nat)
    (hfit : ∀ q, good q → q + PAGE_SIZE < 2 ^ 64)
    (hg : ranges_good good ranges)
    (hp : in_used_memory_range used p = false → good p) :
    ranges_good good (add_page used ranges p) := by
  have hnew : ∀ rs, ranges_good good rs → good p →
      ranges_good good (rs ++ [{ lower := p, upper := p }]) := by
    intro rs hrs hgp r hr
    rcases List.mem_append.1 hr with h | h
    · exact hrs r h
    · rw [List.mem_singleton.1 h]
      refine ⟨⟨0, by simp⟩, ?_⟩
      intro i hi
      have hi0 : i = 0 := by
        unfold PAGE_SIZE at hi
        simp only at hi
        omega
      subst hi0
      simpa using hgp
  unfold add_page
  by_cases hu : in_used_memory_range used p = true
  · have hu' : (used.any fun used_range =>
        decide (p ≥ used_range.start) && decide (p ≤ used_range.range_end)) = true := hu
    rw [if_pos hu']
    exact hg
  · have hu' : ¬ (used.any fun used_range =>
        decide (p ≥ used_range.start) && decide (p ≤ used_range.range_end)) = true := hu
    rw [if_neg hu']
    have hgp : good p := hp (by simpa using hu)
    cases hlast : ranges.getLast? with
    | none => exact hnew ranges hg hgp
    | some last =>
      simp only
      by_cases hc : wrapping_add last.upper PAGE_SIZE ≠ p
      · rw [if_pos hc]
        exact hnew ranges hg hgp
      · rw [if_neg hc]
        have hmem := List.mem_of_getLast?_eq_some hlast
        obtain ⟨⟨k, hk⟩, hpages⟩ := hg last hmem
        have hup : good last.upper := by
          have := hpages k (by rw [hk])
          rw [← hk] at this
          exact this
        have hnext : last.upper + PAGE_SIZE = p := by
          have h1 : wrapping_add last.upper PAGE_SIZE = p := by
            by_contra h
            exact hc h
          rw [wrapping_add_eq (hfit _ hup)] at h1
          exact h1
        intro r hr
        rcases List.mem_append.1 hr with h | h
        · exact hg r (List.mem_of_mem_dropLast h)
        · rw [List.mem_singleton.1 h]
          refine ⟨⟨k + 1, ?_⟩, ?_⟩
          · show p = last.lower + (k + 1) * PAGE_SIZE
            rw [← hnext, hk]
            unfold PAGE_SIZE
            omega
          · intro i hi
            have hi' : last.lower + i * PAGE_SIZE ≤ p := hi
            show good (last.lower + i * PAGE_SIZE)
            by_cases hik : i ≤ k
            · apply hpages i
              rw [hk]
              unfold PAGE_SIZE
              omega
            · have hi1 : i = k + 1 := by
                rw [← hnext, hk] at hi'
                unfold PAGE_SIZE at hi'
                omega
              have : last.lower + i * PAGE_SIZE = p := by
                rw [← hnext, hk, hi1]
                unfold PAGE_SIZE
                omega
              rw [this]
              exact hgp

theorem add_pages_good {good : Nat → Prop} (used : List UsedMemoryRange)
    (hfit : ∀ q, good q → q + PAGE_SIZE < 2 ^ 64) (pages : List Nat) :
    ∀ ranges : List ContiguousPhysicalVirtualRange, ranges_good good ranges →
      (∀ p ∈ pages, in_used_memory_range used p = false → good p) →
      ranges_good good (pages.foldl (add_page used) ranges) := by
  induction pages with
  | nil => intro ranges hg _; exact hg
  | cons p ps ih =>
    intro ranges hg hp
    rw [List.foldl_cons]
    exact ih _ (add_page_good used ranges p hfit hg (hp p (List.mem_cons_self _ _)))
      fun q hq => hp q (List.mem_cons_of_mem _ hq)

/-- The loop over the memory map keeps the contiguous ranges good, for the
property of a page to be aligned, not to wrap around and to lie in no used
memory range. -/
theorem parse_memory_map_entries_good (used : List UsedMemoryRange) :
    ∀ (rest : List MultibootMemoryMapEntry)
      (acc parsed : List PhysicalMemoryRange × List ContiguousPhysicalVirtualRange),
      ranges_good (fun p => p % PAGE_SIZE = 0 ∧ p + PAGE_SIZE < 2 ^ 64 ∧
        in_used_memory_range used p = false) acc.2 →
      parse_memory_map_entries used rest acc = .ok parsed →
      ranges_good (fun p => p % PAGE_SIZE = 0 ∧ p + PAGE_SIZE < 2 ^ 64 ∧
        in_used_memory_range used p = false) parsed.2 := by
  intro rest
  induction rest with
  | nil =>
    intro acc parsed hg h
    unfold parse_memory_map_entries at h
    cases h
    exact hg
  | cons m rest ih =>
    intro acc parsed hg h
    unfold parse_memory_map_entries at h
    obtain ⟨acc', hentry, hrest⟩ := bind_eq_ok h
    refine ih acc' parsed ?_ hrest
    unfold parse_memory_map_entry at hentry
    simp only at hentry
    split at hentry
    · cases hentry
      exact hg
    · split at hentry
      · cases hentry
        exact hg
      · obtain ⟨pages, hpb, hr⟩ := bind_eq_ok hentry
        cases hr
        apply add_pages_good used (fun q hq => hq.2.1) pages acc.2 hg
        intro p hp hu
        rcases page_bases_ok hpb with h0 | ⟨-, -, hall⟩
        · rw [h0] at hp
          cases hp
        · obtain ⟨-, -, p3, p4⟩ := hall p hp
          exact ⟨by rw [p3]; exact fix_up_unaligned_aligned _ _, p4, hu⟩

/-- What holds of the contiguous ranges.  `used` are the used memory ranges
that `parse_memory_map` registers first: the low memory, the kernel image
and, if the Multiboot flags say so, the boot modules.  For every contiguous
range `[lower, upper]` that the loop over the memory map builds, every page
address `lower + i * PAGE_SIZE <= upper` is page-aligned and lies in none of
the used ranges, tested inclusively as `start <= addr <= end`. -/
theorem contiguous_ranges_avoid_used_memory (boot : BootInfo) (used : List UsedMemoryRange)
    (parsed : List PhysicalMemoryRange × List ContiguousPhysicalVirtualRange)
    (hused : initial_used_memory_ranges boot = .ok used)
    (hparsed : parse_memory_map_entries used boot.multiboot_memory_map ([], []) = .ok parsed) :
    ({ type := .LowMemory, start := 0, range_end := 0x100000 } ∈ used ∧
      (∃ kernel_end, page_round_up boot.kernel_image_end = .ok kernel_end ∧
        { type := .Kernel, start := boot.kernel_image_start, range_end := kernel_end } ∈ used) ∧
      (boot.multiboot_flags &&& 0x4 ≠ 0 → ∀ bootmod ∈ boot.multiboot_copy_boot_modules_array,
        { type := .BootModule, start := bootmod.1, range_end := bootmod.2 } ∈ used)) ∧
    ∀ r ∈ parsed.2, ∀ i, r.lower + i * PAGE_SIZE ≤ r.upper →
      (r.lower + i * PAGE_SIZE) % PAGE_SIZE = 0 ∧
      ∀ u ∈ used, ¬ (u.start ≤ r.lower + i * PAGE_SIZE ∧ r.lower + i * PAGE_SIZE ≤ u.range_end) := by
  refine ⟨?_, ?_⟩
  · unfold initial_used_memory_ranges at hused
    cases hk : page_round_up boot.kernel_image_end with
    | error e => simp [hk] at hused
    | ok kernel_end =>
      rw [hk] at hused
      simp only [Outcome.ok.injEq] at hused
      subst hused
      refine ⟨by simp, ⟨kernel_end, rfl, by simp⟩, ?_⟩
      intro hflag bootmod hb
      rw [if_pos hflag]
      simp only [List.mem_append, List.mem_map]
      exact Or.inr ⟨bootmod, hb, rfl⟩
  · intro r hr i hi
    have hgood := parse_memory_map_entries_good used
      boot.multiboot_memory_map ([], []) parsed
      (by intro r hr; cases hr) hparsed
    obtain ⟨g1, -, g3⟩ := (hgood r hr).2 i hi
    refine ⟨g1, ?_⟩
    intro u hu hin
    unfold in_used_memory_range at g3
    have hany : (used.any fun used_range =>
        decide (r.lower + i * PAGE_SIZE ≥ used_range.start) &&
          decide (r.lower + i * PAGE_SIZE ≤ used_range.range_end)) = true := by
      rw [List.any_eq_true]
      exact ⟨u, hu, by simp [hin.1, hin.2]⟩
    rw [g3] at hany
    cases hany

/-- C22 fails on `bad_memory_boot`, whose memory map has one page of bad
memory at `0x410000` between two usable records.  The page loop runs to
`address + length` inclusive, so for the first usable record it takes the page
that starts at the end of the record, the page of bad memory; the second
usable record begins one page later and extends the same contiguous range.
The range `[0x400000, 0x421000]` that `parse_memory_map` builds contains the
page address `0x400000 + 16 * PAGE_SIZE = 0x410000`, which lies in no usable
record, is the bad memory of the map, and is a free frame of the physical
region that `parse_memory_map` leaves for allocation. -/
theorem bad_memory_page_enters_contiguous_range :
    initial_used_memory_ranges bad_memory_boot
      = .ok [{ type := .LowMemory, start := 0, range_end := 0x100000 },
             { type := .Kernel, start := 0x100000, range_end := 0x300000 }] ∧
    parse_memory_map_entries
      [{ type := .LowMemory, start := 0, range_end := 0x100000 },
       { type := .Kernel, start := 0x100000, range_end := 0x300000 }]
      bad_memory_boot.multiboot_memory_map ([], [])
      = .ok ([{ type := .Usable, start := 0x400000, length := 0x10000 },
              { type := .BadMemory, start := 0x410000, length := 0x1000 },
              { type := .Usable, start := 0x411000, length := 0x10000 }],
          [{ lower := 0x400000, upper := 0x421000 }]) ∧
    0x400000 + 16 * PAGE_SIZE = 0x410000 ∧ 0x400000 + 16 * PAGE_SIZE ≤ 0x421000 ∧
    in_usable_record bad_memory_boot.multiboot_memory_map 0x410000 = false ∧
    parse_memory_map bad_memory_boot = .ok bad_memory_boot_result ∧
    bad_memory_boot_result.physical_regions
      = [{ lower := 0x404000, frames := List.replicate 29 true }] ∧
    PhysicalRegion.contains { lower := 0x404000, frames := List.replicate 29 true } 0x410000
      = true ∧
    (List.replicate 29 true).get? ((0x410000 - 0x404000) / PAGE_SIZE) = some true :=
  ⟨rfl, rfl, rfl, by decide, rfl, rfl, rfl, rfl, rfl⟩

end Kernel.Memory
